import Mathlib

/-!
# Chronos job scheduler: a shallow embedding of the job lifecycle

The development follows the JavaScript sources:

* `src/utils/constants.js`      : the status and type enumerations
* `src/models/Job.js`            : the job record and `updateStatus`
* `src/models/JobLog.js`         : the job log entry
* `src/services/queueService.js` : the queue adapter
* `src/services/jobService.js`   : the executor and its handlers
* `src/controllers/jobController.js` : create / update / cancel / retry
* `src/services/schedulerService.js` : the recurring schedule registry
* `src/utils/helpers.js`         : `isValidCronExpression`, `calculateNextRun`,
  `formatDuration`

Modelling conventions.

* Instants (`Date`) are natural numbers of milliseconds; every clock read of
  the source (`new Date()`, `Date.now()`) is an explicit argument.
* Identifiers (Mongo `_id`, owner id, queue job id) are natural numbers.
* JavaScript numbers are doubles.  Instants, counters, priorities and their
  sums and differences are whole numbers far below `2 ^ 53`, where the
  arithmetic of doubles is exact: they are embedded as `Nat` and `Int`.  The
  argument of `formatDuration` is any whole number, and that function is
  embedded with the rounding of doubles.
* The Mongo store is a list of records.  A loaded document is a pair of the
  record as last synchronised and the record as currently held in memory;
  `save` writes to the stored record exactly the fields on which the two
  differ, which is how a Mongoose document persists its modified paths.
  A save runs the validators of `models/Job.js` first and is rejected when
  they fail; an insert validates the whole document and stores its `Mixed`
  payload minimised.  Connection failures of the store are not modelled; the
  Mongoose `timestamps` bookkeeping fields (`createdAt`, `updatedAt`) are left
  out.
* The Bull queue is an explicit state with a trace of every call made to it;
  when `up` is false every call throws.
* The library `node-cron` is outside these sources: whether `cron.schedule`
  accepts an expression is a parameter `nodeCron` of the registry operations.
* `logger.*` calls have no effect on the modelled state and are dropped.
-/

namespace Chronos

/-! ## Constants (`utils/constants.js`) -/

/-- The values of `JOB_STATUSES`. -/
inductive JobStatus
  | PENDING | ACTIVE | COMPLETED | FAILED | DELAYED | CANCELLED
  deriving DecidableEq, Repr

/-- The values of `JOB_TYPES`. -/
inductive JobType
  | IMMEDIATE | SCHEDULED | RECURRING | DELAYED
  deriving DecidableEq, Repr

/-! ## JavaScript values (`Mixed` fields: payload, result, log data) -/

/-- A JavaScript value.  Objects are association chains built with `objCons`
ending in `objNil` (the empty object). -/
inductive Val
  | undefined
  | null
  | bool (b : Bool)
  | num (n : Int)
  | str (s : String)
  | date (ms : Nat)
  | objNil
  | objCons (key : String) (value : Val) (rest : Val)
  deriving DecidableEq, Repr

namespace Val

/-- Property read `v.key` on a value that is neither `null` nor `undefined`:
the first binding of the key in an object, `undefined` otherwise. -/
def getProp : Val → String → Val
  | objCons k v rest, key => if k = key then v else getProp rest key
  | _, _ => undefined

/-- JavaScript truthiness. -/
def truthy : Val → Bool
  | undefined => false
  | null => false
  | bool b => b
  | num n => n != 0
  | str s => s != ""
  | _ => true

/-- The expression `v || d`. -/
def orElse (v d : Val) : Val := if v.truthy then v else d

end Val

/-- A thrown JavaScript `Error`. -/
structure JsError where
  message : String
  stack : String
  deriving DecidableEq, Repr

/-! ## JavaScript strings -/

/-- The characters `String.prototype.trim` removes. -/
def isJsWhitespace (c : Char) : Bool :=
  let n := c.toNat
  n = 9 || n = 10 || n = 11 || n = 12 || n = 13 || n = 32 || n = 160 || n = 5760 ||
  (8192 ≤ n && n ≤ 8202) || n = 8232 || n = 8233 || n = 8239 || n = 8287 ||
  n = 12288 || n = 65279

/-- The method `String.prototype.trim`. -/
def jsTrim (s : String) : String :=
  String.mk ((s.toList.dropWhile isJsWhitespace).reverse.dropWhile isJsWhitespace).reverse

/-- The `length` of a JavaScript string, in UTF-16 code units. -/
def jsLength (s : String) : Nat :=
  (s.toList.map (fun c => if c.toNat < 65536 then 1 else 2)).sum

/-! ## The job record (`models/Job.js`) -/

/-- A document of the `Job` collection. -/
structure Job where
  _id : Nat
  name : String
  description : Option String
  type : JobType
  status : JobStatus
  payload : Val
  scheduledAt : Option Nat
  cronExpression : Option String
  delay : Option Nat
  priority : Int
  maxRetries : Nat
  currentRetries : Nat
  owner : Nat
  bullJobId : Option Nat
  startedAt : Option Nat
  completedAt : Option Nat
  failedAt : Option Nat
  result : Option Val
  error : Option String
  executionTime : Option Int
  nextRunAt : Option Nat
  tags : List String
  deriving DecidableEq, Repr

/-- The second argument of `updateStatus`: the keys the callers pass
(`result`, `error`, `executionTime`), each possibly absent. -/
structure AdditionalData where
  result : Option Val
  error : Option String
  executionTime : Option Int
  deriving DecidableEq, Repr

/-- The default `additionalData = {}`. -/
def AdditionalData.empty : AdditionalData := ⟨none, none, none⟩

/-- The call `Object.assign(this, additionalData)`. -/
def Job.assignAdditional (j : Job) (a : AdditionalData) : Job :=
  { j with
    result := match a.result with | some r => some r | none => j.result
    error := match a.error with | some e => some e | none => j.error
    executionTime := match a.executionTime with
      | some t => some t
      | none => j.executionTime }

/-- The in-memory part of `jobSchema.methods.updateStatus` (everything before
`this.save()`); `now` is the value of `new Date()`. -/
def Job.updateStatusFields (j : Job) (now : Nat) (status : JobStatus)
    (additionalData : AdditionalData) : Job :=
  let j1 : Job := { j with status := status }
  let j2 : Job :=
    if status = JobStatus.ACTIVE then
      { j1 with startedAt := some now }
    else if status = JobStatus.COMPLETED then
      let j3 : Job := { j1 with completedAt := some now }
      match j3.startedAt with
      | some s => { j3 with executionTime := some ((now : Int) - (s : Int)) }
      | none => j3
    else if status = JobStatus.FAILED then
      { j1 with failedAt := some now, currentRetries := j1.currentRetries + 1 }
    else j1
  j2.assignAdditional additionalData

/-! ## Documents and the store -/

/-- A loaded Mongoose document: the record as last synchronised with the
store and the record as currently held in memory. -/
structure Doc where
  saved : Job
  cur : Job
  deriving DecidableEq, Repr

/-- A freshly loaded document. -/
def Doc.load (j : Job) : Doc := ⟨j, j⟩

/-- The value a save leaves in one field of the stored record: the in-memory
value when the path is modified, the stored value otherwise. -/
def pick {α : Type} [DecidableEq α] (saved cur stored : α) : α :=
  if cur = saved then stored else cur

/-- The effect of saving a document on the stored record with the same id:
only the modified paths are written. -/
def mergeModified (saved cur r : Job) : Job :=
  { _id := r._id
    name := pick saved.name cur.name r.name
    description := pick saved.description cur.description r.description
    type := pick saved.type cur.type r.type
    status := pick saved.status cur.status r.status
    payload := pick saved.payload cur.payload r.payload
    scheduledAt := pick saved.scheduledAt cur.scheduledAt r.scheduledAt
    cronExpression := pick saved.cronExpression cur.cronExpression r.cronExpression
    delay := pick saved.delay cur.delay r.delay
    priority := pick saved.priority cur.priority r.priority
    maxRetries := pick saved.maxRetries cur.maxRetries r.maxRetries
    currentRetries := pick saved.currentRetries cur.currentRetries r.currentRetries
    owner := pick saved.owner cur.owner r.owner
    bullJobId := pick saved.bullJobId cur.bullJobId r.bullJobId
    startedAt := pick saved.startedAt cur.startedAt r.startedAt
    completedAt := pick saved.completedAt cur.completedAt r.completedAt
    failedAt := pick saved.failedAt cur.failedAt r.failedAt
    result := pick saved.result cur.result r.result
    error := pick saved.error cur.error r.error
    executionTime := pick saved.executionTime cur.executionTime r.executionTime
    nextRunAt := pick saved.nextRunAt cur.nextRunAt r.nextRunAt
    tags := pick saved.tags cur.tags r.tags }

/-- The call `Job.findById(id)`. -/
def findById (jobs : List Job) (id : Nat) : Option Job :=
  jobs.find? (fun j => decide (j._id = id))

/-- The call `Job.findOne({ _id: id, owner: owner })`. -/
def findOne (jobs : List Job) (id owner : Nat) : Option Job :=
  jobs.find? (fun j => decide (j._id = id) && decide (j.owner = owner))

/-- The write of a `doc.save()` that passed validation: the stored record with
the id of the document receives the modified paths. -/
def writeModified (jobs : List Job) (d : Doc) : List Job :=
  jobs.map (fun r => if r._id = d.cur._id then mergeModified d.saved d.cur r else r)

/-- The `required` validator of the `Mixed` path `payload`: the value is neither
`undefined` nor `null`. -/
def payloadPresent (v : Val) : Bool :=
  !(decide (v = Val.undefined) || decide (v = Val.null))

/-- The validators of `name`: `required` (a string that is not empty) and
`maxlength: 100`. -/
def nameValid (name : String) : Bool :=
  name != "" && decide (jsLength name ≤ 100)

/-- The validator of `description`: `maxlength: 500`, run on a value that is
set. -/
def descriptionValid (description : Option String) : Bool :=
  match description with
  | some d => decide (jsLength d ≤ 500)
  | none => true

/-- The validators of `priority`: `min: -10` and `max: 10`. -/
def priorityValid (priority : Int) : Bool :=
  decide (-10 ≤ priority) && decide (priority ≤ 10)

/-- The validators of `maxRetries`: `min: 0` and `max: 10`. -/
def maxRetriesValid (maxRetries : Nat) : Bool :=
  decide (maxRetries ≤ 10)

/-- Validation of a new document: every validator of `jobSchema`.  The paths
`type`, `status` and `owner` are present and within their enumeration by their
type, and `delay` (`min: 0`) is a natural number. -/
def jobSchemaValid (j : Job) : Bool :=
  nameValid j.name && descriptionValid j.description && payloadPresent j.payload &&
  priorityValid j.priority && maxRetriesValid j.maxRetries

/-- Validation before the save of a loaded document: the `required` validator
of `payload`, and the validators of the paths modified since the load.  The
other required paths (`name`, `type`, `owner`) are never absent from a stored
record: the insert validated them, and so did every save that changed them;
the payload is the one required path an insert can leave out of the stored
record (see `minimize`). -/
def saveValid (d : Doc) : Bool :=
  payloadPresent d.cur.payload &&
  (decide (d.cur.name = d.saved.name) || nameValid d.cur.name) &&
  (decide (d.cur.description = d.saved.description) || descriptionValid d.cur.description) &&
  (decide (d.cur.priority = d.saved.priority) || priorityValid d.cur.priority) &&
  (decide (d.cur.maxRetries = d.saved.maxRetries) || maxRetriesValid d.cur.maxRetries)

/-- The `ValidationError` of a rejected save. -/
def validationError : JsError := ⟨"Job validation failed", ""⟩

/-- The call `doc.save()` on a loaded document: the validators run first and a
failing one throws before anything is written. -/
def saveDoc (jobs : List Job) (d : Doc) : Except JsError (List Job) :=
  if saveValid d then Except.ok (writeModified jobs d) else Except.error validationError

/-- What the schema option `minimize` (on by default) leaves of a `Mixed` value
when a new document is written: a key bound to `undefined` or to an object
without keys is dropped, and an object left without keys is not stored at all
(`undefined`). -/
def minimize : Val → Val
  | Val.objNil => Val.undefined
  | Val.objCons k v rest =>
    match minimize v with
    | Val.undefined => minimize rest
    | v1 =>
      match minimize rest with
      | Val.undefined => Val.objCons k v1 Val.objNil
      | r1 => Val.objCons k v1 r1
  | v => v

/-- The record an insert writes for a new document. -/
def storedForm (j : Job) : Job := { j with payload := minimize j.payload }

/-- The insert of a new document (`Job.create(data)`, `new Job(data).save()`):
the whole document is validated, then written in its stored form. -/
def insertDoc (jobs : List Job) (j : Job) : Except JsError (List Job) :=
  if jobSchemaValid j then Except.ok (jobs ++ [storedForm j]) else Except.error validationError

/-- The document after a save: nothing is modified any more. -/
def Doc.synced (d : Doc) : Doc := ⟨d.cur, d.cur⟩

/-- An id no stored record has (the fresh `ObjectId` of a new document). -/
def freshId (jobs : List Job) : Nat :=
  (jobs.map (fun j => j._id)).foldr max 0 + 1

/-! ## Job log entries (`models/JobLog.js`) -/

/-- A document of the `JobLog` collection. -/
structure JobLog where
  jobId : Nat
  level : String
  message : String
  data : Val
  executionStep : Val
  deriving DecidableEq, Repr

/-! ## The Bull queue -/

/-- A JavaScript number used as a delay: an integer or `NaN`. -/
inductive JsNum
  | nan
  | int (i : Int)
  deriving DecidableEq, Repr

/-- The options object of `queue.add`.  `delay` and `repeatCron` are absent
(`none`) when the call does not pass the key; `repeatCron` carries the value
of `job.cronExpression`, itself possibly `undefined`. -/
structure QueueOpts where
  delay : Option JsNum
  repeatCron : Option (Option String)
  priority : Int
  attempts : Nat
  removeOnComplete : Nat
  removeOnFail : Nat
  deriving DecidableEq, Repr

/-- The data object of `queue.add`, which the worker hands to `executeJob`. -/
structure JobData where
  id : Nat
  type : JobType
  payload : Val
  deriving DecidableEq, Repr

/-- One `queue.add(name, data, opts)` request. -/
structure EnqueueRequest where
  name : String
  data : JobData
  opts : QueueOpts
  deriving DecidableEq, Repr

/-- A job held by the queue. -/
structure BullJob where
  id : Nat
  request : EnqueueRequest
  deriving DecidableEq, Repr

/-- A call made to the queue. -/
inductive QueueCall
  | add (r : EnqueueRequest)
  | getJob (id : Nat)
  | remove (id : Nat)
  deriving DecidableEq, Repr

/-- The queue: whether it answers, the id it assigns next, the entries it
holds and the trace of the calls made to it. -/
structure Queue where
  up : Bool
  nextId : Nat
  entries : List BullJob
  calls : List QueueCall
  deriving DecidableEq, Repr

/-- The error of a call to a queue that does not answer. -/
def queueDown : JsError := ⟨"Queue unavailable", ""⟩

/-- The call `queue.add(name, data, opts)`. -/
def Queue.add (q : Queue) (r : EnqueueRequest) : Except JsError BullJob × Queue :=
  let q1 : Queue := { q with calls := q.calls ++ [QueueCall.add r] }
  if q.up then
    (Except.ok ⟨q.nextId, r⟩,
      { q1 with nextId := q.nextId + 1, entries := q.entries ++ [⟨q.nextId, r⟩] })
  else (Except.error queueDown, q1)

/-- The call `queue.getJob(id)`; `none` is the `null` of an absent entry. -/
def Queue.getJob (q : Queue) (id : Nat) : Except JsError (Option BullJob) × Queue :=
  let q1 : Queue := { q with calls := q.calls ++ [QueueCall.getJob id] }
  if q.up then (Except.ok (q.entries.find? (fun b => decide (b.id = id))), q1)
  else (Except.error queueDown, q1)

/-- The call `job.remove()` on a queue entry. -/
def Queue.remove (q : Queue) (id : Nat) : Except JsError Unit × Queue :=
  let q1 : Queue := { q with calls := q.calls ++ [QueueCall.remove id] }
  if q.up then
    (Except.ok (), { q1 with entries := q.entries.filter (fun b => !decide (b.id = id)) })
  else (Except.error queueDown, q1)

/-- The enqueue requests among a trace of queue calls. -/
def enqueueRequests : List QueueCall → List EnqueueRequest
  | [] => []
  | QueueCall.add r :: cs => r :: enqueueRequests cs
  | _ :: cs => enqueueRequests cs

/-! ## The queue adapter (`services/queueService.js`) -/

namespace queueService

/-- The data object every adapter function passes. -/
def jobData (job : Job) : JobData := ⟨job._id, job.type, job.payload⟩

/-- The request built by `addImmediateJob`. -/
def immediateRequest (job : Job) : EnqueueRequest :=
  { name := "immediate"
    data := jobData job
    opts :=
      { delay := none, repeatCron := none, priority := job.priority
        attempts := job.maxRetries, removeOnComplete := 100, removeOnFail := 50 } }

/-- The request built by `addScheduledJob` for a computed delay. -/
def scheduledRequest (job : Job) (delay : JsNum) : EnqueueRequest :=
  { name := "scheduled"
    data := jobData job
    opts :=
      { delay := some delay, repeatCron := none, priority := job.priority
        attempts := job.maxRetries, removeOnComplete := 100, removeOnFail := 50 } }

/-- The request built by `addRecurringJob`. -/
def recurringRequest (job : Job) : EnqueueRequest :=
  { name := "recurring"
    data := jobData job
    opts :=
      { delay := none, repeatCron := some job.cronExpression, priority := job.priority
        attempts := job.maxRetries, removeOnComplete := 100, removeOnFail := 50 } }

/-- The request built by `addDelayedJob`. -/
def delayedRequest (job : Job) : EnqueueRequest :=
  { name := "delayed"
    data := jobData job
    opts :=
      { delay := job.delay.map (fun d => JsNum.int (d : Int)), repeatCron := none
        priority := job.priority, attempts := job.maxRetries
        removeOnComplete := 100, removeOnFail := 50 } }

/-- The function `addImmediateJob`. -/
def addImmediateJob (job : Job) (q : Queue) : Except JsError BullJob × Queue :=
  q.add (immediateRequest job)

/-- The value of `new Date(job.scheduledAt) - new Date()`: `NaN` when
`scheduledAt` is `undefined`. -/
def scheduledDelay (now : Nat) (job : Job) : JsNum :=
  match job.scheduledAt with
  | some s => JsNum.int ((s : Int) - (now : Int))
  | none => JsNum.nan

/-- The test `delay <= 0`, false on `NaN`. -/
def JsNum.leZero : JsNum → Bool
  | JsNum.int i => decide (i ≤ 0)
  | JsNum.nan => false

/-- The error thrown by `addScheduledJob`. -/
def scheduleInPast : JsError := ⟨"Scheduled time must be in the future", ""⟩

/-- The function `addScheduledJob`; `now` is the value of `new Date()`. -/
def addScheduledJob (now : Nat) (job : Job) (q : Queue) : Except JsError BullJob × Queue :=
  let delay := scheduledDelay now job
  if JsNum.leZero delay then (Except.error scheduleInPast, q)
  else q.add (scheduledRequest job delay)

/-- The function `addRecurringJob`. -/
def addRecurringJob (job : Job) (q : Queue) : Except JsError BullJob × Queue :=
  q.add (recurringRequest job)

/-- The function `addDelayedJob`. -/
def addDelayedJob (job : Job) (q : Queue) : Except JsError BullJob × Queue :=
  q.add (delayedRequest job)

/-- The function `cancelJob` of the adapter. -/
def cancelJob (bullJobId : Nat) (q : Queue) : Except JsError Unit × Queue :=
  match q.getJob bullJobId with
  | (Except.error e, q1) => (Except.error e, q1)
  | (Except.ok none, q1) => (Except.ok (), q1)
  | (Except.ok (some b), q1) => q1.remove b.id

/-- The `switch (job.type)` shared by the controller and by `updateJob`. -/
def addByType (now : Nat) (job : Job) (q : Queue) : Except JsError BullJob × Queue :=
  match job.type with
  | JobType.IMMEDIATE => addImmediateJob job q
  | JobType.SCHEDULED => addScheduledJob now job q
  | JobType.RECURRING => addRecurringJob job q
  | JobType.DELAYED => addDelayedJob job q

/-- The function `updateJob` of the adapter. -/
def updateJob (now : Nat) (job : Job) (q : Queue) : Except JsError BullJob × Queue :=
  match job.bullJobId with
  | some b =>
    match cancelJob b q with
    | (Except.error e, q1) => (Except.error e, q1)
    | (Except.ok _, q1) => addByType now job q1
  | none => addByType now job q

/-- The function `retryJob` of the adapter. -/
def retryJob (job : Job) (q : Queue) : Except JsError BullJob × Queue :=
  addImmediateJob job q

end queueService

/-! ## The world: store, log collection and queue -/

/-- The state the core operations act on. -/
structure World where
  jobs : List Job
  logs : List JobLog
  queue : Queue
  deriving DecidableEq, Repr

/-- Build an object from its key/value pairs, in order. -/
def mkObj : List (String × Val) → Val
  | [] => Val.objNil
  | (k, v) :: rest => Val.objCons k v (mkObj rest)

/-! ## The executor (`services/jobService.js`) -/

namespace jobService

/-- What a handler reads from its environment: `new Date()`, `Date.now()` and
the decimal text of `Math.random() * 100`. -/
structure HandlerEnv where
  date : Nat
  now : Nat
  random : String
  deriving DecidableEq, Repr

/-- The clock reads of one `executeJob` run: `Date.now()` on entry, `new Date()`
in `updateStatus(ACTIVE)`, `Date.now()` after the handler (or in the `catch`
block) and `new Date()` in the final `updateStatus`. -/
structure ExecClock where
  startTime : Nat
  activeAt : Nat
  endTime : Nat
  doneAt : Nat
  deriving DecidableEq, Repr

/-- The handler `executeEmailJob`. -/
def executeEmailJob (env : HandlerEnv) (payload : Val) : Val :=
  mkObj
    [("type", Val.str "email"),
     ("recipient", payload.getProp "recipient"),
     ("subject", payload.getProp "subject"),
     ("sentAt", Val.date env.date),
     ("messageId", Val.str ("msg_" ++ toString env.now))]

/-- The handler `executeWebhookJob`. -/
def executeWebhookJob (env : HandlerEnv) (payload : Val) : Val :=
  mkObj
    [("type", Val.str "webhook"),
     ("url", payload.getProp "url"),
     ("method", (payload.getProp "method").orElse (Val.str "POST")),
     ("status", Val.num 200),
     ("response", mkObj [("success", Val.bool true)]),
     ("calledAt", Val.date env.date)]

/-- The handler `executeDataProcessingJob`. -/
def executeDataProcessingJob (env : HandlerEnv) (payload : Val) : Val :=
  mkObj
    [("type", Val.str "data_processing"),
     ("recordsProcessed", (payload.getProp "recordCount").orElse (Val.num 100)),
     ("complexity", (payload.getProp "complexity").orElse (Val.str "medium")),
     ("processedAt", Val.date env.date),
     ("outputLocation", (payload.getProp "outputPath").orElse (Val.str "/tmp/processed_data"))]

/-- The handler `executeCleanupJob`. -/
def executeCleanupJob (env : HandlerEnv) (payload : Val) : Val :=
  mkObj
    [("type", Val.str "cleanup"),
     ("itemsDeleted", (payload.getProp "itemCount").orElse (Val.num 50)),
     ("location", (payload.getProp "location").orElse (Val.str "/tmp/cleanup")),
     ("freedSpace", Val.str (env.random ++ "MB")),
     ("cleanedAt", Val.date env.date)]

/-- The handler `executeCustomJob`. -/
def executeCustomJob (env : HandlerEnv) (payload : Val) : Val :=
  mkObj
    [("type", Val.str "custom"),
     ("action", (payload.getProp "action").orElse (Val.str "unknown")),
     ("parameters", (payload.getProp "parameters").orElse Val.objNil),
     ("executedAt", Val.date env.date),
     ("customResult", Val.str "Job executed successfully")]

/-- The `TypeError` of reading `.type` on a `null` or `undefined` payload. -/
def payloadTypeError : JsError := ⟨"Cannot read properties of a nullish payload", ""⟩

/-- The `switch (job.payload.type)` of `executeJob` with its five handlers. -/
def runHandler (env : HandlerEnv) (payload : Val) : Except JsError Val :=
  if payload = Val.undefined ∨ payload = Val.null then Except.error payloadTypeError
  else if payload.getProp "type" = Val.str "email" then
    Except.ok (executeEmailJob env payload)
  else if payload.getProp "type" = Val.str "webhook" then
    Except.ok (executeWebhookJob env payload)
  else if payload.getProp "type" = Val.str "data_processing" then
    Except.ok (executeDataProcessingJob env payload)
  else if payload.getProp "type" = Val.str "cleanup" then
    Except.ok (executeCleanupJob env payload)
  else Except.ok (executeCustomJob env payload)

/-- The function `createJobLog`: one more entry in the log collection. -/
def createJobLog (jobId : Nat) (level message : String) (data : Val) (w : World) : World :=
  { w with
    logs := w.logs ++
      [{ jobId := jobId, level := level, message := message, data := data
         executionStep := (data.getProp "step").orElse (Val.str "execution") }] }

/-- The error thrown when `Job.findById` finds nothing. -/
def jobNotFound (id : Nat) : JsError := ⟨"Job " ++ toString id ++ " not found", ""⟩

/-- The method `updateStatus` on a loaded document: set the fields, save.
Returns the error of a rejected save (`none` when the save went through), the
document as it is held in memory afterwards, and the world.  A rejected save
leaves the store as it was and the document with its fields set. -/
def updateStatus (now : Nat) (status : JobStatus) (a : AdditionalData) (d : Doc)
    (w : World) : Option JsError × Doc × World :=
  let d1 : Doc := { saved := d.saved, cur := d.cur.updateStatusFields now status a }
  match saveDoc w.jobs d1 with
  | Except.ok jobs => (none, d1.synced, { w with jobs := jobs })
  | Except.error e => (some e, d1, w)

/-- First part of `executeJob`: load the record, write the ACTIVE transition,
log the start.  Returns the loaded document; an error comes with the value the
variable `job` holds when the `catch` block is entered. -/
def executeJobStart (c : ExecClock) (jobData : JobData) (w : World) :
    Except (JsError × Option Doc) Doc × World :=
  match findById w.jobs jobData.id with
  | none => (Except.error (jobNotFound jobData.id, none), w)
  | some j =>
    match updateStatus c.activeAt JobStatus.ACTIVE AdditionalData.empty (Doc.load j) w with
    | (some e, d, w1) => (Except.error (e, some d), w1)
    | (none, d, w1) =>
      (Except.ok d,
        createJobLog d.cur._id "info" "Job execution started"
          (mkObj [("payload", d.cur.payload)]) w1)

/-- The success branch of `executeJob`, after the handler returned `result`; a
rejected save throws into the `catch` block, with the document as it then is. -/
def executeJobSuccess (c : ExecClock) (d : Doc) (result : Val) (w : World) :
    Except (JsError × Doc) Val × World :=
  let executionTime : Int := (c.endTime : Int) - (c.startTime : Int)
  match updateStatus c.doneAt JobStatus.COMPLETED ⟨some result, none, some executionTime⟩ d w with
  | (some e, d1, w1) => (Except.error (e, d1), w1)
  | (none, d1, w1) =>
    (Except.ok result,
      createJobLog d1.cur._id "info" "Job completed successfully"
        (mkObj [("result", result), ("executionTime", Val.num executionTime)]) w1)

/-- The `catch` block of `executeJob`, as seen by the world; `d` is the variable
`job`, `none` when the record was never loaded.  When the save of the FAILED
transition is rejected the block is left before the log entry is written. -/
def executeJobFailure (c : ExecClock) (d : Option Doc) (err : JsError) (w : World) : World :=
  let executionTime : Int := (c.endTime : Int) - (c.startTime : Int)
  match d with
  | none => w
  | some d0 =>
    match updateStatus c.doneAt JobStatus.FAILED ⟨none, some err.message, some executionTime⟩
        d0 w with
    | (some _, _, w1) => w1
    | (none, d1, w1) =>
      createJobLog d1.cur._id "error" "Job failed"
        (mkObj [("error", Val.str err.message), ("stack", Val.str err.stack),
                ("executionTime", Val.num executionTime)]) w1

/-- The error that leaves the `catch` block of `executeJob`: the caught error,
rethrown by `throw error`, or the error of the save the block itself makes. -/
def executeJobRethrown (c : ExecClock) (d : Option Doc) (err : JsError) (w : World) : JsError :=
  let executionTime : Int := (c.endTime : Int) - (c.startTime : Int)
  match d with
  | none => err
  | some d0 =>
    match updateStatus c.doneAt JobStatus.FAILED ⟨none, some err.message, some executionTime⟩
        d0 w with
    | (some e, _, _) => e
    | (none, _, _) => err

/-- The function `executeJob` with the handler dispatch as a parameter. -/
def executeJobWith (handler : Val → Except JsError Val) (c : ExecClock) (jobData : JobData)
    (w : World) : Except JsError Val × World :=
  match executeJobStart c jobData w with
  | (Except.error (e, d), w1) =>
    (Except.error (executeJobRethrown c d e w1), executeJobFailure c d e w1)
  | (Except.ok d, w1) =>
    match handler d.cur.payload with
    | Except.ok result =>
      match executeJobSuccess c d result w1 with
      | (Except.ok r, w2) => (Except.ok r, w2)
      | (Except.error (e, d1), w2) =>
        (Except.error (executeJobRethrown c (some d1) e w2), executeJobFailure c (some d1) e w2)
    | Except.error e =>
      (Except.error (executeJobRethrown c (some d) e w1), executeJobFailure c (some d) e w1)

/-- The function `executeJob`. -/
def executeJob (env : HandlerEnv) (c : ExecClock) (jobData : JobData) (w : World) :
    Except JsError Val × World :=
  executeJobWith (runHandler env) c jobData w

end jobService

/-! ## Request bodies and their validators (`validators/jobValidator.js`) -/

/-- A body accepted in shape by `createJobSchema`: the required keys are
present, the optional ones may be absent. -/
structure CreateJobBody where
  name : String
  description : Option String
  type : JobType
  payload : Val
  scheduledAt : Option Nat
  cronExpression : Option String
  delay : Option Nat
  priority : Option Int
  maxRetries : Option Nat
  tags : Option (List String)
  deriving DecidableEq, Repr

/-- A body accepted in shape by `updateJobSchema`: every key is optional. -/
structure UpdateJobBody where
  name : Option String
  description : Option String
  scheduledAt : Option Nat
  cronExpression : Option String
  delay : Option Nat
  priority : Option Int
  maxRetries : Option Nat
  tags : Option (List String)
  deriving DecidableEq, Repr

/-- The test `Joi.object()` on a payload. -/
def isObject : Val → Bool
  | Val.objNil => true
  | Val.objCons _ _ _ => true
  | _ => false

/-- The rule `Joi.string().trim().max(n)`. -/
def joiString (n : Nat) (s : String) : Bool :=
  jsTrim s != "" && decide (jsLength (jsTrim s) ≤ n)

/-- The value constraints of `createJobSchema`; `now` is the instant of the
validation (`greater('now')`). -/
def createJobSchema (now : Nat) (b : CreateJobBody) : Bool :=
  joiString 100 b.name &&
  (match b.description with
    | some d => d != "" && decide (jsLength d ≤ 500)
    | none => true) &&
  isObject b.payload &&
  (match b.scheduledAt with
    | some s => decide (now < s)
    | none => b.type != JobType.SCHEDULED) &&
  (match b.cronExpression with
    | some c => c != ""
    | none => b.type != JobType.RECURRING) &&
  (match b.delay with
    | some _ => true
    | none => b.type != JobType.DELAYED) &&
  (match b.priority with
    | some p => decide (-10 ≤ p) && decide (p ≤ 10)
    | none => true) &&
  (match b.maxRetries with
    | some m => decide (m ≤ 10)
    | none => true) &&
  (match b.tags with
    | some ts => ts.all (fun t => jsTrim t != "")
    | none => true)

/-- The value constraints of `updateJobSchema`. -/
def updateJobSchema (now : Nat) (b : UpdateJobBody) : Bool :=
  (match b.name with
    | some n => joiString 100 n
    | none => true) &&
  (match b.description with
    | some d => d != "" && decide (jsLength d ≤ 500)
    | none => true) &&
  (match b.scheduledAt with
    | some s => decide (now < s)
    | none => true) &&
  (match b.cronExpression with
    | some c => c != ""
    | none => true) &&
  (match b.priority with
    | some p => decide (-10 ≤ p) && decide (p ≤ 10)
    | none => true) &&
  (match b.maxRetries with
    | some m => decide (m ≤ 10)
    | none => true) &&
  (match b.tags with
    | some ts => ts.all (fun t => jsTrim t != "")
    | none => true)

/-! ## The orchestrator (`controllers/jobController.js`) -/

namespace jobController

/-- What a controller sends back: the HTTP status, the `success` flag, the
message, and the job of `data: { job }` when there is one. -/
structure Response where
  status : Nat
  success : Bool
  message : String
  job : Option Job
  deriving DecidableEq, Repr

/-- The document `Job.create` builds in memory from `{ ...req.body, owner }`:
the schema defaults (`status`, `priority`, `maxRetries`, `currentRetries`) and
setters (`trim`) applied, under a fresh id.  The record the store receives is
its `storedForm`. -/
def newJob (id owner : Nat) (b : CreateJobBody) : Job :=
  { _id := id
    name := jsTrim b.name
    description := b.description
    type := b.type
    status := JobStatus.PENDING
    payload := b.payload
    scheduledAt := b.scheduledAt
    cronExpression := b.cronExpression
    delay := b.delay
    priority := b.priority.getD 0
    maxRetries := b.maxRetries.getD 5
    currentRetries := 0
    owner := owner
    bullJobId := none
    startedAt := none
    completedAt := none
    failedAt := none
    result := none
    error := none
    executionTime := none
    nextRunAt := none
    tags := (b.tags.getD []).map jsTrim }

/-- The controller `createJob`; `now` is the clock read of `addScheduledJob`.
The counter of the user document (`incrementJobsCount`, on a model outside these
sources) is not part of the state. -/
def createJob (now : Nat) (user : Nat) (body : CreateJobBody) (w : World) : Response × World :=
  let job := newJob (freshId w.jobs) user body
  match insertDoc w.jobs job with
  | Except.error _ => (⟨500, false, "Failed to create job", none⟩, w)
  | Except.ok jobs1 =>
    let w1 : World := { w with jobs := jobs1 }
    match queueService.addByType now job w1.queue with
    | (Except.error _, q1) =>
      (⟨500, false, "Failed to create job", none⟩, { w1 with queue := q1 })
    | (Except.ok bullJob, q1) =>
      let d : Doc := { saved := job, cur := { job with bullJobId := some bullJob.id } }
      match saveDoc w1.jobs d with
      | Except.error _ =>
        (⟨500, false, "Failed to create job", none⟩, { w1 with queue := q1 })
      | Except.ok jobs2 =>
        (⟨201, true, "Job created successfully", some d.cur⟩,
          { w1 with jobs := jobs2, queue := q1 })

/-- The call `Object.assign(job, req.body)` for an update body. -/
def applyPatch (j : Job) (b : UpdateJobBody) : Job :=
  { j with
    name := match b.name with | some n => jsTrim n | none => j.name
    description := match b.description with | some d => some d | none => j.description
    scheduledAt := match b.scheduledAt with | some s => some s | none => j.scheduledAt
    cronExpression := match b.cronExpression with
      | some c => some c
      | none => j.cronExpression
    delay := match b.delay with | some d => some d | none => j.delay
    priority := match b.priority with | some p => p | none => j.priority
    maxRetries := match b.maxRetries with | some m => m | none => j.maxRetries
    tags := match b.tags with | some ts => ts.map jsTrim | none => j.tags }

/-- The 404 answer shared by the controllers. -/
def notFound : Response := ⟨404, false, "Job not found", none⟩

/-- The controller `updateJob`; `now` is the clock read of `addScheduledJob`. -/
def updateJob (now : Nat) (id user : Nat) (body : UpdateJobBody) (w : World) :
    Response × World :=
  match findOne w.jobs id user with
  | none => (notFound, w)
  | some j =>
    if j.status = JobStatus.ACTIVE ∨ j.status = JobStatus.COMPLETED then
      (⟨400, false, "Cannot update job in current status", none⟩, w)
    else
      let d : Doc := { saved := j, cur := applyPatch j body }
      match saveDoc w.jobs d with
      | Except.error _ => (⟨500, false, "Failed to update job", none⟩, w)
      | Except.ok jobs1 =>
        let w1 : World := { w with jobs := jobs1 }
        match d.cur.bullJobId with
        | some _ =>
          match queueService.updateJob now d.cur w1.queue with
          | (Except.error _, q1) =>
            (⟨500, false, "Failed to update job", none⟩, { w1 with queue := q1 })
          | (Except.ok _, q1) =>
            (⟨200, true, "Job updated successfully", some d.cur⟩, { w1 with queue := q1 })
        | none => (⟨200, true, "Job updated successfully", some d.cur⟩, w1)

/-- The controller `cancelJob`. -/
def cancelJob (id user : Nat) (w : World) : Response × World :=
  match findOne w.jobs id user with
  | none => (notFound, w)
  | some j =>
    if j.status = JobStatus.COMPLETED ∨ j.status = JobStatus.CANCELLED then
      (⟨400, false, "Cannot cancel job in current status", none⟩, w)
    else
      -- `updateStatus(CANCELLED)` reads no clock: the instant passed is not used
      let finish (w0 : World) : Response × World :=
        match jobService.updateStatus 0 JobStatus.CANCELLED AdditionalData.empty
            (Doc.load j) w0 with
        | (some _, _, w1) => (⟨500, false, "Failed to cancel job", none⟩, w1)
        | (none, d, w1) => (⟨200, true, "Job cancelled successfully", some d.cur⟩, w1)
      match j.bullJobId with
      | some b =>
        match queueService.cancelJob b w.queue with
        | (Except.error _, q1) =>
          (⟨500, false, "Failed to cancel job", none⟩, { w with queue := q1 })
        | (Except.ok _, q1) => finish { w with queue := q1 }
      | none => finish w

/-- The controller `retryJob`. -/
def retryJob (id user : Nat) (w : World) : Response × World :=
  match findOne w.jobs id user with
  | none => (notFound, w)
  | some j =>
    if j.status ≠ JobStatus.FAILED then
      (⟨400, false, "Only failed jobs can be retried", none⟩, w)
    else if j.currentRetries ≥ j.maxRetries then
      (⟨400, false, "Job has exceeded maximum retry attempts", none⟩, w)
    else
      let d : Doc :=
        { saved := j
          cur := { j with status := JobStatus.PENDING, error := none, failedAt := none } }
      match saveDoc w.jobs d with
      | Except.error _ => (⟨500, false, "Failed to retry job", none⟩, w)
      | Except.ok jobs1 =>
        let w1 : World := { w with jobs := jobs1 }
        match queueService.retryJob d.cur w1.queue with
        | (Except.error _, q1) =>
          (⟨500, false, "Failed to retry job", none⟩, { w1 with queue := q1 })
        | (Except.ok bullJob, q1) =>
          let d2 : Doc := { saved := d.cur, cur := { d.cur with bullJobId := some bullJob.id } }
          match saveDoc w1.jobs d2 with
          | Except.error _ =>
            (⟨500, false, "Failed to retry job", none⟩, { w1 with queue := q1 })
          | Except.ok jobs2 =>
            (⟨200, true, "Job retry initiated successfully", some d2.cur⟩,
              { w1 with jobs := jobs2, queue := q1 })

end jobController

/-! ## Helpers (`utils/helpers.js`) -/

/-- Regular expressions, as far as `cronRegex` needs them. -/
inductive Re
  | fail
  | eps
  | chr (c : Char)
  | range (lo hi : Char)
  | alt (a b : Re)
  | seq (a b : Re)
  deriving DecidableEq, Repr

namespace Re

/-- Whether the expression matches the empty string. -/
def nullable : Re → Bool
  | fail => false
  | eps => true
  | chr _ => false
  | range _ _ => false
  | alt a b => a.nullable || b.nullable
  | seq a b => a.nullable && b.nullable

/-- The derivative of an expression by one character. -/
def deriv : Re → Char → Re
  | fail, _ => fail
  | eps, _ => fail
  | chr c, x => if c = x then eps else fail
  | range lo hi, x => if lo.toNat ≤ x.toNat ∧ x.toNat ≤ hi.toNat then eps else fail
  | alt a b, x => alt (a.deriv x) (b.deriv x)
  | seq a b, x =>
    if a.nullable then alt (seq (a.deriv x) b) (b.deriv x) else seq (a.deriv x) b

/-- Whether the expression matches the whole list of characters. -/
def matchList (r : Re) : List Char → Bool
  | [] => r.nullable
  | c :: cs => (r.deriv c).matchList cs

/-- The call `/^r$/.test(s)`. -/
def test (r : Re) (s : String) : Bool := r.matchList s.toList

/-- An alternation of several expressions. -/
def alts : List Re → Re
  | [] => fail
  | [r] => r
  | r :: rs => alt r (alts rs)

/-- A concatenation of several expressions. -/
def seqs : List Re → Re
  | [] => eps
  | [r] => r
  | r :: rs => seq r (seqs rs)

end Re

/-- The character class `[lo-hi]` on digits. -/
def digits (lo hi : Nat) : Re := Re.range (Char.ofNat (48 + lo)) (Char.ofNat (48 + hi))

/-- The expression `d[lo-hi]`: the digit `d` followed by a digit class. -/
def tens (d lo hi : Nat) : Re := Re.seq (Re.chr (Char.ofNat (48 + d))) (digits lo hi)

/-- One field of `cronRegex`: a star, a number, or a star-slash-number. -/
def cronField (number : Re) : Re :=
  Re.alts [Re.chr (Char.ofNat 42), number,
    Re.seqs [Re.chr (Char.ofNat 42), Re.chr (Char.ofNat 47), number]]

/-- The minute numbers `[0-9]|1[0-9]|2[0-9]|3[0-9]|4[0-9]|5[0-9]`. -/
def minuteNumber : Re :=
  Re.alts [digits 0 9, tens 1 0 9, tens 2 0 9, tens 3 0 9, tens 4 0 9, tens 5 0 9]

/-- The hour numbers `[0-9]|1[0-9]|2[0-3]`. -/
def hourNumber : Re := Re.alts [digits 0 9, tens 1 0 9, tens 2 0 3]

/-- The day-of-month numbers `[1-9]|1[0-9]|2[0-9]|3[0-1]`. -/
def dayNumber : Re := Re.alts [digits 1 9, tens 1 0 9, tens 2 0 9, tens 3 0 1]

/-- The month numbers `[1-9]|1[0-2]`. -/
def monthNumber : Re := Re.alts [digits 1 9, tens 1 0 2]

/-- The day-of-week numbers `[0-6]`. -/
def weekdayNumber : Re := digits 0 6

/-- The constant `cronRegex` of `isValidCronExpression`. -/
def cronRegex : Re :=
  Re.seqs [cronField minuteNumber, Re.chr (Char.ofNat 32), cronField hourNumber,
    Re.chr (Char.ofNat 32), cronField dayNumber, Re.chr (Char.ofNat 32),
    cronField monthNumber, Re.chr (Char.ofNat 32), cronField weekdayNumber]

/-- The function `isValidCronExpression`; an absent expression is tested as the
text `undefined`. -/
def isValidCronExpression (expression : Option String) : Bool :=
  cronRegex.test (expression.getD "undefined")

/-- The function `calculateNextRun`; `now` is the value of `new Date()`. -/
def calculateNextRun (now : Nat) (_cronExpression : Option String) : Nat :=
  now + 24 * 60 * 60 * 1000

/-! ## The recurring schedule registry (`services/schedulerService.js`) -/

namespace schedulerService

/-- A task made by `cron.schedule`: its handle, its expression, the job document
captured by its callback, whether it runs, and how often it was started and
stopped. -/
structure CronTask where
  id : Nat
  expression : Option String
  job : Doc
  running : Bool
  starts : Nat
  stops : Nat
  deriving DecidableEq, Repr

/-- The module state: the map `scheduledTasks` (job id to task handle, in
insertion order) and every task created so far. -/
structure Scheduler where
  scheduledTasks : List (Nat × Nat)
  tasks : List CronTask
  deriving DecidableEq, Repr

/-- The state on module load. -/
def Scheduler.empty : Scheduler := ⟨[], []⟩

/-- The call `scheduledTasks.has(key)`. -/
def Scheduler.has (s : Scheduler) (key : Nat) : Bool :=
  s.scheduledTasks.any (fun e => decide (e.1 = key))

/-- The call `scheduledTasks.get(key)`. -/
def Scheduler.get (s : Scheduler) (key : Nat) : Option Nat :=
  (s.scheduledTasks.find? (fun e => decide (e.1 = key))).map (fun e => e.2)

/-- The call `scheduledTasks.delete(key)`. -/
def Scheduler.delete (s : Scheduler) (key : Nat) : Scheduler :=
  { s with scheduledTasks := s.scheduledTasks.filter (fun e => !decide (e.1 = key)) }

/-- The call `scheduledTasks.set(key, task)`. -/
def Scheduler.set (s : Scheduler) (key task : Nat) : Scheduler :=
  if s.has key then
    { s with scheduledTasks :=
        s.scheduledTasks.map (fun e => if e.1 = key then (key, task) else e) }
  else { s with scheduledTasks := s.scheduledTasks ++ [(key, task)] }

/-- The call `scheduledTasks.keys()`. -/
def Scheduler.keys (s : Scheduler) : List Nat := s.scheduledTasks.map (fun e => e.1)

/-- The call `task.stop()` on the task with the given handle. -/
def Scheduler.stopTask (s : Scheduler) (task : Nat) : Scheduler :=
  { s with tasks :=
      s.tasks.map (fun t => if t.id = task then { t with running := false, stops := t.stops + 1 } else t) }

/-- The call `task.start()` on the task with the given handle. -/
def Scheduler.startTask (s : Scheduler) (task : Nat) : Scheduler :=
  { s with tasks :=
      s.tasks.map (fun t => if t.id = task then { t with running := true, starts := t.starts + 1 } else t) }

/-- The call `cron.schedule(expression, callback, { scheduled: false })`: a new
task, not yet running, under a fresh handle. -/
def Scheduler.createTask (s : Scheduler) (job : Doc) : Nat × Scheduler :=
  (s.tasks.length,
    { s with tasks := s.tasks ++ [⟨s.tasks.length, job.cur.cronExpression, job, false, 0, 0⟩] })

/-- The error thrown by `scheduleRecurringJob` on a bad expression. -/
def invalidCron (expression : Option String) : JsError :=
  ⟨"Invalid cron expression: " ++ expression.getD "undefined", ""⟩

/-- The block "remove existing task if any", shared with `unscheduleRecurringJob`. -/
def removeExisting (key : Nat) (s : Scheduler) : Scheduler :=
  if s.has key then
    match s.get key with
    | some t => (s.stopTask t).delete key
    | none => s.delete key
  else s

/-- The error `cron.schedule` throws on an expression it does not accept. -/
def cronScheduleError (expression : Option String) : JsError :=
  ⟨"node-cron: invalid expression " ++ expression.getD "undefined", ""⟩

/-- The function `scheduleRecurringJob`.  `nodeCron` tells whether
`cron.schedule` accepts an expression; when it throws, the existing task of
the job has already been stopped and deleted. -/
def scheduleRecurringJob (nodeCron : String → Bool) (job : Doc) (s : Scheduler) :
    Except JsError Unit × Scheduler :=
  if !isValidCronExpression job.cur.cronExpression then
    (Except.error (invalidCron job.cur.cronExpression), s)
  else
    let s1 := removeExisting job.cur._id s
    if !nodeCron (job.cur.cronExpression.getD "undefined") then
      (Except.error (cronScheduleError job.cur.cronExpression), s1)
    else
      let (task, s2) := s1.createTask job
      (Except.ok (), (s2.startTask task).set job.cur._id task)

/-- The function `unscheduleRecurringJob`. -/
def unscheduleRecurringJob (jobId : Nat) (s : Scheduler) : Scheduler :=
  removeExisting jobId s

/-- The function `rescheduleRecurringJob`. -/
def rescheduleRecurringJob (nodeCron : String → Bool) (job : Doc) (s : Scheduler) :
    Except JsError Unit × Scheduler :=
  scheduleRecurringJob nodeCron job (unscheduleRecurringJob job.cur._id s)

/-- The function `getScheduledTasks`. -/
def getScheduledTasks (s : Scheduler) : List Nat := s.keys

/-- The query `Job.find({ type: RECURRING, status: { $in: [PENDING, ACTIVE] } })`. -/
def findRecurringActive (jobs : List Job) : List Job :=
  jobs.filter (fun j =>
    decide (j.type = JobType.RECURRING) &&
      (decide (j.status = JobStatus.PENDING) || decide (j.status = JobStatus.ACTIVE)))

/-- The loop of `cleanupStaleTasks` over the keys of the map. -/
def cleanupLoop (activeIds : List Nat) : List Nat → Scheduler → Scheduler
  | [], s => s
  | taskId :: rest, s =>
    if !activeIds.contains taskId then
      match s.get taskId with
      | some t => cleanupLoop activeIds rest ((s.stopTask t).delete taskId)
      | none => cleanupLoop activeIds rest (s.delete taskId)
    else cleanupLoop activeIds rest s

/-- The function `cleanupStaleTasks`. -/
def cleanupStaleTasks (jobs : List Job) (s : Scheduler) : Scheduler :=
  cleanupLoop ((findRecurringActive jobs).map (fun j => j._id)).dedup s.keys s

/-- The `for` loop of `initializeScheduler`: the first failing
`scheduleRecurringJob` leaves the loop. -/
def initializeLoop (nodeCron : String → Bool) :
    List Job → Scheduler → Except JsError Unit × Scheduler
  | [], s => (Except.ok (), s)
  | job :: rest, s =>
    match scheduleRecurringJob nodeCron (Doc.load job) s with
    | (Except.error e, s1) => (Except.error e, s1)
    | (Except.ok _, s1) => initializeLoop nodeCron rest s1

/-- The function `initializeScheduler`: the error of the loop is caught and
logged. -/
def initializeScheduler (nodeCron : String → Bool) (jobs : List Job) (s : Scheduler) :
    Scheduler :=
  (initializeLoop nodeCron (findRecurringActive jobs) s).2

/-- The instants of one run of the timer callback: the instant `fired` at which
the timer fires (the callback does not read it), the text `iso` of
`new Date().toISOString()` in the name of the instance, and the `new Date()`
that `calculateNextRun` reads after the instance was saved and enqueued. -/
structure FireClock where
  fired : Nat
  iso : String
  now : Nat
  deriving DecidableEq, Repr

/-- The document `new Job(...)` of the timer callback, under a fresh id. -/
def instanceJob (id : Nat) (c : FireClock) (job : Job) : Job :=
  { _id := id
    name := jsTrim (job.name ++ " - " ++ c.iso)
    description := job.description
    type := JobType.IMMEDIATE
    status := JobStatus.PENDING
    payload := job.payload
    scheduledAt := none
    cronExpression := none
    delay := none
    priority := job.priority
    maxRetries := job.maxRetries
    currentRetries := 0
    owner := job.owner
    bullJobId := none
    startedAt := none
    completedAt := none
    failedAt := none
    result := none
    error := none
    executionTime := none
    nextRunAt := none
    tags := (job.tags ++ ["recurring-instance"]).map jsTrim }

/-- The timer callback of `scheduleRecurringJob` for the captured document
`job`; its own `catch` swallows a rejected save and a failing enqueue, and
whatever was done before stays done. -/
def timerCallback (c : FireClock) (job : Doc) (w : World) : Doc × World :=
  let inst := instanceJob (freshId w.jobs) c job.cur
  match insertDoc w.jobs inst with
  | Except.error _ => (job, w)
  | Except.ok jobs1 =>
    let w1 : World := { w with jobs := jobs1 }
    match queueService.addImmediateJob inst w1.queue with
    | (Except.error _, q1) => (job, { w1 with queue := q1 })
    | (Except.ok _, q1) =>
      let d : Doc :=
        { saved := job.saved
          cur :=
            { job.cur with nextRunAt := some (calculateNextRun c.now job.cur.cronExpression) } }
      match saveDoc w1.jobs d with
      | Except.error _ => (d, { w1 with queue := q1 })
      | Except.ok jobs2 => (d.synced, { w1 with jobs := jobs2, queue := q1 })

/-- One firing of the task with the given handle: the callback runs when the
task exists and is running, and the captured document keeps its changes. -/
def fire (c : FireClock) (task : Nat) (s : Scheduler) (w : World) : Scheduler × World :=
  match s.tasks.find? (fun t => decide (t.id = task)) with
  | none => (s, w)
  | some t =>
    if t.running then
      let (d, w1) := timerCallback c t.job w
      ({ s with tasks := s.tasks.map (fun u => if u.id = task then { u with job := d } else u) },
        w1)
    else (s, w)

end schedulerService

end Chronos
namespace Chronos

/-! ## More helpers (`utils/helpers.js`)

JavaScript numbers are doubles.  The numbers `formatDuration` handles hold whole
values, so a double is represented by the whole number it holds; the quotient of
two of them is rounded to 53 significant bits before `Math.floor` sees it, and
`Number::toString` prints the shortest decimal that reads back as the same
double. -/

/-- Floor of the binary logarithm, by halving at most `fuel` times. -/
def binaryLogFuel : Nat → Nat → Nat
  | 0, _ => 0
  | fuel + 1, n => if n < 2 then 0 else binaryLogFuel fuel (n / 2) + 1

/-- Floor of the binary logarithm of a positive whole number. -/
def binaryLog (n : Nat) : Nat := binaryLogFuel n n

/-- Rounding to the nearest whole number, ties to even: `m` is the whole part
of a quotient and `r` its remainder out of `unit`. -/
def roundHalfEven (m r unit : Nat) : Nat :=
  if 2 * r < unit then m
  else if unit < 2 * r then m + 1
  else if m % 2 = 0 then m else m + 1

/-- The value of `Math.floor(a / b)` for doubles `a` and `b` that hold whole
numbers, `b` not zero.  The quotient is rounded to the nearest double, that is
to 53 significant bits with ties to even, and then floored: with `e` the binary
exponent of the quotient, the double is a multiple of `2 ^ (e - 52)`.  A
quotient below one is floored to zero. -/
def floorQuotient (a b : Nat) : Nat :=
  if a < b then 0
  else
    let e := binaryLog (a / b)
    if 52 ≤ e then
      roundHalfEven (a / (b * 2 ^ (e - 52))) (a % (b * 2 ^ (e - 52))) (b * 2 ^ (e - 52)) *
        2 ^ (e - 52)
    else
      roundHalfEven (a * 2 ^ (52 - e) / b) (a * 2 ^ (52 - e) % b) b / 2 ^ (52 - e)

/-- The double nearest to a whole number (ties to even). -/
def toDouble (n : Nat) : Nat := floorQuotient n 1

/-- The number of decimal digits, by dividing at most `fuel` times. -/
def decimalDigitsFuel : Nat → Nat → Nat
  | 0, _ => 1
  | fuel + 1, n => if n < 10 then 1 else decimalDigitsFuel fuel (n / 10) + 1

/-- The number of decimal digits of a whole number. -/
def decimalDigits (n : Nat) : Nat := decimalDigitsFuel n n

/-- The two multiples of `10 ^ z` next to `x`, the nearer one first (on a tie,
the one whose last kept digit is even). -/
def neighbours (x z : Nat) : List Nat :=
  let lo := x / 10 ^ z * 10 ^ z
  let hi := lo + 10 ^ z
  if x - lo < hi - x then [lo, hi]
  else if hi - x < x - lo then [hi, lo]
  else if (x / 10 ^ z) % 2 = 0 then [lo, hi] else [hi, lo]

/-- The whole number with the fewest significant decimal digits whose nearest
double is the double `x`, the nearest to `x` among those: the digits
`Number::toString` prints. -/
def shortestDecimal (x : Nat) : Nat :=
  (((List.range (decimalDigits x)).reverse.flatMap (neighbours x)).find?
    (fun y => decide (toDouble y = x))).getD x

/-- A whole number without its trailing zeros. -/
def stripZeros : Nat → Nat → Nat
  | 0, n => n
  | fuel + 1, n => if n % 10 = 0 ∧ n ≠ 0 then stripZeros fuel (n / 10) else n

/-- The text `Number::toString` gives for a double that holds a whole number,
as a template literal inserts it: the digits of the shortest decimal, in full
below `10 ^ 21` and in exponent notation from there on. -/
def numberToString (x : Nat) : String :=
  let y := shortestDecimal x
  if y < 10 ^ 21 then toString y
  else
    let s := toString (stripZeros y y)
    let e := toString (decimalDigits y - 1)
    if s.length = 1 then s ++ "e+" ++ e
    else String.mk (s.toList.take 1) ++ "." ++ String.mk (s.toList.drop 1) ++ "e+" ++ e

/-- The function `formatDuration` on a double that holds a whole number of
milliseconds. -/
def formatDuration (milliseconds : Nat) : String :=
  let seconds := floorQuotient milliseconds 1000
  let minutes := floorQuotient seconds 60
  let hours := floorQuotient minutes 60
  if hours > 0 then
    numberToString hours ++ "h " ++ numberToString (minutes % 60) ++ "m " ++
      numberToString (seconds % 60) ++ "s"
  else if minutes > 0 then
    numberToString minutes ++ "m " ++ numberToString (seconds % 60) ++ "s"
  else
    numberToString seconds ++ "s"

/-- The double `1e25`: the whole number it holds. -/
def tenToThe25 : Nat := 10000000000000000905969664

end Chronos

namespace Chronos

/-! ## Predicates used in the statements -/

/-- Every stored record has its own id. -/
def uniqueIds (jobs : List Job) : Prop := (jobs.map (fun j => j._id)).Nodup

instance (jobs : List Job) : Decidable (uniqueIds jobs) := by
  unfold uniqueIds; infer_instance

end Chronos

namespace Chronos

/-! ## Sample data for the concrete instances -/

/-- The payload of an email job. -/
def emailPayload : Val :=
  mkObj [("type", Val.str "email"), ("recipient", Val.str "a@b.com")]

/-- A pending immediate job of owner 7. -/
def sampleJob : Job :=
  { _id := 1, name := "report", description := none, type := JobType.IMMEDIATE
    status := JobStatus.PENDING, payload := emailPayload, scheduledAt := none
    cronExpression := none, delay := none, priority := 0, maxRetries := 5
    currentRetries := 0, owner := 7, bullJobId := none, startedAt := none
    completedAt := none, failedAt := none, result := none, error := none
    executionTime := none, nextRunAt := none, tags := [] }

/-- A queue that answers and holds nothing. -/
def sampleQueue : Queue := ⟨true, 1, [], []⟩

/-- A world holding one record with the given fields changed. -/
def worldOf (j : Job) : World := ⟨[j], [], sampleQueue⟩

/-- Clock reads of one run: entry at 0, ACTIVE written at 5, handler done at
100, outcome written at 101. -/
def sampleClock : jobService.ExecClock := ⟨0, 5, 100, 101⟩

/-- A handler environment. -/
def sampleEnv : jobService.HandlerEnv := ⟨50, 50, "42"⟩

/-- The reference the queue hands to the executor for the sample job. -/
def sampleData : JobData := ⟨1, JobType.IMMEDIATE, emailPayload⟩

end Chronos

namespace Chronos

/-- A create body for a job scheduled at instant 1000. -/
def scheduledBody : CreateJobBody :=
  { name := "backup", description := none, type := JobType.SCHEDULED, payload := Val.objNil
    scheduledAt := some 1000, cronExpression := none, delay := none, priority := none
    maxRetries := none, tags := none }

/-- An empty store in front of a queue that answers. -/
def emptyWorld : World := ⟨[], [], sampleQueue⟩

/-- A create body for an immediate job whose payload is the empty object. -/
def emptyPayloadBody : CreateJobBody :=
  { name := "ping", description := none, type := JobType.IMMEDIATE, payload := Val.objNil
    scheduledAt := none, cronExpression := none, delay := none, priority := none
    maxRetries := none, tags := none }

/-- The world after `createJob` served that body for owner 7 on the empty
store: one PENDING record, stored without payload, and its queue entry. -/
def payloadlessWorld : World := (jobController.createJob 0 7 emptyPayloadBody emptyWorld).2

/-- A handler dispatch that throws on every payload. -/
def failingHandler (_payload : Val) : Except JsError Val := Except.error ⟨"boom", "at handler"⟩

end Chronos

namespace Chronos

/-- The request the adapter function for the job's type builds
(`addImmediateJob`, `addScheduledJob`, `addRecurringJob`, `addDelayedJob`). -/
def requestByType (now : Nat) (job : Job) : EnqueueRequest :=
  match job.type with
  | JobType.IMMEDIATE => queueService.immediateRequest job
  | JobType.SCHEDULED => queueService.scheduledRequest job (queueService.scheduledDelay now job)
  | JobType.RECURRING => queueService.recurringRequest job
  | JobType.DELAYED => queueService.delayedRequest job

/-- The adapter refuses the job before reaching the queue: a SCHEDULED job whose
delay is not positive. -/
def scheduleRefused (now : Nat) (job : Job) : Bool :=
  decide (job.type = JobType.SCHEDULED) &&
    queueService.JsNum.leZero (queueService.scheduledDelay now job)

end Chronos

namespace Chronos

/-- A FAILED job of type SCHEDULED with one of its five retries used. -/
def failedScheduledJob : Job :=
  { sampleJob with
    status := JobStatus.FAILED, currentRetries := 1, type := JobType.SCHEDULED
    scheduledAt := some 10, error := some "boom", failedAt := some 20 }

end Chronos

namespace Chronos

/-! ## The core writes of a job record and their status edges -/

/-- The core operations that write a job record: the three writes of
`executeJob` (start, success, failure; the last two on the document loaded by
the start) and the controllers `cancelJob`, `retryJob` and `updateJob`. -/
inductive CoreWrite
  | executeStart (c : jobService.ExecClock) (jd : JobData)
  | executeSuccess (c : jobService.ExecClock) (d : Doc) (result : Val)
  | executeFailure (c : jobService.ExecClock) (d : Doc) (err : JsError)
  | cancel (id user : Nat)
  | retry (id user : Nat)
  | update (now id user : Nat) (body : UpdateJobBody)

/-- The world after a core write. -/
def CoreWrite.run : CoreWrite → World → World
  | CoreWrite.executeStart c jd, w => (jobService.executeJobStart c jd w).2
  | CoreWrite.executeSuccess c d r, w => (jobService.executeJobSuccess c d r w).2
  | CoreWrite.executeFailure c d e, w => jobService.executeJobFailure c (some d) e w
  | CoreWrite.cancel id user, w => (jobController.cancelJob id user w).2
  | CoreWrite.retry id user, w => (jobController.retryJob id user w).2
  | CoreWrite.update now id user body, w => (jobController.updateJob now id user body w).2

/-- Whether the write is `retryJob`. -/
def CoreWrite.isRetry : CoreWrite → Bool
  | CoreWrite.retry _ _ => true
  | _ => false

/-- The status edges as the specification lists them: PENDING to ACTIVE, ACTIVE
to COMPLETED or FAILED, FAILED to PENDING (through `retryJob` only and with
retries left), and any status but COMPLETED and CANCELLED to CANCELLED. -/
def specEdge (op : CoreWrite) (before : Job) (after : JobStatus) : Prop :=
  (before.status = JobStatus.PENDING ∧ after = JobStatus.ACTIVE) ∨
  (before.status = JobStatus.ACTIVE ∧ after = JobStatus.COMPLETED) ∨
  (before.status = JobStatus.ACTIVE ∧ after = JobStatus.FAILED) ∨
  (before.status = JobStatus.FAILED ∧ after = JobStatus.PENDING ∧ op.isRetry = true ∧
    before.currentRetries < before.maxRetries) ∨
  (after = JobStatus.CANCELLED ∧ before.status ≠ JobStatus.COMPLETED ∧
    before.status ≠ JobStatus.CANCELLED)

instance (op : CoreWrite) (before : Job) (after : JobStatus) :
    Decidable (specEdge op before after) := by
  unfold specEdge; infer_instance

/-- The status edges of the code, write by write: the start write moves any
status to ACTIVE, the outcome writes move any stored status to COMPLETED or
FAILED, `cancelJob` moves any status but COMPLETED and CANCELLED to CANCELLED,
`retryJob` moves FAILED with retries left to PENDING, `updateJob` moves
nothing. -/
def codeEdge (op : CoreWrite) (before : Job) (after : JobStatus) : Prop :=
  match op with
  | CoreWrite.executeStart _ _ => after = JobStatus.ACTIVE
  | CoreWrite.executeSuccess _ _ _ => after = JobStatus.COMPLETED
  | CoreWrite.executeFailure _ _ _ => after = JobStatus.FAILED
  | CoreWrite.cancel _ _ =>
    after = JobStatus.CANCELLED ∧ before.status ≠ JobStatus.COMPLETED ∧
      before.status ≠ JobStatus.CANCELLED
  | CoreWrite.retry _ _ =>
    before.status = JobStatus.FAILED ∧ after = JobStatus.PENDING ∧
      before.currentRetries < before.maxRetries
  | CoreWrite.update _ _ _ _ => False

/-- A run of `executeJob` during which `cancelJob` is served between the start
write and the outcome write.  Returns the stored status right after the
cancellation and the stored status after the outcome write. -/
def cancelMidFlight (env : jobService.HandlerEnv) (c : jobService.ExecClock) (jd : JobData)
    (user : Nat) (w : World) : Option (JobStatus × JobStatus) :=
  match jobService.executeJobStart c jd w with
  | (Except.error _, _) => none
  | (Except.ok d, w1) =>
    let w2 := (jobController.cancelJob jd.id user w1).2
    let w3 :=
      match jobService.runHandler env d.cur.payload with
      | Except.ok r => (jobService.executeJobSuccess c d r w2).2
      | Except.error e => jobService.executeJobFailure c (some d) e w2
    match findById w2.jobs jd.id, findById w3.jobs jd.id with
    | some a, some b => some (a.status, b.status)
    | _, _ => none

end Chronos

namespace Chronos

/-! ## The adapter's update path in the words of the specification -/

/-- The operation `Cancel(queueId)` as specified: the entry with that id is gone afterwards;
an absent entry is not an error. -/
def specCancel (queueId : Nat) (entries : List BullJob) : List BullJob :=
  entries.filter (fun e => !decide (e.id = queueId))

/-- The operation `Update(job)` as specified: cancel the entry under the job's queue id, then
enqueue the request of the job's current type for its current state.  Returns
the new queue job and the entries of the queue; `nextId` is the id the queue
assigns next. -/
def specUpdate (now : Nat) (job : Job) (nextId : Nat) (entries : List BullJob) :
    BullJob × List BullJob :=
  let cancelled :=
    match job.bullJobId with
    | some b => specCancel b entries
    | none => entries
  (⟨nextId, requestByType now job⟩, cancelled ++ [⟨nextId, requestByType now job⟩])

/-- The sample job as a SCHEDULED job for instant 10, known to the queue as
entry 4. -/
def queuedScheduledJob : Job := { failedScheduledJob with bullJobId := some 4 }

/-- A queue that answers and holds the entry 4. -/
def queueWithEntry : Queue :=
  ⟨true, 5, [⟨4, queueService.immediateRequest sampleJob⟩], []⟩

end Chronos

namespace Chronos

/-- An update body that only raises `maxRetries` to 7. -/
def retriesPatch : UpdateJobBody := ⟨none, none, none, none, none, none, some 7, none⟩

/-- A world holding the queued SCHEDULED sample job and its queue entry. -/
def queuedWorld : World := ⟨[queuedScheduledJob], [], queueWithEntry⟩

end Chronos

namespace Chronos

/-! ## Well-formed registry states -/

/-- The registry as the module keeps it: the keys of the map are distinct, no
two entries hold the same task, every held task has been created, and the
handle of a task is below the number of tasks created so far. -/
def schedulerService.Scheduler.wf (s : schedulerService.Scheduler) : Prop :=
  (s.scheduledTasks.map (fun e => e.1)).Nodup ∧
  (s.scheduledTasks.map (fun e => e.2)).Nodup ∧
  (∀ e ∈ s.scheduledTasks, e.2 < s.tasks.length) ∧
  (∀ t ∈ s.tasks, t.id < s.tasks.length)

instance (s : schedulerService.Scheduler) : Decidable s.wf := by
  unfold schedulerService.Scheduler.wf; infer_instance

/-- A stopped copy of a task: `stop()` was called once more. -/
def schedulerService.CronTask.stopped (t : schedulerService.CronTask) :
    schedulerService.CronTask :=
  { t with running := false, stops := t.stops + 1 }

/-- Whether the store holds a RECURRING job with this id and status PENDING or
ACTIVE. -/
def isActiveRecurring (jobs : List Job) (id : Nat) : Bool :=
  jobs.any (fun j =>
    decide (j._id = id) && decide (j.type = JobType.RECURRING) &&
      (decide (j.status = JobStatus.PENDING) || decide (j.status = JobStatus.ACTIVE)))

/-- A RECURRING sample job with the daily expression of the seed script. -/
def dailyJob : Job :=
  { sampleJob with
    _id := 2, name := "Daily Report", type := JobType.RECURRING
    cronExpression := some "0 9 * * *", tags := ["report"] }

/-- A RECURRING sample job whose expression does not parse. -/
def badCronJob : Job :=
  { sampleJob with _id := 1, type := JobType.RECURRING, cronExpression := some "every day" }

end Chronos

namespace Chronos

/-- The handles of the entries whose job is no longer an active recurring job. -/
def staleHandles (jobs : List Job) (s : schedulerService.Scheduler) : List Nat :=
  (s.scheduledTasks.filter (fun e => !isActiveRecurring jobs e.1)).map (fun e => e.2)

end Chronos

namespace Chronos

/-- A registry holding one running task, handle 0, for the daily job. -/
def dailyRegistry : schedulerService.Scheduler :=
  ⟨[(2, 0)], [⟨0, some "0 9 * * *", Doc.load dailyJob, true, 1, 0⟩]⟩

/-- The daily job with a step of zero in its minute field: an expression
`cronRegex` accepts. -/
def zeroStepJob : Job := { dailyJob with cronExpression := some "*/0 * * * *" }

/-- The daily job under a name of 80 characters. -/
def longNameJob : Job := { dailyJob with name := String.mk (List.replicate 80 'a') }

/-- The instants of one firing: the timer fires at instant 1000 and the clock
shows 1003 when `calculateNextRun` reads it, after the save of the instance and
the enqueue. -/
def lateFire : schedulerService.FireClock := ⟨1000, "1970-01-01T00:00:01.000Z", 1003⟩

/-- The instants of one firing: the timer fires at instant 1000 and the clock
still shows 1000 when `calculateNextRun` reads it. -/
def sampleFire : schedulerService.FireClock := ⟨1000, "1970-01-01T00:00:01.000Z", 1000⟩

end Chronos

namespace Chronos

/-! ## The accepted cron expressions in the words of the specification -/

/-- The space character. -/
def spaceChar : Char := Char.ofNat 32

/-- The star character. -/
def starChar : Char := Char.ofNat 42

/-- The slash character. -/
def slashChar : Char := Char.ofNat 47

/-- Split a text at every space: the pieces between the spaces, in order. -/
def splitOnSpace : List Char → List (List Char)
  | [] => [[]]
  | c :: cs =>
    if c = spaceChar then [] :: splitOnSpace cs
    else
      match splitOnSpace cs with
      | f :: fs => (c :: f) :: fs
      | [] => [[c]]

/-- The digit zero. -/
def zeroChar : Char := Char.ofNat 48

/-- A field that is a step of zero: star, slash, zero. -/
def zeroStepField : List Char := [starChar, slashChar, zeroChar]

/-- An answer of `cron.schedule` for the concrete instances.  The library
`node-cron` expands a step field into the values of the field's range that the
step divides; a step of zero leaves no value and the call throws.  An
expression without such a field is accepted. -/
def acceptsUnlessZeroStep (expression : String) : Bool :=
  (splitOnSpace expression.toList).all (fun f => !decide (f = zeroStepField))

/-- A decimal digit. -/
def isDigitChar (c : Char) : Bool := decide (48 ≤ c.toNat) && decide (c.toNat ≤ 57)

/-- The value of a run of decimal digits read after the value `acc`. -/
def decimalValueFrom (acc : Nat) : List Char → Nat
  | [] => acc
  | c :: cs => decimalValueFrom (10 * acc + (c.toNat - 48)) cs

/-- The value of a run of decimal digits. -/
def decimalValue (f : List Char) : Nat := decimalValueFrom 0 f

/-- A decimal number without leading zeros whose value lies between `lo` and
`hi`. -/
def specNumber (lo hi : Nat) (f : List Char) : Bool :=
  !f.isEmpty && f.all isDigitChar &&
    (decide (f.length = 1) || decide (f.head? ≠ some zeroChar)) &&
    decide (lo ≤ decimalValue f) && decide (decimalValue f ≤ hi)

/-- A field: a star, a number of the range, or star, slash and a number of the
range. -/
def specField (lo hi : Nat) (f : List Char) : Bool :=
  decide (f = [starChar]) || specNumber lo hi f ||
    (match f with
      | a :: b :: n => decide (a = starChar) && decide (b = slashChar) && specNumber lo hi n
      | _ => false)

/-- An expression as the specification describes it: exactly five fields
separated by single spaces, for minute (0 to 59), hour (0 to 23), day of month
(1 to 31), month (1 to 12) and day of week (0 to 6). -/
def specCron (e : String) : Bool :=
  match splitOnSpace e.toList with
  | [a, b, c, d, w] =>
    specField 0 59 a && specField 0 23 b && specField 1 31 c && specField 1 12 d &&
      specField 0 6 w
  | _ => false

end Chronos

namespace Chronos

/-- The texts of one or two decimal digits, the first of two not being zero,
whose value lies between `lo` and `hi`. -/
def numberShape (lo hi : Nat) (f : List Char) : Prop :=
  (∃ c, f = [c] ∧ 48 ≤ c.toNat ∧ c.toNat ≤ 57 ∧ lo ≤ c.toNat - 48 ∧ c.toNat - 48 ≤ hi) ∨
  (∃ a c, f = [a, c] ∧ 49 ≤ a.toNat ∧ a.toNat ≤ 57 ∧ 48 ≤ c.toNat ∧ c.toNat ≤ 57 ∧
    lo ≤ 10 * (a.toNat - 48) + (c.toNat - 48) ∧ 10 * (a.toNat - 48) + (c.toNat - 48) ≤ hi)

end Chronos

namespace Chronos

/-- A character that makes a list, a range or a name: comma, hyphen or a Latin
letter. -/
def isListRangeOrNameChar (c : Char) : Bool :=
  decide (c.toNat = 44) || decide (c.toNat = 45) ||
    (decide (65 ≤ c.toNat) && decide (c.toNat ≤ 90)) ||
    (decide (97 ≤ c.toNat) && decide (c.toNat ≤ 122))

end Chronos

namespace Chronos

/-! ## Reachable registry states -/

/-- A call of one of the four functions that change the registry. -/
inductive RegistryCall
  | schedule (job : Doc)
  | unschedule (jobId : Nat)
  | reschedule (job : Doc)
  | cleanup (jobs : List Job)

/-- The registry after a call, whether the call fails or not; `nodeCron` tells
which expressions `cron.schedule` accepts. -/
def RegistryCall.run (nodeCron : String → Bool) :
    RegistryCall → schedulerService.Scheduler → schedulerService.Scheduler
  | RegistryCall.schedule job, s => (schedulerService.scheduleRecurringJob nodeCron job s).2
  | RegistryCall.unschedule jobId, s => schedulerService.unscheduleRecurringJob jobId s
  | RegistryCall.reschedule job, s => (schedulerService.rescheduleRecurringJob nodeCron job s).2
  | RegistryCall.cleanup jobs, s => schedulerService.cleanupStaleTasks jobs s

/-- The registry after a sequence of calls. -/
def runCalls (nodeCron : String → Bool) (calls : List RegistryCall)
    (s : schedulerService.Scheduler) : schedulerService.Scheduler :=
  calls.foldl (fun s c => c.run nodeCron s) s

/-- Whether the schedule attempt for a job goes through: its expression passes
`isValidCronExpression` and `cron.schedule` accepts it. -/
def attemptSucceeds (nodeCron : String → Bool) (j : Job) : Bool :=
  isValidCronExpression j.cronExpression && nodeCron (j.cronExpression.getD "undefined")

/-- A store with three pending RECURRING jobs: the daily job, then a job with a
step of zero, then one more daily job. -/
def zeroStepStore : List Job :=
  [dailyJob, { zeroStepJob with _id := 3 }, { dailyJob with _id := 4 }]

/-- The handles held as values of the map. -/
def schedulerService.Scheduler.handles (s : schedulerService.Scheduler) : List Nat :=
  s.scheduledTasks.map (fun e => e.2)

/-- The invariant of the registry: distinct keys, distinct handles, every handle
that of a created task, handles of tasks being their position of creation; a
task held by the map runs, started once and never stopped; a task not held by
the map does not run, started once and stopped once. -/
def schedulerService.Scheduler.noLeak (s : schedulerService.Scheduler) : Prop :=
  (s.scheduledTasks.map (fun e => e.1)).Nodup ∧
  s.handles.Nodup ∧
  (∀ h ∈ s.handles, h < s.tasks.length) ∧
  s.tasks.map (fun t => t.id) = List.range s.tasks.length ∧
  ∀ t ∈ s.tasks,
    (t.id ∈ s.handles → t.running = true ∧ t.starts = 1 ∧ t.stops = 0) ∧
    (t.id ∉ s.handles → t.running = false ∧ t.starts = 1 ∧ t.stops = 1)

end Chronos

namespace Chronos

/-! ## Facts about the store -/

theorem pick_self {α : Type} [DecidableEq α] (s c : α) : pick s c s = c := by
  unfold pick; split
  · next h => exact h.symm
  · rfl

theorem pick_same {α : Type} [DecidableEq α] (s r : α) : pick s s r = r := by
  simp [pick]

theorem pick_ne {α : Type} [DecidableEq α] (s c r : α) (h : c ≠ s) : pick s c r = c := by
  simp [pick, h]

theorem mergeModified_self (j c : Job) (h : c._id = j._id) : mergeModified j c j = c := by
  cases c
  simp only [mergeModified, pick_self]
  simp_all

theorem mergeModified_same (j r : Job) : mergeModified j j r = r := by
  cases r
  simp [mergeModified, pick_same]

theorem findById_some {jobs : List Job} {id : Nat} {j : Job}
    (h : findById jobs id = some j) : j._id = id ∧ j ∈ jobs := by
  unfold findById at h
  exact ⟨by simpa using List.find?_some h, List.mem_of_find?_eq_some h⟩

theorem findById_map (f : Job → Job) (hf : ∀ r, (f r)._id = r._id) (jobs : List Job)
    (id : Nat) : findById (jobs.map f) id = (findById jobs id).map f := by
  induction jobs with
  | nil => rfl
  | cons a l ih =>
    unfold findById at ih ⊢
    simp only [List.map_cons, List.find?_cons, hf]
    split
    · rfl
    · exact ih

theorem findById_writeModified (jobs : List Job) (d : Doc) (id : Nat) :
    findById (writeModified jobs d) id =
      (findById jobs id).map
        (fun r => if r._id = d.cur._id then mergeModified d.saved d.cur r else r) := by
  unfold writeModified
  apply findById_map
  intro r
  split <;> rfl

theorem findById_writeModified_self {jobs : List Job} {id : Nat} {j c : Job}
    (h : findById jobs id = some j) (hc : c._id = j._id) :
    findById (writeModified jobs ⟨j, c⟩) id = some c := by
  rw [findById_writeModified, h]
  simp [hc, mergeModified_self j c hc]

theorem findById_writeModified_other (jobs : List Job) (d : Doc) (id : Nat) (h : id ≠ d.cur._id) :
    findById (writeModified jobs d) id = findById jobs id := by
  rw [findById_writeModified]
  cases hf : findById jobs id with
  | none => rfl
  | some r =>
    have := (findById_some hf).1
    simp [this, h]

theorem findOne_some {jobs : List Job} {id user : Nat} {j : Job}
    (h : findOne jobs id user = some j) : j._id = id ∧ j.owner = user ∧ j ∈ jobs := by
  unfold findOne at h
  have := List.find?_some h
  simp at this
  exact ⟨this.1, this.2, List.mem_of_find?_eq_some h⟩

theorem findById_of_mem {jobs : List Job} (hu : uniqueIds jobs) {j : Job} (hj : j ∈ jobs) :
    findById jobs j._id = some j := by
  induction jobs with
  | nil => cases hj
  | cons a l ih =>
    unfold uniqueIds at hu
    simp only [List.map_cons, List.nodup_cons, List.mem_map, not_exists, not_and] at hu
    unfold findById
    simp only [List.find?_cons]
    rcases List.mem_cons.mp hj with rfl | hl
    · simp
    · have hne : a._id ≠ j._id := fun e => hu.1 j hl e.symm
      simp only [hne, decide_False]
      exact ih hu.2 hl

theorem findById_of_findOne {jobs : List Job} (hu : uniqueIds jobs) {id user : Nat} {j : Job}
    (h : findOne jobs id user = some j) : findById jobs id = some j := by
  obtain ⟨h1, _, h3⟩ := findOne_some h
  rw [← h1]
  exact findById_of_mem hu h3

theorem writeModified_ids (jobs : List Job) (d : Doc) :
    (writeModified jobs d).map (fun j => j._id) = jobs.map (fun j => j._id) := by
  unfold writeModified
  rw [List.map_map]
  apply List.map_congr_left
  intro r _
  simp only [Function.comp]
  split <;> rfl

theorem writeModified_length (jobs : List Job) (d : Doc) : (writeModified jobs d).length = jobs.length := by
  simp [writeModified]

theorem writeModified_same (jobs : List Job) (j : Job) : writeModified jobs ⟨j, j⟩ = jobs := by
  unfold writeModified
  conv => rhs; rw [← List.map_id jobs]
  apply List.map_congr_left
  intro r _
  simp [mergeModified_same]

/-- A save that changes none of the validated paths passes validation when the
payload is present. -/
theorem saveValid_of_unvalidated (a b : Job) (hp : payloadPresent b.payload = true)
    (h1 : b.name = a.name) (h2 : b.description = a.description)
    (h3 : b.priority = a.priority) (h4 : b.maxRetries = a.maxRetries) :
    saveValid ⟨a, b⟩ = true := by
  simp [saveValid, hp, h1, h2, h3, h4]

/-- No save passes validation without a payload. -/
theorem saveValid_absent {d : Doc} (hp : payloadPresent d.cur.payload = false) :
    saveValid d = false := by
  simp [saveValid, hp]

theorem saveValid_payload {d : Doc} (h : saveValid d = true) :
    payloadPresent d.cur.payload = true := by
  cases hp : payloadPresent d.cur.payload with
  | true => rfl
  | false => rw [saveValid_absent hp] at h; cases h

theorem saveDoc_ok (jobs : List Job) {d : Doc} (h : saveValid d = true) :
    saveDoc jobs d = Except.ok (writeModified jobs d) := by
  simp [saveDoc, h]

theorem saveDoc_error (jobs : List Job) {d : Doc} (h : saveValid d = false) :
    saveDoc jobs d = Except.error validationError := by
  simp [saveDoc, h]

theorem saveDoc_cases (jobs : List Job) (d : Doc) :
    saveDoc jobs d = Except.ok (writeModified jobs d) ∨
      saveDoc jobs d = Except.error validationError := by
  cases h : saveValid d with
  | true => exact Or.inl (saveDoc_ok jobs h)
  | false => exact Or.inr (saveDoc_error jobs h)

theorem insertDoc_ok (jobs : List Job) {j : Job} (h : jobSchemaValid j = true) :
    insertDoc jobs j = Except.ok (jobs ++ [storedForm j]) := by
  simp [insertDoc, h]

theorem insertDoc_error (jobs : List Job) {j : Job} (h : jobSchemaValid j = false) :
    insertDoc jobs j = Except.error validationError := by
  simp [insertDoc, h]

theorem jobSchemaValid_payload {j : Job} (h : jobSchemaValid j = true) :
    payloadPresent j.payload = true := by
  simp only [jobSchemaValid, Bool.and_eq_true] at h
  exact h.1.1.2

end Chronos

namespace Chronos

/-! ## The executor -/

namespace jobService

/-- The record in memory after `updateStatus(ACTIVE)`. -/
theorem updateStatusFields_active (j : Job) (now : Nat) :
    j.updateStatusFields now JobStatus.ACTIVE AdditionalData.empty =
      { j with status := JobStatus.ACTIVE, startedAt := some now } := by
  simp [Job.updateStatusFields, Job.assignAdditional, AdditionalData.empty]

/-- The record in memory after `updateStatus(COMPLETED, { result, executionTime })`. -/
theorem updateStatusFields_completed (j : Job) (now : Nat) (r : Val) (t : Int) :
    j.updateStatusFields now JobStatus.COMPLETED ⟨some r, none, some t⟩ =
      { j with status := JobStatus.COMPLETED, completedAt := some now, result := some r
               executionTime := some t } := by
  cases hs : j.startedAt <;>
    simp [Job.updateStatusFields, Job.assignAdditional, hs]

/-- The record in memory after `updateStatus(FAILED, { error, executionTime })`. -/
theorem updateStatusFields_failed (j : Job) (now : Nat) (m : String) (t : Int) :
    j.updateStatusFields now JobStatus.FAILED ⟨none, some m, some t⟩ =
      { j with status := JobStatus.FAILED, failedAt := some now
               currentRetries := j.currentRetries + 1, error := some m
               executionTime := some t } := by
  simp [Job.updateStatusFields, Job.assignAdditional]

/-- The record in memory after `updateStatus(CANCELLED)`. -/
theorem updateStatusFields_cancelled (j : Job) (now : Nat) :
    j.updateStatusFields now JobStatus.CANCELLED AdditionalData.empty =
      { j with status := JobStatus.CANCELLED } := by
  simp [Job.updateStatusFields, Job.assignAdditional, AdditionalData.empty]

/-- The method `updateStatus` changes none of the validated paths. -/
theorem updateStatusFields_validated (j : Job) (now : Nat) (st : JobStatus)
    (a : AdditionalData) :
    (j.updateStatusFields now st a).name = j.name ∧
    (j.updateStatusFields now st a).description = j.description ∧
    (j.updateStatusFields now st a).payload = j.payload ∧
    (j.updateStatusFields now st a).priority = j.priority ∧
    (j.updateStatusFields now st a).maxRetries = j.maxRetries ∧
    (j.updateStatusFields now st a)._id = j._id := by
  simp only [Job.updateStatusFields, Job.assignAdditional]
  split_ifs
  · exact ⟨rfl, rfl, rfl, rfl, rfl, rfl⟩
  · split <;> exact ⟨rfl, rfl, rfl, rfl, rfl, rfl⟩
  · exact ⟨rfl, rfl, rfl, rfl, rfl, rfl⟩
  · exact ⟨rfl, rfl, rfl, rfl, rfl, rfl⟩

/-- The save inside `updateStatus` passes validation exactly when the save of
the document as it was would. -/
theorem saveValid_updateStatusFields (s c : Job) (now : Nat) (st : JobStatus)
    (a : AdditionalData) :
    saveValid ⟨s, c.updateStatusFields now st a⟩ = saveValid ⟨s, c⟩ := by
  obtain ⟨h1, h2, h3, h4, h5, -⟩ := updateStatusFields_validated c now st a
  simp only [saveValid, h1, h2, h3, h4, h5]

theorem saveValid_loaded (j : Job) : saveValid ⟨j, j⟩ = payloadPresent j.payload := by
  simp [saveValid]

/-- The method `updateStatus` when the save goes through. -/
theorem updateStatus_ok (now : Nat) (st : JobStatus) (a : AdditionalData) (d : Doc) (w : World)
    (hv : saveValid d = true) :
    updateStatus now st a d w =
      (none, ⟨d.cur.updateStatusFields now st a, d.cur.updateStatusFields now st a⟩,
        { w with jobs := writeModified w.jobs ⟨d.saved, d.cur.updateStatusFields now st a⟩ }) := by
  have hv2 : saveValid ⟨d.saved, d.cur.updateStatusFields now st a⟩ = true := by
    rw [saveValid_updateStatusFields]; exact hv
  simp only [updateStatus, saveDoc_ok _ hv2, Doc.synced]

/-- The method `updateStatus` when the save is rejected: the store is as it
was. -/
theorem updateStatus_rejected (now : Nat) (st : JobStatus) (a : AdditionalData) (d : Doc)
    (w : World) (hv : saveValid d = false) :
    updateStatus now st a d w =
      (some validationError, ⟨d.saved, d.cur.updateStatusFields now st a⟩, w) := by
  have hv2 : saveValid ⟨d.saved, d.cur.updateStatusFields now st a⟩ = false := by
    rw [saveValid_updateStatusFields]; exact hv
  simp only [updateStatus, saveDoc_error _ hv2]

/-- What `updateStatus` does to the store: nothing, or the write of its
fields. -/
theorem updateStatus_jobs (now : Nat) (st : JobStatus) (a : AdditionalData) (d : Doc)
    (w : World) :
    (updateStatus now st a d w).2.2.jobs = w.jobs ∨
    (updateStatus now st a d w).2.2.jobs =
      writeModified w.jobs ⟨d.saved, d.cur.updateStatusFields now st a⟩ := by
  cases hv : saveValid d with
  | true => right; rw [updateStatus_ok now st a d w hv]
  | false => left; rw [updateStatus_rejected now st a d w hv]

/-- The store after the success branch is the store after its `updateStatus`. -/
theorem executeJobSuccess_jobs (c : ExecClock) (d : Doc) (r : Val) (w : World) :
    (executeJobSuccess c d r w).2.jobs =
      (updateStatus c.doneAt JobStatus.COMPLETED
        ⟨some r, none, some ((c.endTime : Int) - (c.startTime : Int))⟩ d w).2.2.jobs := by
  cases hv : saveValid d with
  | true => simp only [executeJobSuccess, updateStatus_ok _ _ _ d w hv, createJobLog]
  | false => simp only [executeJobSuccess, updateStatus_rejected _ _ _ d w hv]

/-- The store after the `catch` block is the store after its `updateStatus`. -/
theorem executeJobFailure_jobs (c : ExecClock) (d : Doc) (e : JsError) (w : World) :
    (executeJobFailure c (some d) e w).jobs =
      (updateStatus c.doneAt JobStatus.FAILED
        ⟨none, some e.message, some ((c.endTime : Int) - (c.startTime : Int))⟩ d w).2.2.jobs := by
  cases hv : saveValid d with
  | true => simp only [executeJobFailure, updateStatus_ok _ _ _ d w hv, createJobLog]
  | false => simp only [executeJobFailure, updateStatus_rejected _ _ _ d w hv]

/-- A payload the dispatch can read is a payload the `required` validator
accepts. -/
theorem runHandler_payloadPresent {env : HandlerEnv} {p r : Val}
    (h : runHandler env p = Except.ok r) : payloadPresent p = true := by
  unfold runHandler at h
  split_ifs at h with h0
  all_goals
    simp only [not_or] at h0
    simp [payloadPresent, h0.1, h0.2]

/-- The start of a run on a stored record that has its payload. -/
theorem executeJobStart_found (c : ExecClock) (jd : JobData) (w : World) (j : Job)
    (h : findById w.jobs jd.id = some j) (hp : payloadPresent j.payload = true) :
    executeJobStart c jd w =
      (Except.ok ⟨{ j with status := JobStatus.ACTIVE, startedAt := some c.activeAt },
                  { j with status := JobStatus.ACTIVE, startedAt := some c.activeAt }⟩,
        { jobs := writeModified w.jobs
            ⟨j, { j with status := JobStatus.ACTIVE, startedAt := some c.activeAt }⟩
          logs := w.logs ++
            [⟨j._id, "info", "Job execution started", mkObj [("payload", j.payload)],
              Val.str "execution"⟩]
          queue := w.queue }) := by
  have hv : saveValid
      ⟨j, { j with status := JobStatus.ACTIVE, startedAt := some c.activeAt }⟩ = true :=
    saveValid_of_unvalidated _ _ hp rfl rfl rfl rfl
  simp only [executeJobStart, h, updateStatus, Doc.load, updateStatusFields_active,
    saveDoc_ok _ hv, Doc.synced, createJobLog]
  rfl

/-- The start of a run on a stored record without payload: the save of the
ACTIVE transition is rejected and nothing is written. -/
theorem executeJobStart_rejected (c : ExecClock) (jd : JobData) (w : World) (j : Job)
    (h : findById w.jobs jd.id = some j) (hp : payloadPresent j.payload = false) :
    executeJobStart c jd w =
      (Except.error (validationError,
          some ⟨j, { j with status := JobStatus.ACTIVE, startedAt := some c.activeAt }⟩), w) := by
  have hv : saveValid
      ⟨j, { j with status := JobStatus.ACTIVE, startedAt := some c.activeAt }⟩ = false :=
    saveValid_absent hp
  simp only [executeJobStart, h, updateStatus, Doc.load, updateStatusFields_active,
    saveDoc_error _ hv]

/-- A whole run whose handler returns `r`. -/
theorem executeJobWith_ok (handler : Val → Except JsError Val) (c : ExecClock) (jd : JobData)
    (w : World) (j : Job) (r : Val) (h : findById w.jobs jd.id = some j)
    (hp : payloadPresent j.payload = true) (hr : handler j.payload = Except.ok r) :
    executeJobWith handler c jd w =
      (Except.ok r,
        { jobs := writeModified
            (writeModified w.jobs ⟨j, { j with status := JobStatus.ACTIVE, startedAt := some c.activeAt }⟩)
            ⟨{ j with status := JobStatus.ACTIVE, startedAt := some c.activeAt },
             { j with status := JobStatus.COMPLETED, startedAt := some c.activeAt
                      completedAt := some c.doneAt, result := some r
                      executionTime := some ((c.endTime : Int) - (c.startTime : Int)) }⟩
          logs := w.logs ++
            [⟨j._id, "info", "Job execution started", mkObj [("payload", j.payload)],
              Val.str "execution"⟩,
             ⟨j._id, "info", "Job completed successfully",
              mkObj [("result", r),
                ("executionTime", Val.num ((c.endTime : Int) - (c.startTime : Int)))],
              Val.str "execution"⟩]
          queue := w.queue }) := by
  have hv : saveValid
      ⟨{ j with status := JobStatus.ACTIVE, startedAt := some c.activeAt },
       { j with status := JobStatus.COMPLETED, startedAt := some c.activeAt
                completedAt := some c.doneAt, result := some r
                executionTime := some ((c.endTime : Int) - (c.startTime : Int)) }⟩ = true :=
    saveValid_of_unvalidated _ _ hp rfl rfl rfl rfl
  simp only [executeJobWith, executeJobStart_found c jd w j h hp, hr, executeJobSuccess,
    updateStatus, updateStatusFields_completed, saveDoc_ok _ hv, Doc.synced, createJobLog]
  simp [mkObj, Val.getProp, Val.orElse, Val.truthy]

/-- A whole run whose handler throws `e`. -/
theorem executeJobWith_error (handler : Val → Except JsError Val) (c : ExecClock)
    (jd : JobData) (w : World) (j : Job) (e : JsError) (h : findById w.jobs jd.id = some j)
    (hp : payloadPresent j.payload = true) (hr : handler j.payload = Except.error e) :
    executeJobWith handler c jd w =
      (Except.error e,
        { jobs := writeModified
            (writeModified w.jobs ⟨j, { j with status := JobStatus.ACTIVE, startedAt := some c.activeAt }⟩)
            ⟨{ j with status := JobStatus.ACTIVE, startedAt := some c.activeAt },
             { j with status := JobStatus.FAILED, startedAt := some c.activeAt
                      failedAt := some c.doneAt, currentRetries := j.currentRetries + 1
                      error := some e.message
                      executionTime := some ((c.endTime : Int) - (c.startTime : Int)) }⟩
          logs := w.logs ++
            [⟨j._id, "info", "Job execution started", mkObj [("payload", j.payload)],
              Val.str "execution"⟩,
             ⟨j._id, "error", "Job failed",
              mkObj [("error", Val.str e.message), ("stack", Val.str e.stack),
                ("executionTime", Val.num ((c.endTime : Int) - (c.startTime : Int)))],
              Val.str "execution"⟩]
          queue := w.queue }) := by
  have hv : saveValid
      ⟨{ j with status := JobStatus.ACTIVE, startedAt := some c.activeAt },
       { j with status := JobStatus.FAILED, startedAt := some c.activeAt
                failedAt := some c.doneAt, currentRetries := j.currentRetries + 1
                error := some e.message
                executionTime := some ((c.endTime : Int) - (c.startTime : Int)) }⟩ = true :=
    saveValid_of_unvalidated _ _ hp rfl rfl rfl rfl
  simp only [executeJobWith, executeJobStart_found c jd w j h hp, hr, executeJobFailure,
    executeJobRethrown, updateStatus, updateStatusFields_failed, saveDoc_ok _ hv, Doc.synced,
    createJobLog]
  simp [mkObj, Val.getProp, Val.orElse, Val.truthy]

/-- The stored record after two successive saves of the same document. -/
theorem findById_writeModified_twice {jobs : List Job} {id : Nat} {j a b : Job}
    (h : findById jobs id = some j) (ha : a._id = j._id) (hb : b._id = a._id) :
    findById (writeModified (writeModified jobs ⟨j, a⟩) ⟨a, b⟩) id = some b :=
  findById_writeModified_self (findById_writeModified_self h ha) hb

/-- The `type` of the value a handler returns. -/
theorem runHandler_type (env : HandlerEnv) (p r : Val) (h : runHandler env p = Except.ok r) :
    r.getProp "type" =
      if p.getProp "type" = Val.str "email" ∨ p.getProp "type" = Val.str "webhook" ∨
          p.getProp "type" = Val.str "data_processing" ∨ p.getProp "type" = Val.str "cleanup"
      then p.getProp "type" else Val.str "custom" := by
  unfold runHandler at h
  split_ifs at h with h0 h1 h2 h3 h4 <;> cases h
  · simp [h1, executeEmailJob, mkObj, Val.getProp]
  · simp [h2, executeWebhookJob, mkObj, Val.getProp]
  · simp [h3, executeDataProcessingJob, mkObj, Val.getProp]
  · simp [h4, executeCleanupJob, mkObj, Val.getProp]
  · simp [h1, h2, h3, h4, executeCustomJob, mkObj, Val.getProp]

end jobService

end Chronos

namespace Chronos

/-! ## Facts used for the orchestrator -/

theorem find?_map_of_preserved {α : Type} (p : α → Bool) (f : α → α) (hf : ∀ r, p (f r) = p r)
    (l : List α) : (l.map f).find? p = (l.find? p).map f := by
  induction l with
  | nil => rfl
  | cons a l ih =>
    simp only [List.map_cons, List.find?_cons, hf]
    split
    · rfl
    · exact ih

/-- After saving a document that keeps id and owner of the record it was loaded
from, the owner's lookup returns the saved document. -/
theorem findOne_writeModified_self {jobs : List Job} {id user : Nat} {j c : Job}
    (h : findOne jobs id user = some j) (hid : c._id = j._id) (ho : c.owner = j.owner) :
    findOne (writeModified jobs ⟨j, c⟩) id user = some c := by
  unfold findOne writeModified at *
  rw [find?_map_of_preserved, h]
  · simp [hid, mergeModified_self j c hid]
  · intro r
    by_cases hr : r._id = c._id
    · simp [hr, mergeModified, ho, pick_same]
    · simp [hr]

/-- A fresh id is above every stored id. -/
theorem lt_freshId {jobs : List Job} {r : Job} (h : r ∈ jobs) : r._id < freshId jobs := by
  unfold freshId
  induction jobs with
  | nil => cases h
  | cons a l ih =>
    simp only [List.map_cons, List.foldr_cons]
    rcases List.mem_cons.mp h with rfl | hl
    · omega
    · have := ih hl
      omega

/-- Saving the document of a record that was just inserted under a fresh id. -/
theorem writeModified_append_fresh (jobs : List Job) (r : Job) (d : Doc)
    (hr : r._id = freshId jobs) (hc : d.cur._id = r._id) :
    writeModified (jobs ++ [r]) d = jobs ++ [mergeModified d.saved d.cur r] := by
  unfold writeModified
  rw [List.map_append]
  congr 1
  · conv => rhs; rw [← List.map_id jobs]
    apply List.map_congr_left
    intro x hx
    have := lt_freshId hx
    have hne : x._id ≠ d.cur._id := by rw [hc, hr]; omega
    simp [hne]
  · simp [hc]

/-- A save whose only modified path is `bullJobId`. -/
theorem mergeModified_bullJobId (j r : Job) (v : Option Nat) (h : r.bullJobId = j.bullJobId) :
    mergeModified j { j with bullJobId := v } r = { r with bullJobId := v } := by
  cases r
  simp only [mergeModified, pick_same]
  simp only at h
  rw [h, pick_self]

/-- A save whose only modified path is `nextRunAt`. -/
theorem mergeModified_nextRunAt (j r : Job) (v : Option Nat) (h : r.nextRunAt = j.nextRunAt) :
    mergeModified j { j with nextRunAt := v } r = { r with nextRunAt := v } := by
  cases r
  simp only [mergeModified, pick_same]
  simp only at h
  rw [h, pick_self]

/-- The stored status after a save: what it was, or the in-memory status when
the saved document has this id and a modified status. -/
theorem status_after_save {jobs : List Job} {id : Nat} {r : Job} (d : Doc)
    (h : findById jobs id = some r) :
    ∃ r2, findById (writeModified jobs d) id = some r2 ∧
      (r2.status = r.status ∨
        (r2.status = d.cur.status ∧ r._id = d.cur._id ∧ d.cur.status ≠ d.saved.status)) := by
  rw [findById_writeModified, h]
  by_cases hid : r._id = d.cur._id
  · refine ⟨mergeModified d.saved d.cur r, by simp [hid], ?_⟩
    by_cases hs : d.cur.status = d.saved.status
    · left; simp [mergeModified, pick, hs]
    · right; exact ⟨by simp [mergeModified, pick, hs], hid, hs⟩
  · exact ⟨r, by simp [hid], Or.inl rfl⟩

/-! ### The queue adapter -/

namespace queueService

/-- On a queue that answers, `cancelJob` succeeds and leaves exactly the
entries with another id. -/
theorem cancelJob_up (b : Nat) (q : Queue) (hup : q.up = true) :
    (cancelJob b q).1 = Except.ok () ∧
    (cancelJob b q).2.entries = q.entries.filter (fun e => !decide (e.id = b)) ∧
    (cancelJob b q).2.up = true ∧ (cancelJob b q).2.nextId = q.nextId ∧
    enqueueRequests (cancelJob b q).2.calls = enqueueRequests q.calls := by
  have hreq : ∀ (l : List QueueCall) (x : Nat),
      enqueueRequests (l ++ [QueueCall.getJob x]) = enqueueRequests l ∧
      ∀ y, enqueueRequests (l ++ [QueueCall.getJob x, QueueCall.remove y]) =
        enqueueRequests l := by
    intro l x
    induction l with
    | nil => exact ⟨rfl, fun _ => rfl⟩
    | cons a l ih =>
      cases a <;> simp_all [enqueueRequests]
  unfold cancelJob Queue.getJob
  simp only [hup, if_true]
  cases hf : q.entries.find? (fun e => decide (e.id = b)) with
  | none =>
    have hfilter : q.entries.filter (fun e => !decide (e.id = b)) = q.entries := by
      rw [List.filter_eq_self]
      intro e he
      have := List.find?_eq_none.mp hf e he
      simpa using this
    simp only [hfilter]
    refine ⟨?_, ?_, ?_, ?_, ?_⟩ <;> try trivial
    exact (hreq _ _).1
  | some bj =>
    have hb : bj.id = b := by simpa using List.find?_some hf
    simp only [Queue.remove, hb]
    refine ⟨?_, ?_, ?_, ?_, ?_⟩ <;> try trivial
    simpa using (hreq q.calls b).2 b

/-- On a queue that answers, `Queue.add` accepts the request under the next id. -/
theorem add_up (r : EnqueueRequest) (q : Queue) (hup : q.up = true) :
    q.add r = (Except.ok ⟨q.nextId, r⟩,
      { up := true, nextId := q.nextId + 1, entries := q.entries ++ [⟨q.nextId, r⟩]
        calls := q.calls ++ [QueueCall.add r] }) := by
  simp [Queue.add, hup]

end queueService

end Chronos

namespace Chronos

namespace queueService

/-- Unless the schedule is refused, the `switch` on the type issues the request
of that type. -/
theorem addByType_eq (now : Nat) (job : Job) (q : Queue)
    (h : scheduleRefused now job = false) :
    addByType now job q = q.add (requestByType now job) := by
  unfold addByType requestByType
  cases ht : job.type <;>
    simp_all [scheduleRefused, addImmediateJob, addScheduledJob, addRecurringJob, addDelayedJob]

/-- A refused schedule: the adapter throws and makes no queue call. -/
theorem addByType_refused (now : Nat) (job : Job) (q : Queue)
    (h : scheduleRefused now job = true) :
    addByType now job q = (Except.error scheduleInPast, q) := by
  unfold addByType
  cases ht : job.type <;> simp_all [scheduleRefused, addScheduledJob]

end queueService

namespace jobController

/-- A body the create validator accepts makes a document the schema
validators accept. -/
theorem createJobSchema_valid (now id user : Nat) (body : CreateJobBody)
    (h : createJobSchema now body = true) : jobSchemaValid (newJob id user body) = true := by
  simp only [createJobSchema, Bool.and_eq_true] at h
  obtain ⟨⟨⟨⟨⟨⟨⟨⟨h1, h2⟩, h3⟩, -⟩, -⟩, -⟩, h7⟩, h8⟩, -⟩ := h
  have hname : nameValid (jsTrim body.name) = true := h1
  have hdesc : descriptionValid body.description = true := by
    cases hd : body.description with
    | none => rfl
    | some d =>
      rw [hd] at h2
      simp only [Bool.and_eq_true] at h2
      exact h2.2
  have hpay : payloadPresent body.payload = true := by
    cases hp : body.payload <;> simp_all [isObject, payloadPresent]
  have hprio : priorityValid (body.priority.getD 0) = true := by
    cases hp : body.priority with
    | none => decide
    | some p => rw [hp] at h7; exact h7
  have hmax : maxRetriesValid (body.maxRetries.getD 5) = true := by
    cases hm : body.maxRetries with
    | none => decide
    | some m => rw [hm] at h8; exact h8
  simp only [jobSchemaValid, newJob, hname, hdesc, hpay, hprio, hmax, Bool.and_self]

/-- The controller `createJob` when the document passes validation and the
adapter returns a queue job. -/
theorem createJob_ok (now user : Nat) (body : CreateJobBody) (w : World) (bj : BullJob)
    (q1 : Queue) (hvalid : jobSchemaValid (newJob (freshId w.jobs) user body) = true)
    (hadd : queueService.addByType now (newJob (freshId w.jobs) user body) w.queue =
      (Except.ok bj, q1)) :
    createJob now user body w =
      (⟨201, true, "Job created successfully",
          some { newJob (freshId w.jobs) user body with bullJobId := some bj.id }⟩,
        { jobs := w.jobs ++
            [{ storedForm (newJob (freshId w.jobs) user body) with bullJobId := some bj.id }]
          logs := w.logs, queue := q1 }) := by
  have h := writeModified_append_fresh w.jobs (storedForm (newJob (freshId w.jobs) user body))
    ⟨newJob (freshId w.jobs) user body,
      { newJob (freshId w.jobs) user body with bullJobId := some bj.id }⟩ rfl rfl
  have hm := mergeModified_bullJobId (newJob (freshId w.jobs) user body)
    (storedForm (newJob (freshId w.jobs) user body)) (some bj.id) rfl
  have hv : saveValid ⟨newJob (freshId w.jobs) user body,
      { newJob (freshId w.jobs) user body with bullJobId := some bj.id }⟩ = true :=
    saveValid_of_unvalidated _ _ (jobSchemaValid_payload hvalid) rfl rfl rfl rfl
  simp only [createJob, insertDoc_ok _ hvalid, hadd, saveDoc_ok _ hv]
  rw [h, hm]

/-- The controller `createJob` when the document passes validation and the
adapter throws. -/
theorem createJob_error (now user : Nat) (body : CreateJobBody) (w : World) (e : JsError)
    (q1 : Queue) (hvalid : jobSchemaValid (newJob (freshId w.jobs) user body) = true)
    (hadd : queueService.addByType now (newJob (freshId w.jobs) user body) w.queue =
      (Except.error e, q1)) :
    createJob now user body w =
      (⟨500, false, "Failed to create job", none⟩,
        { jobs := w.jobs ++ [storedForm (newJob (freshId w.jobs) user body)], logs := w.logs
          queue := q1 }) := by
  simp only [createJob, insertDoc_ok _ hvalid, hadd]

/-- A patch the update validator accepts, applied to a record that has its
payload, makes a document whose save passes validation. -/
theorem saveValid_applyPatch (now : Nat) (j : Job) (body : UpdateJobBody)
    (hp : payloadPresent j.payload = true) (h : updateJobSchema now body = true) :
    saveValid ⟨j, applyPatch j body⟩ = true := by
  simp only [updateJobSchema, Bool.and_eq_true] at h
  obtain ⟨⟨⟨⟨⟨⟨h1, h2⟩, -⟩, -⟩, h5⟩, h6⟩, -⟩ := h
  have hname : (decide ((applyPatch j body).name = j.name) ||
      nameValid (applyPatch j body).name) = true := by
    cases hn : body.name with
    | none => simp [applyPatch, hn]
    | some n =>
      rw [hn] at h1
      have : nameValid (jsTrim n) = true := h1
      simp [applyPatch, hn, this]
  have hdesc : (decide ((applyPatch j body).description = j.description) ||
      descriptionValid (applyPatch j body).description) = true := by
    cases hd : body.description with
    | none => simp [applyPatch, hd]
    | some d =>
      rw [hd] at h2
      simp only [Bool.and_eq_true] at h2
      have : descriptionValid (some d) = true := h2.2
      simp [applyPatch, hd, this]
  have hprio : (decide ((applyPatch j body).priority = j.priority) ||
      priorityValid (applyPatch j body).priority) = true := by
    cases hq : body.priority with
    | none => simp [applyPatch, hq]
    | some q =>
      rw [hq] at h5
      have : priorityValid q = true := h5
      simp [applyPatch, hq, this]
  have hmax : (decide ((applyPatch j body).maxRetries = j.maxRetries) ||
      maxRetriesValid (applyPatch j body).maxRetries) = true := by
    cases hm : body.maxRetries with
    | none => simp [applyPatch, hm]
    | some m =>
      rw [hm] at h6
      have : maxRetriesValid m = true := h6
      simp [applyPatch, hm, this]
  have hpay : payloadPresent (applyPatch j body).payload = true := hp
  simp only [saveValid, hpay, hname, hdesc, hprio, hmax, Bool.and_self]

/-- The controller `retryJob` on a FAILED job with retries left and a queue
that answers. -/
theorem retryJob_ok (id user : Nat) (w : World) (j j1 : Job)
    (hfind : findOne w.jobs id user = some j) (hs : j.status = JobStatus.FAILED)
    (hlt : j.currentRetries < j.maxRetries) (hup : w.queue.up = true)
    (hp : payloadPresent j.payload = true)
    (hj1 : j1 = { j with status := JobStatus.PENDING, error := none, failedAt := none }) :
    retryJob id user w =
      (⟨200, true, "Job retry initiated successfully",
          some { j1 with bullJobId := some w.queue.nextId }⟩,
        { jobs := writeModified (writeModified w.jobs ⟨j, j1⟩)
            ⟨j1, { j1 with bullJobId := some w.queue.nextId }⟩
          logs := w.logs
          queue :=
            { up := true, nextId := w.queue.nextId + 1
              entries := w.queue.entries ++ [⟨w.queue.nextId, queueService.immediateRequest j1⟩]
              calls := w.queue.calls ++ [QueueCall.add (queueService.immediateRequest j1)] } }) := by
  have hge : ¬ j.currentRetries ≥ j.maxRetries := by omega
  subst hj1
  have hv1 : saveValid
      ⟨j, { j with status := JobStatus.PENDING, error := none, failedAt := none }⟩ = true :=
    saveValid_of_unvalidated _ _ hp rfl rfl rfl rfl
  have hv2 : saveValid
      ⟨{ j with status := JobStatus.PENDING, error := none, failedAt := none },
       { j with status := JobStatus.PENDING, error := none, failedAt := none
                bullJobId := some w.queue.nextId }⟩ = true :=
    saveValid_of_unvalidated _ _ hp rfl rfl rfl rfl
  simp only [retryJob, hfind, hs, ne_eq, not_true_eq_false, if_false, hge,
    queueService.retryJob, queueService.addImmediateJob, queueService.add_up _ _ hup,
    saveDoc_ok _ hv1, saveDoc_ok _ hv2]

end jobController

end Chronos

namespace Chronos

namespace jobController

/-- What `cancelJob` does to the store: nothing, or one save that sets
CANCELLED on a record that was neither COMPLETED nor CANCELLED. -/
theorem cancelJob_jobs (id user : Nat) (w : World) :
    (cancelJob id user w).2.jobs = w.jobs ∨
    ∃ j0, findOne w.jobs id user = some j0 ∧ j0.status ≠ JobStatus.COMPLETED ∧
      j0.status ≠ JobStatus.CANCELLED ∧
      (cancelJob id user w).2.jobs =
        writeModified w.jobs ⟨j0, { j0 with status := JobStatus.CANCELLED }⟩ := by
  cases hfind : findOne w.jobs id user with
  | none => left; simp [cancelJob, hfind]
  | some j0 =>
    by_cases hs : j0.status = JobStatus.COMPLETED ∨ j0.status = JobStatus.CANCELLED
    · left; simp [cancelJob, hfind, hs]
    · have hs2 := hs
      rw [not_or] at hs2
      have hc : j0.updateStatusFields 0 JobStatus.CANCELLED AdditionalData.empty =
          { j0 with status := JobStatus.CANCELLED } :=
        jobService.updateStatusFields_cancelled j0 0
      simp only [cancelJob, hfind, hs, if_false, jobService.updateStatus, Doc.load, Doc.synced]
      rw [hc]
      rcases saveDoc_cases w.jobs ⟨j0, { j0 with status := JobStatus.CANCELLED }⟩ with hsv | hsv
      · simp only [hsv]
        split
        · split
          · left; rfl
          · right; exact ⟨j0, rfl, hs2.1, hs2.2, rfl⟩
        · right; exact ⟨j0, rfl, hs2.1, hs2.2, rfl⟩
      · simp only [hsv]
        left
        split
        · split <;> rfl
        · rfl

/-- What `retryJob` does to the store: nothing, or the save that resets a
FAILED record with retries left to PENDING, possibly followed by the save of
the queue id. -/
theorem retryJob_jobs (id user : Nat) (w : World) :
    (retryJob id user w).2.jobs = w.jobs ∨
    ∃ j0 j1, findOne w.jobs id user = some j0 ∧ j0.status = JobStatus.FAILED ∧
      j0.currentRetries < j0.maxRetries ∧ j1.status = JobStatus.PENDING ∧
      j1._id = j0._id ∧
      ((retryJob id user w).2.jobs = writeModified w.jobs ⟨j0, j1⟩ ∨
        ∃ j2, j2.status = JobStatus.PENDING ∧
          (retryJob id user w).2.jobs = writeModified (writeModified w.jobs ⟨j0, j1⟩) ⟨j1, j2⟩) := by
  cases hfind : findOne w.jobs id user with
  | none => left; simp [retryJob, hfind]
  | some j0 =>
    by_cases hs : j0.status = JobStatus.FAILED
    · by_cases hr : j0.currentRetries ≥ j0.maxRetries
      · left; simp [retryJob, hfind, hs, hr]
      · rcases saveDoc_cases w.jobs
          ⟨j0, { j0 with status := JobStatus.PENDING, error := none, failedAt := none }⟩
          with h1 | h1
        · right
          refine ⟨j0, { j0 with status := JobStatus.PENDING, error := none, failedAt := none },
            rfl, hs, by omega, rfl, rfl, ?_⟩
          simp only [retryJob, hfind, hs, ne_eq, not_true_eq_false, if_false, hr, h1]
          rcases hq : queueService.retryJob
            { j0 with status := JobStatus.PENDING, error := none, failedAt := none } w.queue
            with ⟨res, q1⟩
          cases res with
          | error e => left; rfl
          | ok bj =>
            rcases saveDoc_cases
              (writeModified w.jobs
                ⟨j0, { j0 with status := JobStatus.PENDING, error := none, failedAt := none }⟩)
              ⟨{ j0 with status := JobStatus.PENDING, error := none, failedAt := none },
               { j0 with status := JobStatus.PENDING, error := none, failedAt := none
                         bullJobId := some bj.id }⟩ with h2 | h2
            · right
              exact ⟨{ j0 with status := JobStatus.PENDING, error := none, failedAt := none
                               bullJobId := some bj.id }, rfl, by simp only [h2]⟩
            · left
              simp only [h2]
        · left
          simp only [retryJob, hfind, hs, ne_eq, not_true_eq_false, if_false, hr, h1]
    · left; simp [retryJob, hfind, hs]

/-- What `updateJob` does to the store: nothing, or one save of a document whose
status is not modified. -/
theorem updateJob_jobs (now id user : Nat) (body : UpdateJobBody) (w : World) :
    (updateJob now id user body w).2.jobs = w.jobs ∨
    ∃ j0 j1, j1.status = j0.status ∧
      (updateJob now id user body w).2.jobs = writeModified w.jobs ⟨j0, j1⟩ := by
  cases hfind : findOne w.jobs id user with
  | none => left; simp [updateJob, hfind]
  | some j0 =>
    by_cases hs : j0.status = JobStatus.ACTIVE ∨ j0.status = JobStatus.COMPLETED
    · left; simp [updateJob, hfind, hs]
    · rcases saveDoc_cases w.jobs ⟨j0, applyPatch j0 body⟩ with h1 | h1
      · right
        refine ⟨j0, applyPatch j0 body, rfl, ?_⟩
        simp only [updateJob, hfind, hs, if_false, h1]
        split
        · split <;> rfl
        · rfl
      · left
        simp only [updateJob, hfind, hs, if_false, h1]

end jobController

end Chronos

namespace Chronos

/-! ## Facts about the registry -/

namespace schedulerService

theorem has_eq_false_iff (s : Scheduler) (key : Nat) :
    s.has key = false ↔ ∀ e ∈ s.scheduledTasks, e.1 ≠ key := by
  simp [Scheduler.has]

theorem get_eq_none_of_not_has (s : Scheduler) (key : Nat) (h : s.has key = false) :
    s.get key = none := by
  rw [has_eq_false_iff] at h
  simp only [Scheduler.get, Option.map_eq_none']
  rw [List.find?_eq_none]
  intro e he
  simpa using h e he

theorem get_filter_ne (l : List (Nat × Nat)) (key k : Nat) (h : k ≠ key) :
    ((l.filter (fun e => !decide (e.1 = key))).find? (fun e => decide (e.1 = k))) =
      l.find? (fun e => decide (e.1 = k)) := by
  induction l with
  | nil => rfl
  | cons a l ih =>
    obtain ⟨a1, a2⟩ := a
    rw [List.filter_cons]
    by_cases ha : a1 = key
    · subst ha
      have hk : ¬ a1 = k := fun e => h e.symm
      simp only [decide_True, Bool.not_true, Bool.false_eq_true, if_false, List.find?_cons, hk,
        decide_False]
      exact ih
    · by_cases hk : a1 = k
      · subst hk
        simp only [ha, decide_False, Bool.not_false, if_true, List.find?_cons, decide_True]
      · simp only [ha, decide_False, Bool.not_false, if_true, List.find?_cons, hk]
        exact ih

theorem find?_filter_self (l : List (Nat × Nat)) (key : Nat) :
    ((l.filter (fun e => !decide (e.1 = key))).find? (fun e => decide (e.1 = key))) = none := by
  rw [List.find?_eq_none]
  intro e he
  have := (List.mem_filter.mp he).2
  simpa using this

theorem find?_append_single (l : List (Nat × Nat)) (key task k : Nat) :
    (l ++ [(key, task)]).find? (fun e => decide (e.1 = k)) =
      match l.find? (fun e => decide (e.1 = k)) with
      | some e => some e
      | none => if key = k then some (key, task) else none := by
  rw [List.find?_append]
  cases l.find? (fun e => decide (e.1 = k)) with
  | some e => rfl
  | none =>
    by_cases hk : key = k <;> simp [hk]

theorem get_some_mem {s : Scheduler} {key t : Nat} (h : s.get key = some t) :
    (key, t) ∈ s.scheduledTasks := by
  unfold Scheduler.get at h
  cases hf : s.scheduledTasks.find? (fun e => decide (e.1 = key)) with
  | none => rw [hf] at h; cases h
  | some e =>
    rw [hf] at h
    have h1 : e.1 = key := by simpa using List.find?_some hf
    have h2 : e.2 = t := by simpa using h
    have := List.mem_of_find?_eq_some hf
    rw [← h1, ← h2]
    exact this

/-- What "remove existing task if any" leaves in the map. -/
theorem removeExisting_scheduledTasks (key : Nat) (s : Scheduler) :
    (removeExisting key s).scheduledTasks =
      s.scheduledTasks.filter (fun e => !decide (e.1 = key)) := by
  unfold removeExisting
  cases hh : s.has key
  · simp only [Bool.false_eq_true, if_false]
    symm
    rw [List.filter_eq_self]
    intro e he
    have := (has_eq_false_iff s key).mp hh e he
    simpa using this
  · simp only [if_true]
    cases s.get key <;> rfl

/-- What "remove existing task if any" does to the tasks. -/
theorem removeExisting_tasks (key : Nat) (s : Scheduler) :
    (removeExisting key s).tasks =
      match s.get key with
      | some t => s.tasks.map (fun u => if u.id = t then u.stopped else u)
      | none => s.tasks := by
  unfold removeExisting
  cases hh : s.has key
  · simp [get_eq_none_of_not_has s key hh]
  · simp only [if_true]
    cases s.get key <;> rfl

theorem removeExisting_tasks_length (key : Nat) (s : Scheduler) :
    (removeExisting key s).tasks.length = s.tasks.length := by
  rw [removeExisting_tasks]
  cases s.get key <;> simp

theorem removeExisting_has (key : Nat) (s : Scheduler) :
    (removeExisting key s).has key = false := by
  rw [has_eq_false_iff, removeExisting_scheduledTasks]
  intro e he
  have := (List.mem_filter.mp he).2
  simpa using this

/-- A successful `scheduleRecurringJob`, spelled out. -/
theorem scheduleRecurringJob_valid (nodeCron : String → Bool) (job : Doc) (s : Scheduler)
    (h : isValidCronExpression job.cur.cronExpression = true)
    (hn : nodeCron (job.cur.cronExpression.getD "undefined") = true) :
    scheduleRecurringJob nodeCron job s =
      (Except.ok (),
        { scheduledTasks :=
            s.scheduledTasks.filter (fun e => !decide (e.1 = job.cur._id)) ++
              [(job.cur._id, s.tasks.length)]
          tasks :=
            ((removeExisting job.cur._id s).tasks ++
              [(⟨s.tasks.length, job.cur.cronExpression, job, false, 0, 0⟩ : CronTask)]).map
              (fun t => if t.id = s.tasks.length
                then { t with running := true, starts := t.starts + 1 } else t) }) := by
  have hhas := removeExisting_has job.cur._id s
  have hlen := removeExisting_tasks_length job.cur._id s
  have hst := removeExisting_scheduledTasks job.cur._id s
  simp only [scheduleRecurringJob, h, hn, Bool.not_true, Bool.false_eq_true, if_false,
    Scheduler.createTask, Scheduler.startTask, Scheduler.set, hlen]
  have hhas2 : ∀ ts, Scheduler.has ⟨(removeExisting job.cur._id s).scheduledTasks, ts⟩
      job.cur._id = false := fun _ => hhas
  simp only [hhas2, Bool.false_eq_true, if_false]
  rw [hst]

/-- A `scheduleRecurringJob` that fails its own test of the expression. -/
theorem scheduleRecurringJob_invalid (nodeCron : String → Bool) (job : Doc) (s : Scheduler)
    (h : isValidCronExpression job.cur.cronExpression = false) :
    scheduleRecurringJob nodeCron job s =
      (Except.error (invalidCron job.cur.cronExpression), s) := by
  simp [scheduleRecurringJob, h]

/-- A `scheduleRecurringJob` whose `cron.schedule` throws: the task the job had
is stopped and deleted by then. -/
theorem scheduleRecurringJob_thrown (nodeCron : String → Bool) (job : Doc) (s : Scheduler)
    (h : isValidCronExpression job.cur.cronExpression = true)
    (hn : nodeCron (job.cur.cronExpression.getD "undefined") = false) :
    scheduleRecurringJob nodeCron job s =
      (Except.error (cronScheduleError job.cur.cronExpression),
        removeExisting job.cur._id s) := by
  simp [scheduleRecurringJob, h, hn]

end schedulerService

end Chronos

namespace Chronos

namespace schedulerService

/-- Successive `stop()` calls on the tasks with the given handles. -/
theorem foldl_stop_nodup (hs : List Nat) (hnd : hs.Nodup) (ts : List CronTask) :
    hs.foldl (fun ts h => ts.map (fun t => if t.id = h then t.stopped else t)) ts =
      ts.map (fun t => if t.id ∈ hs then t.stopped else t) := by
  induction hs generalizing ts with
  | nil => simp
  | cons h hs ih =>
    rw [List.nodup_cons] at hnd
    rw [List.foldl_cons, ih hnd.2, List.map_map]
    apply List.map_congr_left
    intro t _
    simp only [Function.comp]
    by_cases hth : t.id = h
    · have hn : t.stopped.id ∉ hs := by
        show t.id ∉ hs
        rw [hth]; exact hnd.1
      simp [hth, hn]
    · have : t.id ∈ h :: hs ↔ t.id ∈ hs := by simp [hth]
      simp only [hth, if_false, this]

/-- The loop of `cleanupStaleTasks`, started on the not yet visited part `post`
of a map with distinct keys. -/
theorem cleanupLoop_spec (active : List Nat) (post pre : List (Nat × Nat))
    (tasks : List CronTask) (hnd : ((pre ++ post).map (fun e => e.1)).Nodup) :
    cleanupLoop active (post.map (fun e => e.1)) ⟨pre ++ post, tasks⟩ =
      ⟨pre ++ post.filter (fun e => active.contains e.1),
        ((post.filter (fun e => !active.contains e.1)).map (fun e => e.2)).foldl
          (fun ts h => ts.map (fun t => if t.id = h then t.stopped else t)) tasks⟩ := by
  induction post generalizing pre tasks with
  | nil => simp [cleanupLoop]
  | cons a rest ih =>
    obtain ⟨k, h⟩ := a
    simp only [List.map_cons, cleanupLoop]
    by_cases hact : active.contains k = true
    · simp only [hact, Bool.not_true, Bool.false_eq_true, if_false, List.filter_cons, if_true]
      have := ih (pre ++ [(k, h)]) tasks (by simpa using hnd)
      simpa using this
    · have hact2 : active.contains k = false := by simpa using hact
      simp only [hact2, Bool.not_false, if_true, List.filter_cons, Bool.false_eq_true, if_false,
        List.map_cons, List.foldl_cons]
      rw [List.map_append, List.map_cons, List.nodup_append] at hnd
      obtain ⟨hpre, hpost, hdis⟩ := hnd
      rw [List.nodup_cons] at hpost
      have hkpre : ∀ e ∈ pre, e.1 ≠ k := by
        intro e he hek
        exact hdis (List.mem_map.mpr ⟨e, he, hek⟩) (List.mem_cons_self _ _)
      have hkrest : ∀ e ∈ rest, e.1 ≠ k := by
        intro e he hek
        exact hpost.1 (List.mem_map.mpr ⟨e, he, hek⟩)
      have hget : Scheduler.get ⟨pre ++ (k, h) :: rest, tasks⟩ k = some h := by
        simp only [Scheduler.get, List.find?_append]
        have : pre.find? (fun e => decide (e.1 = k)) = none := by
          rw [List.find?_eq_none]
          intro e he
          simpa using hkpre e he
        simp [this]
      have hdel : (pre ++ (k, h) :: rest).filter (fun e => !decide (e.1 = k)) = pre ++ rest := by
        rw [List.filter_append, List.filter_cons]
        simp only [decide_True, Bool.not_true, Bool.false_eq_true, if_false]
        congr 1
        · rw [List.filter_eq_self]
          intro e he
          simpa using hkpre e he
        · rw [List.filter_eq_self]
          intro e he
          simpa using hkrest e he
      rw [hget]
      simp only [Scheduler.stopTask, Scheduler.delete, hdel]
      have hnd2 : ((pre ++ rest).map (fun e => e.1)).Nodup := by
        rw [List.map_append, List.nodup_append]
        refine ⟨hpre, hpost.2, ?_⟩
        intro x hx1 hx2
        exact hdis hx1 (List.mem_cons_of_mem _ hx2)
      exact ih pre _ hnd2

/-- The list of active ids `cleanupStaleTasks` computes, as a test on one id. -/
theorem activeIds_contains (jobs : List Job) (k : Nat) :
    ((findRecurringActive jobs).map (fun j => j._id)).dedup.contains k =
      isActiveRecurring jobs k := by
  rw [Bool.eq_iff_iff]
  simp only [List.contains_eq_any_beq, List.any_eq_true, List.mem_dedup, List.mem_map,
    findRecurringActive, List.mem_filter, isActiveRecurring, Bool.and_eq_true,
    Bool.or_eq_true, decide_eq_true_eq, beq_iff_eq]
  constructor
  · rintro ⟨x, ⟨j, ⟨hj, ht, hs⟩, hid⟩, hx⟩
    exact ⟨j, hj, ⟨hid.trans hx.symm, ht⟩, hs⟩
  · rintro ⟨j, hj, ⟨hid, ht⟩, hs⟩
    exact ⟨k, ⟨j, ⟨hj, ht, hs⟩, hid⟩, rfl⟩

/-- The state after `cleanupStaleTasks` on a registry with distinct keys and
distinct handles. -/
theorem cleanupStaleTasks_spec (jobs : List Job) (s : Scheduler)
    (hk : (s.scheduledTasks.map (fun e => e.1)).Nodup)
    (hh : (s.scheduledTasks.map (fun e => e.2)).Nodup) :
    cleanupStaleTasks jobs s =
      ⟨s.scheduledTasks.filter (fun e => isActiveRecurring jobs e.1),
        s.tasks.map (fun t => if t.id ∈ staleHandles jobs s then t.stopped else t)⟩ := by
  have h := cleanupLoop_spec ((findRecurringActive jobs).map (fun j => j._id)).dedup
    s.scheduledTasks [] s.tasks (by simpa using hk)
  simp only [List.nil_append, activeIds_contains] at h
  unfold cleanupStaleTasks Scheduler.keys
  rw [show s = ⟨s.scheduledTasks, s.tasks⟩ from rfl] at *
  simp only at h ⊢
  rw [h]
  congr 1
  apply foldl_stop_nodup
  exact (List.Nodup.sublist (List.Sublist.map _ (List.filter_sublist _)) hh)

end schedulerService

end Chronos

namespace Chronos

/-! ## Facts about the regular expressions -/

namespace Re

theorem matchList_fail (s : List Char) : matchList fail s = false := by
  induction s with
  | nil => rfl
  | cons c cs ih => simpa [matchList, deriv] using ih

theorem matchList_eps (s : List Char) : matchList eps s = true ↔ s = [] := by
  cases s with
  | nil => simp [matchList, nullable]
  | cons c cs => simp [matchList, deriv, matchList_fail]

theorem matchList_chr (a : Char) (s : List Char) : matchList (chr a) s = true ↔ s = [a] := by
  cases s with
  | nil => simp [matchList, nullable]
  | cons c cs =>
    by_cases h : a = c
    · simp [matchList, deriv, h, matchList_eps]
    · have : ¬ c = a := fun e => h e.symm
      simp [matchList, deriv, h, matchList_fail, this]

theorem matchList_range (lo hi : Char) (s : List Char) :
    matchList (range lo hi) s = true ↔
      ∃ c, s = [c] ∧ lo.toNat ≤ c.toNat ∧ c.toNat ≤ hi.toNat := by
  cases s with
  | nil => simp [matchList, nullable]
  | cons c cs =>
    by_cases h : lo.toNat ≤ c.toNat ∧ c.toNat ≤ hi.toNat
    · simp only [matchList, deriv, h, and_self, if_true, matchList_eps]
      constructor
      · rintro rfl; exact ⟨c, rfl, h⟩
      · rintro ⟨d, hd, -⟩
        exact (List.cons.inj hd).2
    · simp only [matchList, deriv, h, if_false, matchList_fail, Bool.false_eq_true, false_iff]
      rintro ⟨d, hd, h1⟩
      rw [(List.cons.inj hd).1] at h
      exact h h1

theorem matchList_alt (a b : Re) (s : List Char) :
    matchList (alt a b) s = (matchList a s || matchList b s) := by
  induction s generalizing a b with
  | nil => rfl
  | cons c cs ih => simp [matchList, deriv, ih]

theorem matchList_seq (a b : Re) (s : List Char) :
    matchList (seq a b) s = true ↔
      ∃ s1 s2, s = s1 ++ s2 ∧ matchList a s1 = true ∧ matchList b s2 = true := by
  induction s generalizing a with
  | nil =>
    simp only [matchList, nullable, Bool.and_eq_true]
    constructor
    · rintro ⟨h1, h2⟩
      exact ⟨[], [], rfl, h1, h2⟩
    · rintro ⟨s1, s2, h, h1, h2⟩
      have := List.append_eq_nil.mp h.symm
      rw [this.1] at h1
      rw [this.2] at h2
      exact ⟨h1, h2⟩
  | cons c cs ih =>
    have hcons : (∃ s1 s2, c :: cs = s1 ++ s2 ∧ matchList a s1 = true ∧ matchList b s2 = true) ↔
        (a.nullable = true ∧ matchList (b.deriv c) cs = true) ∨
        (∃ s1 s2, cs = s1 ++ s2 ∧ matchList (a.deriv c) s1 = true ∧ matchList b s2 = true) := by
      constructor
      · rintro ⟨s1, s2, h, h1, h2⟩
        cases s1 with
        | nil =>
          left
          simp only [List.nil_append] at h
          subst h
          exact ⟨h1, h2⟩
        | cons d s1 =>
          right
          simp only [List.cons_append, List.cons.injEq] at h
          obtain ⟨rfl, rfl⟩ := h
          exact ⟨s1, s2, rfl, h1, h2⟩
      · rintro (⟨h1, h2⟩ | ⟨s1, s2, h, h1, h2⟩)
        · exact ⟨[], c :: cs, rfl, h1, h2⟩
        · exact ⟨c :: s1, s2, by simp [h], h1, h2⟩
    rw [hcons]
    by_cases hn : a.nullable = true
    · simp only [matchList, deriv, hn, if_true, matchList_alt, Bool.or_eq_true, ih, true_and]
      exact or_comm
    · simp only [matchList, deriv, hn, if_false, ih, false_and, false_or, Bool.false_eq_true]

end Re

end Chronos

namespace Chronos

theorem char_eq_ofNat_iff (c : Char) (n : Nat) (h : (Char.ofNat n).toNat = n) :
    c = Char.ofNat n ↔ c.toNat = n := by
  constructor
  · rintro rfl; exact h
  · intro hc
    rw [← hc, Char.ofNat_toNat]

theorem toNat_ofNat_digit (d : Nat) (h : d ≤ 9) : (Char.ofNat (48 + d)).toNat = 48 + d := by
  interval_cases d <;> rfl

theorem matchList_digits (lo hi : Nat) (hlo : lo ≤ 9) (hhi : hi ≤ 9) (f : List Char) :
    (digits lo hi).matchList f = true ↔
      ∃ c, f = [c] ∧ 48 + lo ≤ c.toNat ∧ c.toNat ≤ 48 + hi := by
  rw [digits, Re.matchList_range, toNat_ofNat_digit lo hlo, toNat_ofNat_digit hi hhi]

theorem matchList_tens (d lo hi : Nat) (hd : d ≤ 9) (hlo : lo ≤ 9) (hhi : hi ≤ 9)
    (f : List Char) :
    (tens d lo hi).matchList f = true ↔
      ∃ a c, f = [a, c] ∧ a.toNat = 48 + d ∧ 48 + lo ≤ c.toNat ∧ c.toNat ≤ 48 + hi := by
  rw [tens, Re.matchList_seq]
  constructor
  · rintro ⟨s1, s2, rfl, h1, h2⟩
    rw [Re.matchList_chr] at h1
    rw [matchList_digits lo hi hlo hhi] at h2
    obtain ⟨c, rfl, h3, h4⟩ := h2
    subst h1
    exact ⟨_, c, rfl, toNat_ofNat_digit d hd, h3, h4⟩
  · rintro ⟨a, c, rfl, h1, h2, h3⟩
    refine ⟨[a], [c], rfl, ?_, ?_⟩
    · rw [Re.matchList_chr]
      congr 1
      exact (char_eq_ofNat_iff a _ (toNat_ofNat_digit d hd)).mpr h1
    · rw [matchList_digits lo hi hlo hhi]
      exact ⟨c, rfl, h2, h3⟩

theorem decimalValueFrom_nil (acc : Nat) : decimalValueFrom acc [] = acc := rfl

theorem decimalValueFrom_cons (acc : Nat) (c : Char) (cs : List Char) :
    decimalValueFrom acc (c :: cs) = decimalValueFrom (10 * acc + (c.toNat - 48)) cs := rfl

theorem le_decimalValueFrom (acc : Nat) (f : List Char) : acc ≤ decimalValueFrom acc f := by
  induction f generalizing acc with
  | nil => exact Nat.le_refl _
  | cons c cs ih =>
    have := ih (10 * acc + (c.toNat - 48))
    show acc ≤ decimalValueFrom (10 * acc + (c.toNat - 48)) cs
    omega

/-- The numbers of the specification, for ranges below 100, have one or two
digits. -/
theorem specNumber_iff (lo hi : Nat) (hhi : hi ≤ 99) (f : List Char) :
    specNumber lo hi f = true ↔ numberShape lo hi f := by
  have h48 : (Char.ofNat 48).toNat = 48 := rfl
  have hz : zeroChar = Char.ofNat 48 := rfl
  rcases f with _ | ⟨a, _ | ⟨b, _ | ⟨c, rest⟩⟩⟩
  · simp [specNumber, numberShape, decimalValue, decimalValueFrom_nil]
  · simp only [specNumber, numberShape, List.isEmpty_cons, Bool.not_false, List.all_cons,
      List.all_nil, Bool.and_true, isDigitChar, Bool.and_eq_true, decide_eq_true_eq,
      List.length_singleton, decide_True, Bool.true_or, Bool.true_and, decimalValue,
      decimalValueFrom_cons, decimalValueFrom_nil, List.cons.injEq, and_true]
    constructor
    · rintro ⟨⟨⟨h1, h2⟩, h3⟩, h4⟩
      exact Or.inl ⟨a, rfl, h1, h2, by omega, by omega⟩
    · rintro (⟨c, rfl, h1, h2, h3, h4⟩ | ⟨x, y, h, -⟩)
      · exact ⟨⟨⟨h1, h2⟩, by omega⟩, by omega⟩
      · simp at h
  · have hne : (a ≠ zeroChar) ↔ a.toNat ≠ 48 := by
      rw [hz]; exact not_congr (char_eq_ofNat_iff a 48 h48)
    simp only [specNumber, numberShape, List.isEmpty_cons, Bool.not_false, List.all_cons,
      List.all_nil, Bool.and_true, isDigitChar, Bool.and_eq_true, decide_eq_true_eq,
      List.length_cons, List.length_singleton, List.length_nil, Bool.true_and, decimalValue,
      decimalValueFrom_cons, decimalValueFrom_nil, List.head?_cons, ne_eq, Option.some.injEq,
      Bool.or_eq_true]
    constructor
    · rintro ⟨⟨⟨⟨⟨h1, h2⟩, h3, h4⟩, h5⟩, h6⟩, h7⟩
      have ha : a.toNat ≠ 48 := by
        rcases h5 with h5 | h5
        · omega
        · exact hne.mp h5
      exact Or.inr ⟨a, b, rfl, by omega, h2, h3, h4, by omega, by omega⟩
    · rintro (⟨c, h, -⟩ | ⟨x, y, h, h1, h2, h3, h4, h5, h6⟩)
      · simp at h
      · simp only [List.cons.injEq, and_true] at h
        obtain ⟨rfl, rfl⟩ := h
        refine ⟨⟨⟨⟨⟨by omega, h2⟩, h3, h4⟩, Or.inr (hne.mpr (by omega))⟩, by omega⟩, by omega⟩
  · have hne : (a ≠ zeroChar) ↔ a.toNat ≠ 48 := by
      rw [hz]; exact not_congr (char_eq_ofNat_iff a 48 h48)
    have hshape : ¬ numberShape lo hi (a :: b :: c :: rest) := by
      rintro (⟨x, h, -⟩ | ⟨x, y, h, -⟩) <;> simp at h
    simp only [hshape, iff_false, Bool.not_eq_true]
    cases hs : specNumber lo hi (a :: b :: c :: rest)
    · rfl
    · exfalso
      simp only [specNumber, List.isEmpty_cons, Bool.not_false, List.all_cons, isDigitChar,
        Bool.and_eq_true, decide_eq_true_eq, List.length_cons, Bool.true_and, decimalValue,
        decimalValueFrom_cons, decimalValueFrom_nil, List.head?_cons, ne_eq, Option.some.injEq,
      Bool.or_eq_true] at hs
      obtain ⟨⟨⟨⟨⟨h1, h2⟩, ⟨h3, h4⟩, ⟨h5, h6⟩, -⟩, h7⟩, -⟩, h9⟩ := hs
      have ha : a.toNat ≠ 48 := by
        rcases h7 with h7 | h7
        · omega
        · exact hne.mp h7
      have := le_decimalValueFrom
        (10 * (10 * (10 * 0 + (a.toNat - 48)) + (b.toNat - 48)) + (c.toNat - 48)) rest
      omega

end Chronos

namespace Chronos

theorem numberShape_cases (lo hi : Nat) (f : List Char) (P : Prop)
    (h1 : ∀ c, f = [c] →
      (P ↔ (48 ≤ c.toNat ∧ c.toNat ≤ 57 ∧ lo ≤ c.toNat - 48 ∧ c.toNat - 48 ≤ hi)))
    (h2 : ∀ a c, f = [a, c] →
      (P ↔ (49 ≤ a.toNat ∧ a.toNat ≤ 57 ∧ 48 ≤ c.toNat ∧ c.toNat ≤ 57 ∧
        lo ≤ 10 * (a.toNat - 48) + (c.toNat - 48) ∧ 10 * (a.toNat - 48) + (c.toNat - 48) ≤ hi)))
    (h0 : f.length ≠ 1 → f.length ≠ 2 → ¬ P) :
    P ↔ numberShape lo hi f := by
  rcases f with _ | ⟨a, _ | ⟨b, _ | ⟨c, rest⟩⟩⟩
  · have : ¬ numberShape lo hi [] := by
      rintro (⟨x, h, -⟩ | ⟨x, y, h, -⟩) <;> simp at h
    simp only [this, iff_false]
    exact h0 (by simp) (by simp)
  · rw [h1 a rfl]
    constructor
    · intro h; exact Or.inl ⟨a, rfl, h⟩
    · rintro (⟨x, h, hx⟩ | ⟨x, y, h, -⟩)
      · simp only [List.cons.injEq, and_true] at h
        subst h; exact hx
      · simp at h
  · rw [h2 a b rfl]
    constructor
    · intro h; exact Or.inr ⟨a, b, rfl, h⟩
    · rintro (⟨x, h, -⟩ | ⟨x, y, h, hx⟩)
      · simp at h
      · simp only [List.cons.injEq, and_true] at h
        obtain ⟨rfl, rfl⟩ := h
        exact hx
  · have : ¬ numberShape lo hi (a :: b :: c :: rest) := by
      rintro (⟨x, h, -⟩ | ⟨x, y, h, -⟩) <;> simp at h
    simp only [this, iff_false]
    exact h0 (by simp) (by simp)

theorem minuteNumber_iff (f : List Char) :
    minuteNumber.matchList f = true ↔ numberShape 0 59 f := by
  apply numberShape_cases
  · intro c hf
    subst hf
    simp only [minuteNumber, Re.alts, Re.matchList_alt, Bool.or_eq_true,
      matchList_digits 0 9 (by omega) (by omega), matchList_tens 1 0 9 (by omega) (by omega)
      (by omega), matchList_tens 2 0 9 (by omega) (by omega) (by omega),
      matchList_tens 3 0 9 (by omega) (by omega) (by omega),
      matchList_tens 4 0 9 (by omega) (by omega) (by omega),
      matchList_tens 5 0 9 (by omega) (by omega) (by omega), List.cons.injEq, and_true,
      exists_eq_left', reduceCtorEq, false_and, exists_false, or_false, and_false]
    omega
  · intro a c hf
    subst hf
    simp only [minuteNumber, Re.alts, Re.matchList_alt, Bool.or_eq_true,
      matchList_digits 0 9 (by omega) (by omega), matchList_tens 1 0 9 (by omega) (by omega)
      (by omega), matchList_tens 2 0 9 (by omega) (by omega) (by omega),
      matchList_tens 3 0 9 (by omega) (by omega) (by omega),
      matchList_tens 4 0 9 (by omega) (by omega) (by omega),
      matchList_tens 5 0 9 (by omega) (by omega) (by omega), List.cons.injEq, and_true,
      reduceCtorEq, false_and, exists_false, false_or, and_false]
    constructor
    · rintro (⟨x, y, ⟨rfl, rfl⟩, h⟩ | ⟨x, y, ⟨rfl, rfl⟩, h⟩ | ⟨x, y, ⟨rfl, rfl⟩, h⟩ |
        ⟨x, y, ⟨rfl, rfl⟩, h⟩ | ⟨x, y, ⟨rfl, rfl⟩, h⟩) <;> omega
    · intro h
      have : a.toNat = 49 ∨ a.toNat = 50 ∨ a.toNat = 51 ∨ a.toNat = 52 ∨ a.toNat = 53 := by
        omega
      rcases this with h1 | h1 | h1 | h1 | h1
      · exact Or.inl ⟨a, c, ⟨rfl, rfl⟩, by omega⟩
      · exact Or.inr (Or.inl ⟨a, c, ⟨rfl, rfl⟩, by omega⟩)
      · exact Or.inr (Or.inr (Or.inl ⟨a, c, ⟨rfl, rfl⟩, by omega⟩))
      · exact Or.inr (Or.inr (Or.inr (Or.inl ⟨a, c, ⟨rfl, rfl⟩, by omega⟩)))
      · exact Or.inr (Or.inr (Or.inr (Or.inr ⟨a, c, ⟨rfl, rfl⟩, by omega⟩)))
  · intro h1 h2
    simp only [minuteNumber, Re.alts, Re.matchList_alt, Bool.or_eq_true,
      matchList_digits 0 9 (by omega) (by omega), matchList_tens 1 0 9 (by omega) (by omega)
      (by omega), matchList_tens 2 0 9 (by omega) (by omega) (by omega),
      matchList_tens 3 0 9 (by omega) (by omega) (by omega),
      matchList_tens 4 0 9 (by omega) (by omega) (by omega),
      matchList_tens 5 0 9 (by omega) (by omega) (by omega)]
    rintro (⟨x, rfl, -⟩ | ⟨x, y, rfl, -⟩ | ⟨x, y, rfl, -⟩ | ⟨x, y, rfl, -⟩ | ⟨x, y, rfl, -⟩ |
      ⟨x, y, rfl, -⟩) <;> simp at h1 h2

end Chronos

namespace Chronos

theorem hourNumber_iff (f : List Char) :
    hourNumber.matchList f = true ↔ numberShape 0 23 f := by
  apply numberShape_cases
  · intro c hf
    subst hf
    simp only [hourNumber, Re.alts, Re.matchList_alt, Bool.or_eq_true,
      matchList_digits 0 9 (by omega) (by omega), matchList_tens 1 0 9 (by omega) (by omega)
      (by omega), matchList_tens 2 0 3 (by omega) (by omega) (by omega), List.cons.injEq,
      and_true, exists_eq_left', reduceCtorEq, false_and, exists_false, or_false, and_false]
    omega
  · intro a c hf
    subst hf
    simp only [hourNumber, Re.alts, Re.matchList_alt, Bool.or_eq_true,
      matchList_digits 0 9 (by omega) (by omega), matchList_tens 1 0 9 (by omega) (by omega)
      (by omega), matchList_tens 2 0 3 (by omega) (by omega) (by omega), List.cons.injEq,
      and_true, reduceCtorEq, false_and, exists_false, false_or, and_false]
    constructor
    · rintro (⟨x, y, ⟨rfl, rfl⟩, h⟩ | ⟨x, y, ⟨rfl, rfl⟩, h⟩) <;> omega
    · intro h
      have : a.toNat = 49 ∨ a.toNat = 50 := by omega
      rcases this with h1 | h1
      · exact Or.inl ⟨a, c, ⟨rfl, rfl⟩, by omega⟩
      · exact Or.inr ⟨a, c, ⟨rfl, rfl⟩, by omega⟩
  · intro h1 h2
    simp only [hourNumber, Re.alts, Re.matchList_alt, Bool.or_eq_true,
      matchList_digits 0 9 (by omega) (by omega), matchList_tens 1 0 9 (by omega) (by omega)
      (by omega), matchList_tens 2 0 3 (by omega) (by omega) (by omega)]
    rintro (⟨x, rfl, -⟩ | ⟨x, y, rfl, -⟩ | ⟨x, y, rfl, -⟩) <;> simp at h1 h2

theorem dayNumber_iff (f : List Char) :
    dayNumber.matchList f = true ↔ numberShape 1 31 f := by
  apply numberShape_cases
  · intro c hf
    subst hf
    simp only [dayNumber, Re.alts, Re.matchList_alt, Bool.or_eq_true,
      matchList_digits 1 9 (by omega) (by omega), matchList_tens 1 0 9 (by omega) (by omega)
      (by omega), matchList_tens 2 0 9 (by omega) (by omega) (by omega),
      matchList_tens 3 0 1 (by omega) (by omega) (by omega), List.cons.injEq,
      and_true, exists_eq_left', reduceCtorEq, false_and, exists_false, or_false, and_false]
    omega
  · intro a c hf
    subst hf
    simp only [dayNumber, Re.alts, Re.matchList_alt, Bool.or_eq_true,
      matchList_digits 1 9 (by omega) (by omega), matchList_tens 1 0 9 (by omega) (by omega)
      (by omega), matchList_tens 2 0 9 (by omega) (by omega) (by omega),
      matchList_tens 3 0 1 (by omega) (by omega) (by omega), List.cons.injEq,
      and_true, reduceCtorEq, false_and, exists_false, false_or, and_false]
    constructor
    · rintro (⟨x, y, ⟨rfl, rfl⟩, h⟩ | ⟨x, y, ⟨rfl, rfl⟩, h⟩ | ⟨x, y, ⟨rfl, rfl⟩, h⟩) <;> omega
    · intro h
      have : a.toNat = 49 ∨ a.toNat = 50 ∨ a.toNat = 51 := by omega
      rcases this with h1 | h1 | h1
      · exact Or.inl ⟨a, c, ⟨rfl, rfl⟩, by omega⟩
      · exact Or.inr (Or.inl ⟨a, c, ⟨rfl, rfl⟩, by omega⟩)
      · exact Or.inr (Or.inr ⟨a, c, ⟨rfl, rfl⟩, by omega⟩)
  · intro h1 h2
    simp only [dayNumber, Re.alts, Re.matchList_alt, Bool.or_eq_true,
      matchList_digits 1 9 (by omega) (by omega), matchList_tens 1 0 9 (by omega) (by omega)
      (by omega), matchList_tens 2 0 9 (by omega) (by omega) (by omega),
      matchList_tens 3 0 1 (by omega) (by omega) (by omega)]
    rintro (⟨x, rfl, -⟩ | ⟨x, y, rfl, -⟩ | ⟨x, y, rfl, -⟩ | ⟨x, y, rfl, -⟩) <;>
      simp at h1 h2

theorem monthNumber_iff (f : List Char) :
    monthNumber.matchList f = true ↔ numberShape 1 12 f := by
  apply numberShape_cases
  · intro c hf
    subst hf
    simp only [monthNumber, Re.alts, Re.matchList_alt, Bool.or_eq_true,
      matchList_digits 1 9 (by omega) (by omega), matchList_tens 1 0 2 (by omega) (by omega)
      (by omega), List.cons.injEq,
      and_true, exists_eq_left', reduceCtorEq, false_and, exists_false, or_false, and_false]
    omega
  · intro a c hf
    subst hf
    simp only [monthNumber, Re.alts, Re.matchList_alt, Bool.or_eq_true,
      matchList_digits 1 9 (by omega) (by omega), matchList_tens 1 0 2 (by omega) (by omega)
      (by omega), List.cons.injEq,
      and_true, reduceCtorEq, false_and, exists_false, false_or, and_false]
    constructor
    · rintro ⟨x, y, ⟨rfl, rfl⟩, h⟩
      omega
    · intro h
      exact ⟨a, c, ⟨rfl, rfl⟩, by omega⟩
  · intro h1 h2
    simp only [monthNumber, Re.alts, Re.matchList_alt, Bool.or_eq_true,
      matchList_digits 1 9 (by omega) (by omega), matchList_tens 1 0 2 (by omega) (by omega)
      (by omega)]
    rintro (⟨x, rfl, -⟩ | ⟨x, y, rfl, -⟩) <;> simp at h1 h2

theorem weekdayNumber_iff (f : List Char) :
    weekdayNumber.matchList f = true ↔ numberShape 0 6 f := by
  apply numberShape_cases
  · intro c hf
    subst hf
    simp only [weekdayNumber, matchList_digits 0 6 (by omega) (by omega), List.cons.injEq,
      and_true, exists_eq_left']
    omega
  · intro a c hf
    subst hf
    simp only [weekdayNumber, matchList_digits 0 6 (by omega) (by omega), List.cons.injEq,
      and_true, reduceCtorEq, false_and, exists_false, and_false, false_iff]
    omega
  · intro h1 h2
    simp only [weekdayNumber, matchList_digits 0 6 (by omega) (by omega)]
    rintro ⟨x, rfl, -⟩
    simp at h1

end Chronos

namespace Chronos

/-- A field of `cronRegex` against a field of the specification. -/
theorem cronField_iff (num : Re) (lo hi : Nat)
    (hnum : ∀ f, num.matchList f = true ↔ specNumber lo hi f = true) (f : List Char) :
    (cronField num).matchList f = true ↔ specField lo hi f = true := by
  have hseq : ∀ f : List Char,
      (Re.seq (Re.chr (Char.ofNat 42)) (Re.seq (Re.chr (Char.ofNat 47)) num)).matchList f = true ↔
        ∃ n, f = starChar :: slashChar :: n ∧ specNumber lo hi n = true := by
    intro f
    rw [Re.matchList_seq]
    constructor
    · rintro ⟨s1, s2, rfl, h1, h2⟩
      rw [Re.matchList_chr] at h1
      rw [Re.matchList_seq] at h2
      obtain ⟨t1, t2, rfl, h3, h4⟩ := h2
      rw [Re.matchList_chr] at h3
      subst h1 h3
      exact ⟨t2, rfl, (hnum t2).mp h4⟩
    · rintro ⟨n, rfl, hn⟩
      refine ⟨[starChar], slashChar :: n, rfl, (Re.matchList_chr _ _).mpr rfl, ?_⟩
      rw [Re.matchList_seq]
      exact ⟨[slashChar], n, rfl, (Re.matchList_chr _ _).mpr rfl, (hnum n).mpr hn⟩
  simp only [cronField, Re.alts, Re.seqs, Re.matchList_alt, Bool.or_eq_true, Re.matchList_chr,
    hnum, hseq, specField, decide_eq_true_eq]
  constructor
  · rintro (h | h | ⟨n, rfl, hn⟩)
    · exact Or.inl (Or.inl h)
    · exact Or.inl (Or.inr h)
    · right
      simp [hn]
  · rintro ((h | h) | h)
    · exact Or.inl h
    · exact Or.inr (Or.inl h)
    · right; right
      rcases f with _ | ⟨a, _ | ⟨b, n⟩⟩
      · simp at h
      · simp at h
      · simp only [Bool.and_eq_true, decide_eq_true_eq] at h
        obtain ⟨⟨rfl, rfl⟩, hn⟩ := h
        exact ⟨n, rfl, hn⟩

/-- The characters of a number of the specification are digits. -/
theorem specNumber_chars (lo hi : Nat) (f : List Char) (h : specNumber lo hi f = true) :
    ∀ c ∈ f, isDigitChar c = true := by
  simp only [specNumber, Bool.and_eq_true, List.all_eq_true] at h
  exact h.1.1.1.2

/-- The characters of a field of the specification are stars, slashes and
digits. -/
theorem specField_chars (lo hi : Nat) (f : List Char) (h : specField lo hi f = true) :
    ∀ c ∈ f, c = starChar ∨ c = slashChar ∨ isDigitChar c = true := by
  simp only [specField, Bool.or_eq_true, decide_eq_true_eq] at h
  rcases h with (h | h) | h
  · subst h
    intro c hc
    simp only [List.mem_singleton] at hc
    exact Or.inl hc
  · intro c hc
    exact Or.inr (Or.inr (specNumber_chars lo hi f h c hc))
  · rcases f with _ | ⟨a, _ | ⟨b, n⟩⟩
    · simp at h
    · simp at h
    · simp only [Bool.and_eq_true, decide_eq_true_eq] at h
      obtain ⟨⟨rfl, rfl⟩, hn⟩ := h
      intro c hc
      simp only [List.mem_cons] at hc
      rcases hc with hc | hc | hc
      · exact Or.inl hc
      · exact Or.inr (Or.inl hc)
      · exact Or.inr (Or.inr (specNumber_chars lo hi n hn c hc))

/-- A field of the specification holds no space. -/
theorem specField_no_space (lo hi : Nat) (f : List Char) (h : specField lo hi f = true) :
    spaceChar ∉ f := by
  intro hmem
  rcases specField_chars lo hi f h spaceChar hmem with h1 | h1 | h1
  · exact absurd h1 (by decide)
  · exact absurd h1 (by decide)
  · exact absurd h1 (by decide)

theorem splitOnSpace_ne_nil (s : List Char) : splitOnSpace s ≠ [] := by
  cases s with
  | nil => simp [splitOnSpace]
  | cons c cs =>
    unfold splitOnSpace
    split
    · simp
    · split <;> simp

/-- Splitting a text without space gives the text itself. -/
theorem splitOnSpace_no_space (f : List Char) (h : spaceChar ∉ f) : splitOnSpace f = [f] := by
  induction f with
  | nil => rfl
  | cons c cs ih =>
    have hc : c ≠ spaceChar := fun e => h (by rw [e]; exact List.mem_cons_self _ _)
    have hcs : spaceChar ∉ cs := fun e => h (List.mem_cons_of_mem _ e)
    unfold splitOnSpace
    simp only [hc, if_false, ih hcs]

/-- Splitting a text that starts with a piece without space and a space. -/
theorem splitOnSpace_append (f rest : List Char) (h : spaceChar ∉ f) :
    splitOnSpace (f ++ spaceChar :: rest) = f :: splitOnSpace rest := by
  induction f with
  | nil =>
    show splitOnSpace (spaceChar :: rest) = [] :: splitOnSpace rest
    conv => lhs; unfold splitOnSpace
    simp
  | cons c cs ih =>
    have hc : c ≠ spaceChar := fun e => h (by rw [e]; exact List.mem_cons_self _ _)
    have hcs : spaceChar ∉ cs := fun e => h (List.mem_cons_of_mem _ e)
    show splitOnSpace (c :: (cs ++ spaceChar :: rest)) = (c :: cs) :: splitOnSpace rest
    conv => lhs; unfold splitOnSpace
    simp only [hc, if_false, ih hcs]

/-- The text behind the first piece of a split. -/
theorem splitOnSpace_cons (s f : List Char) (fs : List (List Char))
    (h : splitOnSpace s = f :: fs) :
    (fs = [] → s = f) ∧
    (∀ g gs, fs = g :: gs → ∃ rest, s = f ++ spaceChar :: rest ∧ splitOnSpace rest = g :: gs) := by
  induction s generalizing f fs with
  | nil =>
    simp only [splitOnSpace, List.cons.injEq] at h
    obtain ⟨rfl, rfl⟩ := h
    exact ⟨fun _ => rfl, fun g gs hg => by cases hg⟩
  | cons c cs ih =>
    unfold splitOnSpace at h
    by_cases hc : c = spaceChar
    · simp only [hc, if_true, List.cons.injEq] at h
      obtain ⟨rfl, rfl⟩ := h
      constructor
      · intro hnil
        exact absurd hnil (splitOnSpace_ne_nil cs)
      · intro g gs hg
        exact ⟨cs, by simp [hc], hg⟩
    · simp only [hc, if_false] at h
      cases hs : splitOnSpace cs with
      | nil => exact absurd hs (splitOnSpace_ne_nil cs)
      | cons f2 fs2 =>
        rw [hs] at h
        simp only [List.cons.injEq] at h
        obtain ⟨rfl, rfl⟩ := h
        obtain ⟨ih1, ih2⟩ := ih f2 fs2 hs
        constructor
        · intro hnil
          rw [ih1 hnil]
        · intro g gs hg
          obtain ⟨rest, h1, h2⟩ := ih2 g gs hg
          exact ⟨rest, by rw [h1]; rfl, h2⟩

end Chronos

namespace Chronos

theorem matchList_seq_space (F R : Re) (s : List Char) :
    (Re.seq F (Re.seq (Re.chr (Char.ofNat 32)) R)).matchList s = true ↔
      ∃ a rest, s = a ++ spaceChar :: rest ∧ F.matchList a = true ∧
        R.matchList rest = true := by
  rw [Re.matchList_seq]
  constructor
  · rintro ⟨a, r, rfl, h1, h2⟩
    rw [Re.matchList_seq] at h2
    obtain ⟨x, rest, rfl, h3, h4⟩ := h2
    rw [Re.matchList_chr] at h3
    subst h3
    exact ⟨a, rest, rfl, h1, h4⟩
  · rintro ⟨a, rest, rfl, h1, h2⟩
    refine ⟨a, spaceChar :: rest, rfl, h1, ?_⟩
    rw [Re.matchList_seq]
    exact ⟨[spaceChar], rest, rfl, (Re.matchList_chr _ _).mpr rfl, h2⟩

theorem minuteField_iff (f : List Char) :
    (cronField minuteNumber).matchList f = true ↔ specField 0 59 f = true :=
  cronField_iff _ 0 59
    (fun f => (minuteNumber_iff f).trans (specNumber_iff 0 59 (by omega) f).symm) f

theorem hourField_iff (f : List Char) :
    (cronField hourNumber).matchList f = true ↔ specField 0 23 f = true :=
  cronField_iff _ 0 23
    (fun f => (hourNumber_iff f).trans (specNumber_iff 0 23 (by omega) f).symm) f

theorem dayField_iff (f : List Char) :
    (cronField dayNumber).matchList f = true ↔ specField 1 31 f = true :=
  cronField_iff _ 1 31
    (fun f => (dayNumber_iff f).trans (specNumber_iff 1 31 (by omega) f).symm) f

theorem monthField_iff (f : List Char) :
    (cronField monthNumber).matchList f = true ↔ specField 1 12 f = true :=
  cronField_iff _ 1 12
    (fun f => (monthNumber_iff f).trans (specNumber_iff 1 12 (by omega) f).symm) f

theorem weekdayField_iff (f : List Char) :
    (cronField weekdayNumber).matchList f = true ↔ specField 0 6 f = true :=
  cronField_iff _ 0 6
    (fun f => (weekdayNumber_iff f).trans (specNumber_iff 0 6 (by omega) f).symm) f

/-- The texts `cronRegex` matches: five fields of the specification with one
space between neighbours. -/
theorem cronRegex_iff (s : List Char) :
    cronRegex.matchList s = true ↔
      ∃ a b c d w, s = a ++ spaceChar :: (b ++ spaceChar :: (c ++ spaceChar ::
          (d ++ spaceChar :: w))) ∧
        specField 0 59 a = true ∧ specField 0 23 b = true ∧ specField 1 31 c = true ∧
        specField 1 12 d = true ∧ specField 0 6 w = true := by
  simp only [cronRegex, Re.seqs, matchList_seq_space, minuteField_iff, hourField_iff,
    dayField_iff, monthField_iff, weekdayField_iff]
  constructor
  · rintro ⟨a, r1, rfl, ha, b, r2, rfl, hb, c, r3, rfl, hc, d, w, rfl, hd, hw⟩
    exact ⟨a, b, c, d, w, rfl, ha, hb, hc, hd, hw⟩
  · rintro ⟨a, b, c, d, w, rfl, ha, hb, hc, hd, hw⟩
    exact ⟨a, _, rfl, ha, b, _, rfl, hb, c, _, rfl, hc, d, w, rfl, hd, hw⟩

/-- The expressions `isValidCronExpression` accepts are those of the
specification. -/
theorem isValidCronExpression_iff (e : String) :
    isValidCronExpression (some e) = true ↔ specCron e = true := by
  simp only [isValidCronExpression, Option.getD_some, Re.test, cronRegex_iff]
  constructor
  · rintro ⟨a, b, c, d, w, hs, ha, hb, hc, hd, hw⟩
    have hsplit : splitOnSpace e.toList = [a, b, c, d, w] := by
      rw [hs, splitOnSpace_append _ _ (specField_no_space _ _ _ ha),
        splitOnSpace_append _ _ (specField_no_space _ _ _ hb),
        splitOnSpace_append _ _ (specField_no_space _ _ _ hc),
        splitOnSpace_append _ _ (specField_no_space _ _ _ hd),
        splitOnSpace_no_space _ (specField_no_space _ _ _ hw)]
    simp only [specCron, hsplit, ha, hb, hc, hd, hw, Bool.and_self]
  · intro h
    unfold specCron at h
    split at h
    · next a b c d w hsplit =>
      simp only [Bool.and_eq_true] at h
      obtain ⟨⟨⟨⟨ha, hb⟩, hc⟩, hd⟩, hw⟩ := h
      obtain ⟨r1, h1, hs1⟩ := (splitOnSpace_cons _ _ _ hsplit).2 _ _ rfl
      obtain ⟨r2, h2, hs2⟩ := (splitOnSpace_cons _ _ _ hs1).2 _ _ rfl
      obtain ⟨r3, h3, hs3⟩ := (splitOnSpace_cons _ _ _ hs2).2 _ _ rfl
      obtain ⟨r4, h4, hs4⟩ := (splitOnSpace_cons _ _ _ hs3).2 _ _ rfl
      have h5 := (splitOnSpace_cons _ _ _ hs4).1 rfl
      refine ⟨a, b, c, d, w, ?_, ha, hb, hc, hd, hw⟩
      rw [h1, h2, h3, h4, h5]
    · cases h

end Chronos

namespace Chronos

/-! ## The invariant of the registry -/

namespace schedulerService

theorem noLeak_empty : Scheduler.empty.noLeak := by
  simp [Scheduler.noLeak, Scheduler.empty, Scheduler.handles]

/-- Removing the entries that fail a test, and stopping their tasks, keeps the
invariant. -/
theorem noLeak_remove (s : Scheduler) (keep : Nat × Nat → Bool) (h : s.noLeak) :
    Scheduler.noLeak
      ⟨s.scheduledTasks.filter keep,
        s.tasks.map (fun t =>
          if t.id ∈ (s.scheduledTasks.filter (fun e => !keep e)).map (fun e => e.2)
          then t.stopped else t)⟩ := by
  obtain ⟨hk, hh, hlt, hids, hst⟩ := h
  have hsub : ∀ x, x ∈ (s.scheduledTasks.filter keep).map (fun e => e.2) → x ∈ s.handles := by
    intro x hx
    obtain ⟨e, he, rfl⟩ := List.mem_map.mp hx
    exact List.mem_map.mpr ⟨e, (List.mem_filter.mp he).1, rfl⟩
  have hsubR : ∀ x, x ∈ (s.scheduledTasks.filter (fun e => !keep e)).map (fun e => e.2) →
      x ∈ s.handles := by
    intro x hx
    obtain ⟨e, he, rfl⟩ := List.mem_map.mp hx
    exact List.mem_map.mpr ⟨e, (List.mem_filter.mp he).1, rfl⟩
  have hdisj : ∀ x, x ∈ (s.scheduledTasks.filter keep).map (fun e => e.2) →
      x ∉ (s.scheduledTasks.filter (fun e => !keep e)).map (fun e => e.2) := by
    intro x hx hx2
    obtain ⟨e1, he1, h1⟩ := List.mem_map.mp hx
    obtain ⟨e2, he2, h2⟩ := List.mem_map.mp hx2
    obtain ⟨hm1, hk1⟩ := List.mem_filter.mp he1
    obtain ⟨hm2, hk2⟩ := List.mem_filter.mp he2
    have := List.inj_on_of_nodup_map hh hm1 hm2 (h1.trans h2.symm)
    rw [this] at hk1
    simp [hk1] at hk2
  have hcover : ∀ x, x ∈ s.handles →
      x ∈ (s.scheduledTasks.filter keep).map (fun e => e.2) ∨
      x ∈ (s.scheduledTasks.filter (fun e => !keep e)).map (fun e => e.2) := by
    intro x hx
    obtain ⟨e, he, rfl⟩ := List.mem_map.mp hx
    cases hke : keep e
    · exact Or.inr (List.mem_map.mpr ⟨e, List.mem_filter.mpr ⟨he, by simp [hke]⟩, rfl⟩)
    · exact Or.inl (List.mem_map.mpr ⟨e, List.mem_filter.mpr ⟨he, hke⟩, rfl⟩)
  refine ⟨?_, ?_, ?_, ?_, ?_⟩
  · exact List.Nodup.sublist (List.Sublist.map _ (List.filter_sublist _)) hk
  · exact List.Nodup.sublist (List.Sublist.map _ (List.filter_sublist _)) hh
  · intro x hx
    simp only [List.length_map]
    exact hlt x (hsub x hx)
  · simp only [List.map_map, List.length_map]
    rw [← hids]
    apply List.map_congr_left
    intro t _
    simp only [Function.comp]
    split <;> rfl
  · intro t2 ht2
    obtain ⟨t, ht, rfl⟩ := List.mem_map.mp ht2
    obtain ⟨h1, h2⟩ := hst t ht
    by_cases hR : t.id ∈ (s.scheduledTasks.filter (fun e => !keep e)).map (fun e => e.2)
    · simp only [hR, if_true]
      have hin := h1 (hsubR _ hR)
      constructor
      · intro hx
        exact absurd hR (hdisj _ hx)
      · intro _
        exact ⟨rfl, hin.2.1, by show t.stops + 1 = 1; rw [hin.2.2]⟩
    · simp only [hR, if_false]
      constructor
      · intro hx
        exact h1 (hsub _ hx)
      · intro hx
        apply h2
        intro hH
        rcases hcover _ hH with h | h
        · exact hx h
        · exact hR h

/-- "Remove existing task if any" keeps the invariant. -/
theorem noLeak_removeExisting (key : Nat) (s : Scheduler) (h : s.noLeak) :
    (removeExisting key s).noLeak := by
  have hk := h.1
  have hform : removeExisting key s =
      ⟨s.scheduledTasks.filter (fun e => !decide (e.1 = key)),
        s.tasks.map (fun t =>
          if t.id ∈ (s.scheduledTasks.filter
              (fun e => !(fun e : Nat × Nat => !decide (e.1 = key)) e)).map (fun e => e.2)
          then t.stopped else t)⟩ := by
    have hmem : ∀ x, x ∈ (s.scheduledTasks.filter
          (fun e => !(fun e : Nat × Nat => !decide (e.1 = key)) e)).map (fun e => e.2) ↔
        (key, x) ∈ s.scheduledTasks := by
      intro x
      simp only [List.mem_map, List.mem_filter, Bool.not_not, decide_eq_true_eq]
      constructor
      · rintro ⟨⟨a, b⟩, ⟨he, rfl⟩, rfl⟩
        exact he
      · intro hx
        exact ⟨(key, x), ⟨hx, rfl⟩, rfl⟩
    rw [show removeExisting key s =
      ⟨(removeExisting key s).scheduledTasks, (removeExisting key s).tasks⟩ from rfl,
      removeExisting_scheduledTasks, removeExisting_tasks]
    congr 1
    cases hg : s.get key with
    | none =>
      simp only
      conv => lhs; rw [← List.map_id s.tasks]
      apply List.map_congr_left
      intro t _
      have : ¬ (key, t.id) ∈ s.scheduledTasks := by
        intro hx
        simp only [Scheduler.get, Option.map_eq_none'] at hg
        have := List.find?_eq_none.mp hg _ hx
        simp at this
      simp [hmem, this]
    | some old =>
      simp only
      apply List.map_congr_left
      intro t _
      have hiff : (key, t.id) ∈ s.scheduledTasks ↔ t.id = old := by
        constructor
        · intro hx
          have := List.inj_on_of_nodup_map hk hx (get_some_mem hg) rfl
          exact (Prod.mk.inj this).2
        · intro hx
          rw [hx]; exact get_some_mem hg
      simp only [hmem, hiff]
  rw [hform]
  exact noLeak_remove s _ h

/-- Creating, starting and registering a task for a key the map does not hold
keeps the invariant. -/
theorem noLeak_add (s : Scheduler) (key : Nat) (job : Doc) (h : s.noLeak)
    (hkey : s.has key = false) :
    Scheduler.noLeak
      ⟨s.scheduledTasks ++ [(key, s.tasks.length)],
        (s.tasks ++ [(⟨s.tasks.length, job.cur.cronExpression, job, false, 0, 0⟩ : CronTask)]).map
          (fun t => if t.id = s.tasks.length
            then { t with running := true, starts := t.starts + 1 } else t)⟩ := by
  obtain ⟨hk, hh, hlt, hids, hst⟩ := h
  have hidlt : ∀ t ∈ s.tasks, t.id < s.tasks.length := by
    intro t ht
    have : t.id ∈ s.tasks.map (fun t => t.id) := List.mem_map.mpr ⟨t, ht, rfl⟩
    rw [hids] at this
    exact List.mem_range.mp this
  have hH : Scheduler.handles
      ⟨s.scheduledTasks ++ [(key, s.tasks.length)],
        (s.tasks ++ [(⟨s.tasks.length, job.cur.cronExpression, job, false, 0, 0⟩ : CronTask)]).map
          (fun t => if t.id = s.tasks.length
            then { t with running := true, starts := t.starts + 1 } else t)⟩ =
      s.handles ++ [s.tasks.length] := by
    simp [Scheduler.handles]
  refine ⟨?_, ?_, ?_, ?_, ?_⟩
  · simp only [List.map_append, List.map_cons, List.map_nil]
    rw [List.nodup_append]
    refine ⟨hk, by simp, ?_⟩
    intro x hx hx2
    simp only [List.mem_singleton] at hx2
    subst hx2
    obtain ⟨e, he, hex⟩ := List.mem_map.mp hx
    exact (has_eq_false_iff s _).mp hkey e he hex
  · rw [hH, List.nodup_append]
    refine ⟨hh, by simp, ?_⟩
    intro x hx hx2
    simp only [List.mem_singleton] at hx2
    subst hx2
    exact absurd (hlt _ hx) (Nat.lt_irrefl _)
  · rw [hH]
    intro x hx
    simp only [List.length_map, List.length_append, List.length_singleton]
    rcases List.mem_append.mp hx with h | h
    · have := hlt x h
      omega
    · simp only [List.mem_singleton] at h
      omega
  · simp only [List.map_map, List.length_map, List.length_append, List.length_singleton,
      List.range_succ, List.map_append, List.map_cons, List.map_nil]
    congr 1
    · rw [← hids]
      apply List.map_congr_left
      intro t _
      simp only [Function.comp]
      split <;> rfl
  · rw [hH]
    intro t2 ht2
    obtain ⟨t, ht, rfl⟩ := List.mem_map.mp ht2
    rcases List.mem_append.mp ht with ht | ht
    · have hlt2 := hidlt t ht
      have hne : t.id ≠ s.tasks.length := by omega
      obtain ⟨h1, h2⟩ := hst t ht
      simp only [hne, if_false, List.mem_append, List.mem_singleton, or_false]
      exact ⟨h1, h2⟩
    · simp only [List.mem_singleton] at ht
      subst ht
      simp

/-- The function `scheduleRecurringJob` keeps the invariant, whether it fails
or not. -/
theorem noLeak_schedule (nodeCron : String → Bool) (job : Doc) (s : Scheduler)
    (h : s.noLeak) : (scheduleRecurringJob nodeCron job s).2.noLeak := by
  cases hv : isValidCronExpression job.cur.cronExpression
  · rw [scheduleRecurringJob_invalid nodeCron job s hv]
    exact h
  · cases hn : nodeCron (job.cur.cronExpression.getD "undefined")
    · rw [scheduleRecurringJob_thrown nodeCron job s hv hn]
      exact noLeak_removeExisting job.cur._id s h
    · rw [scheduleRecurringJob_valid nodeCron job s hv hn]
      have hR := noLeak_removeExisting job.cur._id s h
      have hadd := noLeak_add (removeExisting job.cur._id s) job.cur._id job hR
        (removeExisting_has _ _)
      rw [removeExisting_tasks_length, removeExisting_scheduledTasks] at hadd
      exact hadd

/-- The function `cleanupStaleTasks` keeps the invariant. -/
theorem noLeak_cleanup (jobs : List Job) (s : Scheduler) (h : s.noLeak) :
    (cleanupStaleTasks jobs s).noLeak := by
  rw [cleanupStaleTasks_spec jobs s h.1 h.2.1]
  exact noLeak_remove s (fun e => isActiveRecurring jobs e.1) h

/-- Every call keeps the invariant. -/
theorem noLeak_run (nodeCron : String → Bool) (c : RegistryCall) (s : Scheduler)
    (h : s.noLeak) : (c.run nodeCron s).noLeak := by
  cases c with
  | schedule job => exact noLeak_schedule nodeCron job s h
  | unschedule jobId => exact noLeak_removeExisting jobId s h
  | reschedule job =>
    exact noLeak_schedule nodeCron job _ (noLeak_removeExisting job.cur._id s h)
  | cleanup jobs => exact noLeak_cleanup jobs s h

/-- Every sequence of calls keeps the invariant. -/
theorem noLeak_runCalls (nodeCron : String → Bool) (calls : List RegistryCall) (s : Scheduler)
    (h : s.noLeak) : (runCalls nodeCron calls s).noLeak := by
  induction calls generalizing s with
  | nil => exact h
  | cons c cs ih => exact ih (c.run nodeCron s) (noLeak_run nodeCron c s h)

end schedulerService

end Chronos
namespace Chronos

/-! ## Facts about the arithmetic of doubles

Below `2 ^ 53` every whole number is a double, the floored quotient of two
doubles is the floored quotient of the whole numbers, and a whole number prints
as its decimal text. -/

theorem binaryLogFuel_spec (fuel n : Nat) (h1 : 1 ≤ n) (h2 : n ≤ fuel) :
    2 ^ binaryLogFuel fuel n ≤ n ∧ n < 2 ^ (binaryLogFuel fuel n + 1) := by
  induction fuel generalizing n with
  | zero => omega
  | succ fuel ih =>
    unfold binaryLogFuel
    by_cases hn : n < 2
    · have : n = 1 := by omega
      subst this
      simp
    · simp only [hn, if_false]
      obtain ⟨h3, h4⟩ := ih (n / 2) (by omega) (by omega)
      rw [pow_succ, pow_succ]
      rw [pow_succ] at h4
      constructor <;> omega

theorem binaryLog_spec (n : Nat) (h1 : 1 ≤ n) :
    2 ^ binaryLog n ≤ n ∧ n < 2 ^ (binaryLog n + 1) :=
  binaryLogFuel_spec n n h1 (le_refl n)

theorem roundHalfEven_cases (m r u : Nat) :
    roundHalfEven m r u = m ∨ (roundHalfEven m r u = m + 1 ∧ u ≤ 2 * r) := by
  unfold roundHalfEven
  split_ifs <;> first | (left; rfl) | (right; exact ⟨rfl, by omega⟩)

theorem floorQuotient_exact (a b : Nat) (ha : a < 2 ^ 53) (hb : 0 < b) :
    floorQuotient a b = a / b := by
  unfold floorQuotient
  by_cases hab : a < b
  · simp [hab, Nat.div_eq_of_lt hab]
  · simp only [hab, if_false]
    have hq1 : 1 ≤ a / b := Nat.div_pos (not_lt.mp hab) hb
    obtain ⟨hlo, hhi⟩ := binaryLog_spec (a / b) hq1
    generalize binaryLog (a / b) = e at hlo hhi
    have hqlt : a / b < 2 ^ 53 := lt_of_le_of_lt (Nat.div_le_self a b) ha
    have he : e ≤ 52 := by
      by_contra h
      have : 2 ^ 53 ≤ 2 ^ e := Nat.pow_le_pow_right (by norm_num) (by omega)
      omega
    have hdm := Nat.div_add_mod a b
    have hr0 : a % b < b := Nat.mod_lt a hb
    by_cases h52 : 52 ≤ e
    · have he52 : e = 52 := by omega
      subst he52
      have hb1 : b = 1 := by
        by_contra hne
        have hb2 : 2 ≤ b := by omega
        have h1 : 2 ^ 52 * b ≤ a / b * b := Nat.mul_le_mul_right b hlo
        have h2 : a / b * b ≤ a := Nat.div_mul_le_self a b
        have h3 : 2 ^ 52 * 2 ≤ 2 ^ 52 * b := Nat.mul_le_mul_left _ hb2
        have h4 : (2 : Nat) ^ 53 = 2 ^ 52 * 2 := by norm_num
        omega
      subst hb1
      simp [roundHalfEven, Nat.mod_one]
    · simp only [h52, if_false]
      have hK : (2 : Nat) ^ (52 - e) * 2 ^ e = 2 ^ 52 := by
        rw [← pow_add]
        congr 1
        omega
      generalize (2 : Nat) ^ (52 - e) = K at hK ⊢
      have hKpos : 0 < K := by
        rcases Nat.eq_zero_or_pos K with h | h
        · rw [h] at hK; simp at hK
        · exact h
      -- a * K = b * (q * K) + r0 * K
      have haK : a * K = b * (a / b * K) + a % b * K := by
        conv => lhs; rw [← hdm]
        ring
      have hM : a * K / b = a / b * K + a % b * K / b := by
        rw [haK, Nat.mul_add_div hb]
      have hR : a * K % b = a % b * K % b := by
        rw [haK, Nat.mul_add_mod]
      have ht : a % b * K / b < K := by
        rw [Nat.div_lt_iff_lt_mul hb]
        exact Nat.mul_lt_mul_of_lt_of_le' hr0 (le_refl K) hKpos |>.trans_le (by rw [Nat.mul_comm])
      have hX := Nat.div_add_mod (a % b * K) b
      rw [hM, hR]
      generalize hq : a / b = q at *
      generalize ht0 : a % b * K / b = t at *
      generalize hR0 : a % b * K % b = R at *
      rcases roundHalfEven_cases (q * K + t) R b with h | ⟨h, hle⟩
      · rw [h]
        rw [Nat.add_comm, Nat.add_mul_div_right _ _ hKpos, Nat.div_eq_of_lt ht]
        simp
      · rw [h]
        have htK : t + 1 < K := by
          by_contra hcon
          have htk : t + 1 = K := by omega
          -- derive 2K ≤ b
          have h1 : b * t + b = b * K := by rw [← htk]; ring
          have h2 : (a % b + 1) * K ≤ b * K := Nat.mul_le_mul_right K hr0
          have h3 : (a % b + 1) * K = a % b * K + K := by ring
          have h2K : 2 * K ≤ b := by omega
          have h4 : 2 * K * 2 ^ e ≤ b * q := Nat.mul_le_mul h2K hlo
          have h5 : 2 * K * 2 ^ e = 2 * (K * 2 ^ e) := by ring
          have h6 : b * q ≤ a := by rw [← hq]; exact Nat.mul_div_le a b
          have h7 : (2 : Nat) ^ 53 = 2 * 2 ^ 52 := by norm_num
          omega
        have : q * K + t + 1 = t + 1 + q * K := by ring
        rw [this, Nat.add_mul_div_right _ _ hKpos, Nat.div_eq_of_lt htK]
        simp

theorem toDouble_exact (y : Nat) (h : y < 2 ^ 53) : toDouble y = y := by
  unfold toDouble
  rw [floorQuotient_exact y 1 h (by norm_num)]
  simp


theorem roundHalfEven_ge (m r u : Nat) : m ≤ roundHalfEven m r u := by
  rcases roundHalfEven_cases m r u with h | ⟨h, -⟩ <;> omega

theorem toDouble_large (y : Nat) (h : 2 ^ 53 ≤ y) : 2 ^ 53 ≤ toDouble y := by
  unfold toDouble floorQuotient
  have hy1 : ¬ y < 1 := by
    have : 0 < 2 ^ 53 := by norm_num
    omega
  simp only [hy1, if_false, Nat.div_one, one_mul]
  obtain ⟨hlo, hhi⟩ := binaryLog_spec y (by omega)
  generalize binaryLog y = e at hlo hhi
  have he : 53 ≤ e := by
    by_contra hcon
    have : 2 ^ (e + 1) ≤ 2 ^ 53 := Nat.pow_le_pow_right (by norm_num) (by omega)
    omega
  have h52 : 52 ≤ e := by omega
  simp only [h52, if_true]
  have hsplit : (2 : Nat) ^ e = 2 ^ 52 * 2 ^ (e - 52) := by
    rw [← pow_add]
    congr 1
    omega
  have hKpos : 0 < (2 : Nat) ^ (e - 52) := pow_pos (by norm_num) _
  have hK2 : 2 ≤ (2 : Nat) ^ (e - 52) := by
    calc 2 = 2 ^ 1 := by norm_num
      _ ≤ 2 ^ (e - 52) := Nat.pow_le_pow_right (by norm_num) (by omega)
  generalize (2 : Nat) ^ (e - 52) = K at *
  have hm : 2 ^ 52 ≤ y / K := by
    rw [Nat.le_div_iff_mul_le hKpos]
    omega
  have hge := roundHalfEven_ge (y / K) (y % K) K
  have h1 : 2 ^ 52 * K ≤ roundHalfEven (y / K) (y % K) K * K :=
    Nat.mul_le_mul_right K (le_trans hm hge)
  have h2 : 2 ^ 52 * 2 ≤ 2 ^ 52 * K := Nat.mul_le_mul_left _ hK2
  have h3 : (2 : Nat) ^ 53 = 2 ^ 52 * 2 := by norm_num
  omega

theorem shortestDecimal_exact (x : Nat) (h : x < 2 ^ 53) : shortestDecimal x = x := by
  unfold shortestDecimal
  cases hf : ((List.range (decimalDigits x)).reverse.flatMap (neighbours x)).find?
      (fun y => decide (toDouble y = x)) with
  | none => rfl
  | some y =>
    have hy : toDouble y = x := by simpa using List.find?_some hf
    simp only [Option.getD_some]
    by_cases hlt : y < 2 ^ 53
    · rw [toDouble_exact y hlt] at hy
      exact hy
    · have := toDouble_large y (not_lt.mp hlt)
      omega

theorem numberToString_exact (x : Nat) (h : x < 2 ^ 53) : numberToString x = toString x := by
  unfold numberToString
  rw [shortestDecimal_exact x h]
  have : x < 10 ^ 21 := lt_trans h (by norm_num)
  show (if x < 10 ^ 21 then _ else _) = _
  rw [if_pos this]

end Chronos

namespace Chronos

open jobService jobController

/-! ## Claims about the status state machine -/

/-- C1, as stated, fails: the start write of `executeJob` on a job stored as
COMPLETED moves its status to ACTIVE, which is neither "no change" nor one of
the listed edges. -/
theorem C1_counterexample :
    (findById (worldOf { sampleJob with status := JobStatus.COMPLETED }).jobs 1).map
        (fun j => j.status) = some JobStatus.COMPLETED ∧
    (findById ((CoreWrite.executeStart sampleClock sampleData).run
        (worldOf { sampleJob with status := JobStatus.COMPLETED })).jobs 1).map
        (fun j => j.status) = some JobStatus.ACTIVE ∧
    ¬ (JobStatus.ACTIVE = JobStatus.COMPLETED ∨
        specEdge (CoreWrite.executeStart sampleClock sampleData)
          { sampleJob with status := JobStatus.COMPLETED } JobStatus.ACTIVE) := by
  decide

/-- C1, amended: for every stored job record (ids being unique) and every core
write, the status after the write is the status before it or follows the edge
of that write: any status to ACTIVE for the start write of `executeJob`, any
stored status to COMPLETED or FAILED for its outcome writes, any status but
COMPLETED and CANCELLED to CANCELLED for `cancelJob`, FAILED to PENDING with
`currentRetries < maxRetries` for `retryJob`, and no change for `updateJob`. -/
theorem C1_status_edges (op : CoreWrite) (w : World) (id : Nat) (j : Job)
    (hu : uniqueIds w.jobs) (hfind : findById w.jobs id = some j) :
    ∃ j2, findById (op.run w).jobs id = some j2 ∧
      (j2.status = j.status ∨ codeEdge op j j2.status) := by
  have hsame : ∀ j0 : Job, j0 ∈ w.jobs → j._id = j0._id → j = j0 := by
    intro j0 hmem hid
    have h1 := findById_of_mem hu hmem
    rw [← hid, (findById_some hfind).1, hfind] at h1
    exact Option.some.inj h1
  cases op with
  | executeStart c jd =>
    simp only [CoreWrite.run, codeEdge]
    cases hf : findById w.jobs jd.id with
    | none => exact ⟨j, by simp [executeJobStart, hf, hfind], Or.inl rfl⟩
    | some j0 =>
      cases hp : payloadPresent j0.payload with
      | false =>
        rw [executeJobStart_rejected c jd w j0 hf hp]
        exact ⟨j, hfind, Or.inl rfl⟩
      | true =>
        rw [executeJobStart_found c jd w j0 hf hp]
        obtain ⟨r2, h1, h2⟩ := status_after_save
          ⟨j0, { j0 with status := JobStatus.ACTIVE, startedAt := some c.activeAt }⟩ hfind
        refine ⟨r2, h1, ?_⟩
        rcases h2 with h | ⟨h, -, -⟩
        · exact Or.inl h
        · exact Or.inr h
  | executeSuccess c d r =>
    simp only [CoreWrite.run, codeEdge]
    rw [executeJobSuccess_jobs]
    rcases updateStatus_jobs c.doneAt JobStatus.COMPLETED
      ⟨some r, none, some ((c.endTime : Int) - (c.startTime : Int))⟩ d w with h | h
    · rw [h]; exact ⟨j, hfind, Or.inl rfl⟩
    · rw [h]
      obtain ⟨r2, h1, h2⟩ := status_after_save
        ⟨d.saved, d.cur.updateStatusFields c.doneAt JobStatus.COMPLETED
          ⟨some r, none, some ((c.endTime : Int) - (c.startTime : Int))⟩⟩ hfind
      refine ⟨r2, h1, ?_⟩
      rcases h2 with h | ⟨h, -, -⟩
      · exact Or.inl h
      · right; rw [h, updateStatusFields_completed]
  | executeFailure c d e =>
    simp only [CoreWrite.run, codeEdge]
    rw [executeJobFailure_jobs]
    rcases updateStatus_jobs c.doneAt JobStatus.FAILED
      ⟨none, some e.message, some ((c.endTime : Int) - (c.startTime : Int))⟩ d w with h | h
    · rw [h]; exact ⟨j, hfind, Or.inl rfl⟩
    · rw [h]
      obtain ⟨r2, h1, h2⟩ := status_after_save
        ⟨d.saved, d.cur.updateStatusFields c.doneAt JobStatus.FAILED
          ⟨none, some e.message, some ((c.endTime : Int) - (c.startTime : Int))⟩⟩ hfind
      refine ⟨r2, h1, ?_⟩
      rcases h2 with h | ⟨h, -, -⟩
      · exact Or.inl h
      · right; rw [h, updateStatusFields_failed]
  | cancel cid user =>
    simp only [CoreWrite.run, codeEdge]
    rcases cancelJob_jobs cid user w with h | ⟨j0, hf0, hs1, hs2, h⟩
    · rw [h]; exact ⟨j, hfind, Or.inl rfl⟩
    · rw [h]
      obtain ⟨r2, h1, h2⟩ := status_after_save
        ⟨j0, { j0 with status := JobStatus.CANCELLED }⟩ hfind
      refine ⟨r2, h1, ?_⟩
      rcases h2 with h | ⟨h, hid, -⟩
      · exact Or.inl h
      · have := hsame j0 (findOne_some hf0).2.2 hid
        subst this
        exact Or.inr ⟨h, hs1, hs2⟩
  | retry rid user =>
    simp only [CoreWrite.run, codeEdge]
    rcases retryJob_jobs rid user w with h | ⟨j0, j1, hf0, hs, hlt, hp, hid1, h⟩
    · rw [h]; exact ⟨j, hfind, Or.inl rfl⟩
    · obtain ⟨r2, h1, h2⟩ := status_after_save ⟨j0, j1⟩ hfind
      have hedge : r2.status = j.status ∨
          (j.status = JobStatus.FAILED ∧ r2.status = JobStatus.PENDING ∧
            j.currentRetries < j.maxRetries) := by
        rcases h2 with h | ⟨h, hid, -⟩
        · exact Or.inl h
        · have := hsame j0 (findOne_some hf0).2.2 (hid.trans hid1)
          subst this
          exact Or.inr ⟨hs, by rw [h]; exact hp, hlt⟩
      rcases h with h | ⟨j2, hp2, h⟩
      · rw [h]; exact ⟨r2, h1, hedge⟩
      · rw [h]
        obtain ⟨r3, h4, h5⟩ := status_after_save ⟨j1, j2⟩ h1
        refine ⟨r3, h4, ?_⟩
        rcases h5 with h | ⟨-, -, hne⟩
        · rw [h]; exact hedge
        · exact absurd (hp2.trans hp.symm) hne
  | update now uid user body =>
    simp only [CoreWrite.run, codeEdge]
    rcases updateJob_jobs now uid user body w with h | ⟨j0, j1, hs, h⟩
    · rw [h]; exact ⟨j, hfind, Or.inl rfl⟩
    · rw [h]
      obtain ⟨r2, h1, h2⟩ := status_after_save ⟨j0, j1⟩ hfind
      refine ⟨r2, h1, ?_⟩
      rcases h2 with h | ⟨-, -, hne⟩
      · exact Or.inl h
      · exact absurd hs hne

/-- C1, amended, at a concrete input: `retryJob` on the FAILED sample job. -/
theorem C1_status_edges_witness :
    ∃ j2, findById ((CoreWrite.retry 1 7).run (worldOf failedScheduledJob)).jobs 1 = some j2 ∧
      (j2.status = failedScheduledJob.status ∨
        codeEdge (CoreWrite.retry 1 7) failedScheduledJob j2.status) :=
  C1_status_edges (CoreWrite.retry 1 7) (worldOf failedScheduledJob) 1 failedScheduledJob
    (by decide) rfl

/-- C2, as stated, fails: the sample job is started, then cancelled by its
owner (stored status CANCELLED), then the handler returns and the outcome is
written: the stored status is COMPLETED. -/
theorem C2_counterexample :
    cancelMidFlight sampleEnv sampleClock sampleData 7 (worldOf sampleJob) =
      some (JobStatus.CANCELLED, JobStatus.COMPLETED) := by
  decide

/-- C2, amended: the outcome write does not look at the stored status.  For a
document loaded by the start of `executeJob` and any later world in which the
record is stored as CANCELLED, the stored status is COMPLETED after the success
write and FAILED after the failure write. -/
theorem C2_outcome_overwrites_cancelled (c : ExecClock) (jd : JobData) (w w1 w2 : World)
    (d : Doc) (r : Job)
    (hstart : executeJobStart c jd w = (Except.ok d, w1))
    (hfind : findById w2.jobs jd.id = some r)
    (hcancelled : r.status = JobStatus.CANCELLED) :
    (∀ result, (findById (executeJobSuccess c d result w2).2.jobs jd.id).map
        (fun j => j.status) = some JobStatus.COMPLETED) ∧
    (∀ e, (findById (executeJobFailure c (some d) e w2).jobs jd.id).map
        (fun j => j.status) = some JobStatus.FAILED) := by
  have _ := hcancelled
  have hd : d.cur._id = jd.id ∧ d.saved.status = JobStatus.ACTIVE ∧
      saveValid d = true := by
    cases hf : findById w.jobs jd.id with
    | none => simp [executeJobStart, hf] at hstart
    | some j0 =>
      cases hp : payloadPresent j0.payload with
      | false =>
        rw [executeJobStart_rejected c jd w j0 hf hp] at hstart
        cases (Prod.mk.inj hstart).1
      | true =>
        rw [executeJobStart_found c jd w j0 hf hp] at hstart
        have := (Prod.mk.inj hstart).1
        have hd := Except.ok.inj this
        rw [← hd]
        exact ⟨(findById_some hf).1, rfl, by rw [saveValid_loaded]; exact hp⟩
  obtain ⟨hid, hsaved, hv⟩ := hd
  have hrid := (findById_some hfind).1
  constructor
  · intro result
    rw [executeJobSuccess_jobs, updateStatus_ok _ _ _ d w2 hv]
    simp only [findById_writeModified, hfind,
      updateStatusFields_completed, Option.map_some', hrid, hid, if_true]
    simp [mergeModified, pick, hsaved]
  · intro e
    rw [executeJobFailure_jobs, updateStatus_ok _ _ _ d w2 hv]
    simp only [findById_writeModified, hfind,
      updateStatusFields_failed, Option.map_some', hrid, hid, if_true]
    simp [mergeModified, pick, hsaved]

/-- C2, amended, at a concrete input: the sample job, started and then
cancelled by its owner before the outcome is written. -/
theorem C2_outcome_overwrites_cancelled_witness :
    (∀ result, (findById (executeJobSuccess sampleClock
        ⟨{ sampleJob with status := JobStatus.ACTIVE, startedAt := some 5 },
         { sampleJob with status := JobStatus.ACTIVE, startedAt := some 5 }⟩ result
        (cancelJob 1 7 (executeJobStart sampleClock sampleData (worldOf sampleJob)).2).2).2.jobs
          sampleData.id).map (fun j => j.status) = some JobStatus.COMPLETED) ∧
    (∀ e, (findById (executeJobFailure sampleClock
        (some ⟨{ sampleJob with status := JobStatus.ACTIVE, startedAt := some 5 },
         { sampleJob with status := JobStatus.ACTIVE, startedAt := some 5 }⟩) e
        (cancelJob 1 7 (executeJobStart sampleClock sampleData (worldOf sampleJob)).2).2).jobs
          sampleData.id).map (fun j => j.status) = some JobStatus.FAILED) :=
  C2_outcome_overwrites_cancelled sampleClock sampleData (worldOf sampleJob)
    (executeJobStart sampleClock sampleData (worldOf sampleJob)).2
    (cancelJob 1 7 (executeJobStart sampleClock sampleData (worldOf sampleJob)).2).2
    ⟨{ sampleJob with status := JobStatus.ACTIVE, startedAt := some 5 },
     { sampleJob with status := JobStatus.ACTIVE, startedAt := some 5 }⟩
    { sampleJob with status := JobStatus.CANCELLED, startedAt := some 5 }
    rfl rfl rfl

end Chronos

namespace Chronos

open jobService

/-! ## Claims about the executor -/

/-- C3, as stated, fails: a job stored as COMPLETED is run again.  The handler
is invoked (its result is returned), the record changes (`startedAt` moves from
absent to 5) and two more log entries are appended. -/
theorem C3_counterexample :
    (executeJob sampleEnv sampleClock sampleData
        (worldOf { sampleJob with status := JobStatus.COMPLETED })).1 =
      Except.ok (executeEmailJob sampleEnv emailPayload) ∧
    (findById (executeJob sampleEnv sampleClock sampleData
        (worldOf { sampleJob with status := JobStatus.COMPLETED })).2.jobs 1).map
        (fun j => j.startedAt) = some (some 5) ∧
    (findById (worldOf { sampleJob with status := JobStatus.COMPLETED }).jobs 1).map
        (fun j => j.startedAt) = some none ∧
    (executeJob sampleEnv sampleClock sampleData
        (worldOf { sampleJob with status := JobStatus.COMPLETED })).2.logs.length =
      (worldOf { sampleJob with status := JobStatus.COMPLETED }).logs.length + 2 :=
  ⟨rfl, by decide, by decide, by decide⟩

/-- C3, amended: `executeJob` has no redelivery guard.  For a job stored as
ACTIVE, COMPLETED or CANCELLED whose handler returns `r`, the run returns `r`,
the stored record ends COMPLETED with `startedAt` rewritten to the instant of
this run, and a second pair of log entries (started, completed) is appended. -/
theorem C3_executeJob_redelivery_runs_again (env : HandlerEnv) (c : ExecClock) (jd : JobData)
    (w : World) (j : Job) (r : Val)
    (hfind : findById w.jobs jd.id = some j)
    (hstatus : j.status = JobStatus.ACTIVE ∨ j.status = JobStatus.COMPLETED ∨
      j.status = JobStatus.CANCELLED)
    (hr : runHandler env j.payload = Except.ok r) :
    (executeJob env c jd w).1 = Except.ok r ∧
    (∃ j2, findById (executeJob env c jd w).2.jobs jd.id = some j2 ∧
      j2.status = JobStatus.COMPLETED ∧ j2.startedAt = some c.activeAt ∧
      j2.completedAt = some c.doneAt ∧ j2.result = some r) ∧
    (∃ e1 e2, (executeJob env c jd w).2.logs = w.logs ++ [e1, e2] ∧
      e1.jobId = jd.id ∧ e1.level = "info" ∧ e1.message = "Job execution started" ∧
      e2.jobId = jd.id ∧ e2.level = "info" ∧ e2.message = "Job completed successfully") := by
  have hid := (findById_some hfind).1
  have _ := hstatus
  unfold executeJob
  rw [executeJobWith_ok (runHandler env) c jd w j r hfind (runHandler_payloadPresent hr) hr]
  refine ⟨rfl, ⟨_, findById_writeModified_twice hfind rfl rfl, rfl, rfl, rfl, rfl⟩, ?_⟩
  exact ⟨_, _, rfl, hid, rfl, rfl, hid, rfl, rfl⟩

/-- C3, amended, at a concrete input: the sample job stored as COMPLETED. -/
theorem C3_executeJob_redelivery_runs_again_witness :
    (executeJob sampleEnv sampleClock sampleData
        (worldOf { sampleJob with status := JobStatus.COMPLETED })).1 =
      Except.ok (executeEmailJob sampleEnv emailPayload) ∧
    (∃ j2, findById (executeJob sampleEnv sampleClock sampleData
        (worldOf { sampleJob with status := JobStatus.COMPLETED })).2.jobs sampleData.id =
          some j2 ∧
      j2.status = JobStatus.COMPLETED ∧ j2.startedAt = some sampleClock.activeAt ∧
      j2.completedAt = some sampleClock.doneAt ∧
      j2.result = some (executeEmailJob sampleEnv emailPayload)) ∧
    (∃ e1 e2, (executeJob sampleEnv sampleClock sampleData
        (worldOf { sampleJob with status := JobStatus.COMPLETED })).2.logs =
          (worldOf { sampleJob with status := JobStatus.COMPLETED }).logs ++ [e1, e2] ∧
      e1.jobId = sampleData.id ∧ e1.level = "info" ∧ e1.message = "Job execution started" ∧
      e2.jobId = sampleData.id ∧ e2.level = "info" ∧
      e2.message = "Job completed successfully") :=
  C3_executeJob_redelivery_runs_again sampleEnv sampleClock sampleData
    (worldOf { sampleJob with status := JobStatus.COMPLETED })
    { sampleJob with status := JobStatus.COMPLETED } (executeEmailJob sampleEnv emailPayload)
    rfl (Or.inr (Or.inl rfl)) rfl

/-- C10: for an existing PENDING job whose handler returns `r`, `executeJob`
returns `r`; the stored record ends COMPLETED with `result` equal to `r` and
`completedAt` set; exactly two log entries are appended, an info-level started
entry and then an info-level completed entry; and the `type` of `r` is the
payload kind when that is email, webhook, data_processing or cleanup, and
`custom` for every other kind. -/
theorem C10_executeJob_success (env : HandlerEnv) (c : ExecClock) (jd : JobData)
    (w : World) (j : Job) (r : Val)
    (hfind : findById w.jobs jd.id = some j)
    (hstatus : j.status = JobStatus.PENDING)
    (hr : runHandler env j.payload = Except.ok r) :
    (executeJob env c jd w).1 = Except.ok r ∧
    (∃ j2, findById (executeJob env c jd w).2.jobs jd.id = some j2 ∧
      j2.status = JobStatus.COMPLETED ∧ j2.result = some r ∧
      j2.completedAt = some c.doneAt) ∧
    (∃ e1 e2, (executeJob env c jd w).2.logs = w.logs ++ [e1, e2] ∧
      e1.jobId = jd.id ∧ e1.level = "info" ∧ e1.message = "Job execution started" ∧
      e2.jobId = jd.id ∧ e2.level = "info" ∧ e2.message = "Job completed successfully") ∧
    r.getProp "type" =
      (if j.payload.getProp "type" = Val.str "email" ∨
          j.payload.getProp "type" = Val.str "webhook" ∨
          j.payload.getProp "type" = Val.str "data_processing" ∨
          j.payload.getProp "type" = Val.str "cleanup"
       then j.payload.getProp "type" else Val.str "custom") := by
  have hid := (findById_some hfind).1
  have _ := hstatus
  unfold executeJob
  rw [executeJobWith_ok (runHandler env) c jd w j r hfind (runHandler_payloadPresent hr) hr]
  refine ⟨rfl, ⟨_, findById_writeModified_twice hfind rfl rfl, rfl, rfl, rfl⟩, ?_,
    runHandler_type env j.payload r hr⟩
  exact ⟨_, _, rfl, hid, rfl, rfl, hid, rfl, rfl⟩

/-- C10 at a concrete input: the pending sample job with its email payload;
the result has type `email`. -/
theorem C10_executeJob_success_witness :
    (executeJob sampleEnv sampleClock sampleData (worldOf sampleJob)).1 =
      Except.ok (executeEmailJob sampleEnv emailPayload) ∧
    (∃ j2, findById (executeJob sampleEnv sampleClock sampleData (worldOf sampleJob)).2.jobs
        sampleData.id = some j2 ∧
      j2.status = JobStatus.COMPLETED ∧
      j2.result = some (executeEmailJob sampleEnv emailPayload) ∧
      j2.completedAt = some sampleClock.doneAt) ∧
    (∃ e1 e2, (executeJob sampleEnv sampleClock sampleData (worldOf sampleJob)).2.logs =
        (worldOf sampleJob).logs ++ [e1, e2] ∧
      e1.jobId = sampleData.id ∧ e1.level = "info" ∧ e1.message = "Job execution started" ∧
      e2.jobId = sampleData.id ∧ e2.level = "info" ∧
      e2.message = "Job completed successfully") ∧
    (executeEmailJob sampleEnv emailPayload).getProp "type" =
      (if sampleJob.payload.getProp "type" = Val.str "email" ∨
          sampleJob.payload.getProp "type" = Val.str "webhook" ∨
          sampleJob.payload.getProp "type" = Val.str "data_processing" ∨
          sampleJob.payload.getProp "type" = Val.str "cleanup"
       then sampleJob.payload.getProp "type" else Val.str "custom") :=
  C10_executeJob_success sampleEnv sampleClock sampleData (worldOf sampleJob) sampleJob
    (executeEmailJob sampleEnv emailPayload) rfl rfl rfl

/-- C11, as stated, fails: the job created through `createJob` with the empty
object as payload is stored without payload.  The dispatch throws on such a
payload, yet `executeJob` does not end with that error: the save of the ACTIVE
transition is rejected by the `required` validator, `executeJob` throws the
validation error, and the world is as it was (the record is still PENDING with
no retry counted, and no log entry is appended). -/
theorem C11_counterexample :
    createJobSchema 0 emptyPayloadBody = true ∧
    (findById payloadlessWorld.jobs 1).map (fun j => (j.status, j.payload, j.currentRetries)) =
      some (JobStatus.PENDING, Val.undefined, 0) ∧
    runHandler sampleEnv Val.undefined = Except.error payloadTypeError ∧
    (executeJob sampleEnv sampleClock ⟨1, JobType.IMMEDIATE, Val.objNil⟩ payloadlessWorld).1 =
      Except.error validationError ∧
    validationError ≠ payloadTypeError ∧
    (executeJob sampleEnv sampleClock ⟨1, JobType.IMMEDIATE, Val.objNil⟩ payloadlessWorld).2 =
      payloadlessWorld :=
  ⟨by decide, by decide, rfl, rfl, by decide, by decide⟩

/-- C11, amended: for an existing job stored with its payload whose handler
throws `e`, `executeJob` throws the same `e`; the stored record ends FAILED
with `error` equal to the message of `e`, `failedAt` set and `currentRetries`
one more than before; and after the info-level started entry exactly one more
entry is appended, of level error, carrying the message of `e`.  Stated for
every handler dispatch, of which `executeJob` is the instance
`runHandler env`. -/
theorem C11_executeJob_failure (handler : Val → Except JsError Val) (c : ExecClock)
    (jd : JobData) (w : World) (j : Job) (e : JsError)
    (hfind : findById w.jobs jd.id = some j)
    (hpayload : payloadPresent j.payload = true)
    (hr : handler j.payload = Except.error e) :
    (executeJobWith handler c jd w).1 = Except.error e ∧
    (∃ j2, findById (executeJobWith handler c jd w).2.jobs jd.id = some j2 ∧
      j2.status = JobStatus.FAILED ∧ j2.error = some e.message ∧
      j2.failedAt = some c.doneAt ∧ j2.currentRetries = j.currentRetries + 1) ∧
    (∃ e1 e2, (executeJobWith handler c jd w).2.logs = w.logs ++ [e1, e2] ∧
      e1.jobId = jd.id ∧ e1.level = "info" ∧ e1.message = "Job execution started" ∧
      e2.jobId = jd.id ∧ e2.level = "error" ∧ e2.message = "Job failed" ∧
      e2.data.getProp "error" = Val.str e.message) := by
  have hid := (findById_some hfind).1
  rw [executeJobWith_error handler c jd w j e hfind hpayload hr]
  refine ⟨rfl, ⟨_, findById_writeModified_twice hfind rfl rfl, rfl, rfl, rfl, rfl⟩, ?_⟩
  refine ⟨_, _, rfl, hid, rfl, rfl, hid, rfl, rfl, ?_⟩
  simp [mkObj, Val.getProp]

/-- C11, amended, at a concrete input: the pending sample job, stored with its
email payload, under a dispatch that throws. -/
theorem C11_executeJob_failure_witness :
    (executeJobWith failingHandler sampleClock sampleData (worldOf sampleJob)).1 =
      Except.error ⟨"boom", "at handler"⟩ ∧
    (∃ j2, findById (executeJobWith failingHandler sampleClock sampleData
        (worldOf sampleJob)).2.jobs sampleData.id = some j2 ∧
      j2.status = JobStatus.FAILED ∧ j2.error = some "boom" ∧
      j2.failedAt = some sampleClock.doneAt ∧
      j2.currentRetries = sampleJob.currentRetries + 1) ∧
    (∃ e1 e2, (executeJobWith failingHandler sampleClock sampleData (worldOf sampleJob)).2.logs =
          (worldOf sampleJob).logs ++ [e1, e2] ∧
      e1.jobId = sampleData.id ∧ e1.level = "info" ∧ e1.message = "Job execution started" ∧
      e2.jobId = sampleData.id ∧ e2.level = "error" ∧ e2.message = "Job failed" ∧
      e2.data.getProp "error" = Val.str "boom") :=
  C11_executeJob_failure failingHandler sampleClock sampleData (worldOf sampleJob) sampleJob
    ⟨"boom", "at handler"⟩ rfl rfl rfl

/-- C12: for a reference whose id has no stored record, `executeJob` throws the
job-not-found error and leaves the world as it was: no record is created or
changed and no log entry is appended.  The outcome is the same for every
handler dispatch, so no handler takes part in it. -/
theorem C12_executeJob_not_found (handler : Val → Except JsError Val) (c : ExecClock)
    (jd : JobData) (w : World) (hfind : findById w.jobs jd.id = none) :
    executeJobWith handler c jd w = (Except.error (jobNotFound jd.id), w) := by
  simp [executeJobWith, executeJobStart, hfind, executeJobFailure, executeJobRethrown]

/-- C12 at a concrete input: `executeJob` for id 2 in a store that holds only
the record with id 1. -/
theorem C12_executeJob_not_found_witness :
    executeJob sampleEnv sampleClock ⟨2, JobType.IMMEDIATE, emailPayload⟩ (worldOf sampleJob) =
      (Except.error (jobNotFound 2), worldOf sampleJob) :=
  C12_executeJob_not_found (runHandler sampleEnv) sampleClock
    ⟨2, JobType.IMMEDIATE, emailPayload⟩ (worldOf sampleJob) rfl

/-- C20, as stated, fails: with entry at 0, ACTIVE written at 5, handler done at
100 and COMPLETED written at 101, the stored `executionTime` is 100, not
`completedAt - startedAt = 96`. -/
theorem C20_counterexample :
    (findById (executeJob sampleEnv sampleClock sampleData (worldOf sampleJob)).2.jobs 1).map
        (fun j => (j.startedAt, j.completedAt, j.executionTime)) =
      some (some 5, some 101, some 100) ∧ (100 : Int) ≠ 101 - 5 :=
  ⟨by decide, by decide⟩

/-- C20, amended: for a job that `executeJob` completes, the stored
`executionTime` is the `Date.now()` read after the handler minus the
`Date.now()` read on entry of `executeJob` (the value passed to `updateStatus`
overwrites the one derived from `completedAt - startedAt`), and the completed
log entry reports the same value. -/
theorem C20_executionTime_from_entry (env : HandlerEnv) (c : ExecClock) (jd : JobData)
    (w : World) (j : Job) (r : Val)
    (hfind : findById w.jobs jd.id = some j)
    (hr : runHandler env j.payload = Except.ok r) :
    (∃ j2, findById (executeJob env c jd w).2.jobs jd.id = some j2 ∧
      j2.status = JobStatus.COMPLETED ∧ j2.startedAt = some c.activeAt ∧
      j2.completedAt = some c.doneAt ∧
      j2.executionTime = some ((c.endTime : Int) - (c.startTime : Int))) ∧
    (∃ e1 e2, (executeJob env c jd w).2.logs = w.logs ++ [e1, e2] ∧
      e2.message = "Job completed successfully" ∧
      e2.data.getProp "executionTime" = Val.num ((c.endTime : Int) - (c.startTime : Int))) := by
  unfold executeJob
  rw [executeJobWith_ok (runHandler env) c jd w j r hfind (runHandler_payloadPresent hr) hr]
  refine ⟨⟨_, findById_writeModified_twice hfind rfl rfl, rfl, rfl, rfl, rfl⟩, ?_⟩
  refine ⟨_, _, rfl, rfl, ?_⟩
  simp [mkObj, Val.getProp]

/-- C20, amended, at a concrete input: the pending sample job. -/
theorem C20_executionTime_from_entry_witness :
    (∃ j2, findById (executeJob sampleEnv sampleClock sampleData (worldOf sampleJob)).2.jobs
        sampleData.id = some j2 ∧
      j2.status = JobStatus.COMPLETED ∧ j2.startedAt = some sampleClock.activeAt ∧
      j2.completedAt = some sampleClock.doneAt ∧
      j2.executionTime = some ((sampleClock.endTime : Int) - (sampleClock.startTime : Int))) ∧
    (∃ e1 e2, (executeJob sampleEnv sampleClock sampleData (worldOf sampleJob)).2.logs =
        (worldOf sampleJob).logs ++ [e1, e2] ∧
      e2.message = "Job completed successfully" ∧
      e2.data.getProp "executionTime" =
        Val.num ((sampleClock.endTime : Int) - (sampleClock.startTime : Int))) :=
  C20_executionTime_from_entry sampleEnv sampleClock sampleData (worldOf sampleJob) sampleJob
    (executeEmailJob sampleEnv emailPayload) rfl rfl

end Chronos

namespace Chronos

open jobController

/-! ## Claims about the orchestrator -/

/-- C4: for a job found for the calling owner whose status is ACTIVE or
COMPLETED, and for every patch, `updateJob` answers with the invalid-state
error (400, cannot update job in current status) and leaves the whole world,
store and queue trace included, as it was; for a found job in any other status
the answer is not the 400 error. -/
theorem C4_updateJob_invalid_state (now id user : Nat) (body : UpdateJobBody) (w : World)
    (j : Job) (hfind : findOne w.jobs id user = some j) :
    ((j.status = JobStatus.ACTIVE ∨ j.status = JobStatus.COMPLETED) →
      updateJob now id user body w =
        (⟨400, false, "Cannot update job in current status", none⟩, w)) ∧
    (¬ (j.status = JobStatus.ACTIVE ∨ j.status = JobStatus.COMPLETED) →
      (updateJob now id user body w).1.status ≠ 400) := by
  constructor
  · intro hs
    simp [updateJob, hfind, hs]
  · intro hs
    simp only [updateJob, hfind, hs, if_false]
    split
    · simp
    · split
      · split <;> simp
      · simp

/-- C4 at a concrete input: the sample job stored as ACTIVE, patched with a new
priority. -/
theorem C4_updateJob_invalid_state_witness :
    ((JobStatus.ACTIVE = JobStatus.ACTIVE ∨ JobStatus.ACTIVE = JobStatus.COMPLETED) →
      updateJob 0 1 7 ⟨none, none, none, none, none, some 3, none, none⟩
          (worldOf { sampleJob with status := JobStatus.ACTIVE }) =
        (⟨400, false, "Cannot update job in current status", none⟩,
          worldOf { sampleJob with status := JobStatus.ACTIVE })) ∧
    (¬ (JobStatus.ACTIVE = JobStatus.ACTIVE ∨ JobStatus.ACTIVE = JobStatus.COMPLETED) →
      (updateJob 0 1 7 ⟨none, none, none, none, none, some 3, none, none⟩
          (worldOf { sampleJob with status := JobStatus.ACTIVE })).1.status ≠ 400) :=
  C4_updateJob_invalid_state 0 1 7 ⟨none, none, none, none, none, some 3, none, none⟩
    (worldOf { sampleJob with status := JobStatus.ACTIVE })
    { sampleJob with status := JobStatus.ACTIVE } rfl

/-- C5, as stated, fails: the job created through `createJob` with the empty
object as payload is stored without payload, PENDING, under queue id 1.  Its
owner cancels it while the queue answers: the save of the CANCELLED transition
is rejected by the `required` validator, the answer is 500 and the stored
status is still PENDING. -/
theorem C5_counterexample :
    createJobSchema 0 emptyPayloadBody = true ∧
    (findOne payloadlessWorld.jobs 1 7).map (fun j => (j.status, j.payload, j.bullJobId)) =
      some (JobStatus.PENDING, Val.undefined, some 1) ∧
    payloadlessWorld.queue.up = true ∧
    (cancelJob 1 7 payloadlessWorld).1.status = 500 ∧
    (findOne (cancelJob 1 7 payloadlessWorld).2.jobs 1 7).map (fun j => j.status) =
      some JobStatus.PENDING := by
  decide

/-- C5, amended: for a job found for the calling owner: when its status is
COMPLETED or CANCELLED, `cancelJob` answers with the invalid-state error and
leaves the whole world, queue trace included, as it was; otherwise, the stored
record having its payload and the queue call not failing (no queue id, or a
queue that answers), it answers 200, the stored record has status CANCELLED
with `currentRetries`, `startedAt`, `completedAt` and `failedAt` as before, and
the queue holds no entry under the record's queue id. -/
theorem C5_cancelJob (id user : Nat) (w : World) (j : Job)
    (hfind : findOne w.jobs id user = some j) :
    ((j.status = JobStatus.COMPLETED ∨ j.status = JobStatus.CANCELLED) →
      cancelJob id user w = (⟨400, false, "Cannot cancel job in current status", none⟩, w)) ∧
    (¬ (j.status = JobStatus.COMPLETED ∨ j.status = JobStatus.CANCELLED) →
      payloadPresent j.payload = true →
      (j.bullJobId = none ∨ w.queue.up = true) →
      (cancelJob id user w).1.status = 200 ∧
      (∃ j2, findOne (cancelJob id user w).2.jobs id user = some j2 ∧
        j2.status = JobStatus.CANCELLED ∧ j2.currentRetries = j.currentRetries ∧
        j2.startedAt = j.startedAt ∧ j2.completedAt = j.completedAt ∧
        j2.failedAt = j.failedAt) ∧
      (∀ b, j.bullJobId = some b →
        ∀ e ∈ (cancelJob id user w).2.queue.entries, e.id ≠ b)) := by
  constructor
  · intro hs
    simp [cancelJob, hfind, hs]
  · intro hs hp hq
    have hc : ∃ jc, jc = j.updateStatusFields 0 JobStatus.CANCELLED AdditionalData.empty :=
      ⟨_, rfl⟩
    obtain ⟨jc, hjc⟩ := hc
    have hjc2 : jc = { j with status := JobStatus.CANCELLED } := by
      rw [hjc, jobService.updateStatusFields_cancelled]
    have hsave : findOne (writeModified w.jobs ⟨j, jc⟩) id user = some jc :=
      findOne_writeModified_self hfind (by rw [hjc2]) (by rw [hjc2])
    have hfields : jc.status = JobStatus.CANCELLED ∧ jc.currentRetries = j.currentRetries ∧
        jc.startedAt = j.startedAt ∧ jc.completedAt = j.completedAt ∧
        jc.failedAt = j.failedAt := by
      rw [hjc2]
      exact ⟨rfl, rfl, rfl, rfl, rfl⟩
    have hv : saveValid ⟨j, jc⟩ = true := by
      rw [hjc2]
      exact saveValid_of_unvalidated _ _ hp rfl rfl rfl rfl
    simp only [cancelJob, hfind, hs, if_false, jobService.updateStatus, Doc.load, Doc.synced,
      ← hjc, saveDoc_ok _ hv]
    cases hb : j.bullJobId with
    | none =>
      refine ⟨rfl, ⟨jc, hsave, hfields⟩, ?_⟩
      intro b hb2
      cases hb2
    | some b =>
      have hup : w.queue.up = true := by
        rcases hq with h | h
        · rw [hb] at h; cases h
        · exact h
      obtain ⟨h1, h2, -, -, -⟩ := queueService.cancelJob_up b w.queue hup
      dsimp only
      cases hc : queueService.cancelJob b w.queue with
      | mk res q1 =>
        rw [hc] at h1 h2
        simp only at h1 h2
        subst h1
        refine ⟨rfl, ⟨jc, hsave, hfields⟩, ?_⟩
        intro b2 hb2 e he
        cases hb2
        simp only [h2, List.mem_filter] at he
        simpa using he.2

/-- C5, amended, at a concrete input: the pending sample job, stored with its
email payload and held by the queue as entry 4. -/
theorem C5_cancelJob_witness :
    ((JobStatus.PENDING = JobStatus.COMPLETED ∨ JobStatus.PENDING = JobStatus.CANCELLED) →
      cancelJob 1 7 ⟨[{ sampleJob with bullJobId := some 4 }], [],
          ⟨true, 5, [⟨4, queueService.immediateRequest sampleJob⟩], []⟩⟩ =
        (⟨400, false, "Cannot cancel job in current status", none⟩,
          ⟨[{ sampleJob with bullJobId := some 4 }], [],
            ⟨true, 5, [⟨4, queueService.immediateRequest sampleJob⟩], []⟩⟩)) ∧
    (¬ (JobStatus.PENDING = JobStatus.COMPLETED ∨ JobStatus.PENDING = JobStatus.CANCELLED) →
      payloadPresent emailPayload = true →
      ((some 4 : Option Nat) = none ∨ true = true) →
      (cancelJob 1 7 ⟨[{ sampleJob with bullJobId := some 4 }], [],
          ⟨true, 5, [⟨4, queueService.immediateRequest sampleJob⟩], []⟩⟩).1.status = 200 ∧
      (∃ j2, findOne (cancelJob 1 7 ⟨[{ sampleJob with bullJobId := some 4 }], [],
          ⟨true, 5, [⟨4, queueService.immediateRequest sampleJob⟩], []⟩⟩).2.jobs 1 7 =
            some j2 ∧
        j2.status = JobStatus.CANCELLED ∧ j2.currentRetries = 0 ∧
        j2.startedAt = none ∧ j2.completedAt = none ∧ j2.failedAt = none) ∧
      (∀ b, (some 4 : Option Nat) = some b →
        ∀ e ∈ (cancelJob 1 7 ⟨[{ sampleJob with bullJobId := some 4 }], [],
          ⟨true, 5, [⟨4, queueService.immediateRequest sampleJob⟩], []⟩⟩).2.queue.entries,
          e.id ≠ b)) :=
  C5_cancelJob 1 7 ⟨[{ sampleJob with bullJobId := some 4 }], [],
    ⟨true, 5, [⟨4, queueService.immediateRequest sampleJob⟩], []⟩⟩
    { sampleJob with bullJobId := some 4 } rfl

/-- C6, as stated, fails: a PENDING job with `currentRetries = maxRetries = 0`
is refused with the only-failed-jobs error, not with the retry-exhausted one. -/
theorem C6_counterexample :
    ({ sampleJob with maxRetries := 0 } : Job).currentRetries =
      ({ sampleJob with maxRetries := 0 } : Job).maxRetries ∧
    (retryJob 1 7 (worldOf { sampleJob with maxRetries := 0 })).1.message =
      "Only failed jobs can be retried" ∧
    (retryJob 1 7 (worldOf { sampleJob with maxRetries := 0 })).1.message ≠
      "Job has exceeded maximum retry attempts" := by
  decide

/-- C6, amended: for a job found for the calling owner with
`currentRetries ≥ maxRetries`, `retryJob` answers 400 and leaves the whole
world, store and queue trace included, as it was; the error is the
retry-exhausted one when the status is FAILED and the only-failed-jobs one for
every other status. -/
theorem C6_retryJob_exhausted (id user : Nat) (w : World) (j : Job)
    (hfind : findOne w.jobs id user = some j) (hretries : j.currentRetries ≥ j.maxRetries) :
    retryJob id user w =
      (⟨400, false,
          if j.status = JobStatus.FAILED then "Job has exceeded maximum retry attempts"
          else "Only failed jobs can be retried", none⟩, w) := by
  by_cases hs : j.status = JobStatus.FAILED
  · simp [retryJob, hfind, hs, hretries]
  · simp [retryJob, hfind, hs]

/-- C6, amended, at a concrete input: the sample job stored as FAILED with all
five retries used. -/
theorem C6_retryJob_exhausted_witness :
    retryJob 1 7 (worldOf { sampleJob with status := JobStatus.FAILED, currentRetries := 5 }) =
      (⟨400, false,
          if JobStatus.FAILED = JobStatus.FAILED then "Job has exceeded maximum retry attempts"
          else "Only failed jobs can be retried", none⟩,
        worldOf { sampleJob with status := JobStatus.FAILED, currentRetries := 5 }) :=
  C6_retryJob_exhausted 1 7
    (worldOf { sampleJob with status := JobStatus.FAILED, currentRetries := 5 })
    { sampleJob with status := JobStatus.FAILED, currentRetries := 5 } rfl (by decide)

/-- C7: for a job found for the calling owner with status FAILED and
`currentRetries < maxRetries`, whatever its type, a queue that answers and a
stored record that has its payload (as every record has that reached FAILED),
`retryJob` answers 200; the stored record has status PENDING, `error` and
`failedAt` cleared, `currentRetries` as before and the queue id the queue
returned; exactly one queue call is made, an enqueue of the immediate shape
(no delay, no repeat) for this job.  For a found job with any other status
`retryJob` does not succeed. -/
theorem C7_retryJob_success (id user : Nat) (w : World) (j : Job)
    (hfind : findOne w.jobs id user = some j) :
    (j.status = JobStatus.FAILED → j.currentRetries < j.maxRetries → w.queue.up = true →
      payloadPresent j.payload = true →
      (retryJob id user w).1.status = 200 ∧ (retryJob id user w).1.success = true ∧
      ∃ j2 req bj,
        findOne (retryJob id user w).2.jobs id user = some j2 ∧
        j2.status = JobStatus.PENDING ∧ j2.error = none ∧ j2.failedAt = none ∧
        j2.currentRetries = j.currentRetries ∧ j2.type = j.type ∧
        (retryJob id user w).2.queue.calls = w.queue.calls ++ [QueueCall.add req] ∧
        req.name = "immediate" ∧ req.data.id = id ∧
        req.opts.delay = none ∧ req.opts.repeatCron = none ∧
        (w.queue.add req).1 = Except.ok bj ∧ j2.bullJobId = some bj.id) ∧
    (j.status ≠ JobStatus.FAILED → (retryJob id user w).1.success = false) := by
  constructor
  · intro hs hlt hup hp
    rw [retryJob_ok id user w j _ hfind hs hlt hup hp rfl]
    refine ⟨rfl, rfl,
      { j with status := JobStatus.PENDING, error := none, failedAt := none
               bullJobId := some w.queue.nextId },
      queueService.immediateRequest
        { j with status := JobStatus.PENDING, error := none, failedAt := none },
      ⟨w.queue.nextId, queueService.immediateRequest
        { j with status := JobStatus.PENDING, error := none, failedAt := none }⟩, ?_⟩
    refine ⟨?_, rfl, rfl, rfl, rfl, rfl, rfl, rfl, ?_, rfl, rfl, ?_, rfl⟩
    · exact findOne_writeModified_self (findOne_writeModified_self hfind rfl rfl) rfl rfl
    · exact (findOne_some hfind).1
    · rw [queueService.add_up _ _ hup]
  · intro hs
    simp [retryJob, hfind, hs]

/-- C7 at a concrete input: a FAILED job of type SCHEDULED with one retry
used out of five. -/
theorem C7_retryJob_success_witness :
    (failedScheduledJob.status = JobStatus.FAILED →
      failedScheduledJob.currentRetries < failedScheduledJob.maxRetries →
      (worldOf failedScheduledJob).queue.up = true →
      payloadPresent failedScheduledJob.payload = true →
      (retryJob 1 7 (worldOf failedScheduledJob)).1.status = 200 ∧
      (retryJob 1 7 (worldOf failedScheduledJob)).1.success = true ∧
      ∃ j2 req bj,
        findOne (retryJob 1 7 (worldOf failedScheduledJob)).2.jobs 1 7 = some j2 ∧
        j2.status = JobStatus.PENDING ∧ j2.error = none ∧ j2.failedAt = none ∧
        j2.currentRetries = failedScheduledJob.currentRetries ∧
        j2.type = failedScheduledJob.type ∧
        (retryJob 1 7 (worldOf failedScheduledJob)).2.queue.calls =
          (worldOf failedScheduledJob).queue.calls ++ [QueueCall.add req] ∧
        req.name = "immediate" ∧ req.data.id = 1 ∧
        req.opts.delay = none ∧ req.opts.repeatCron = none ∧
        ((worldOf failedScheduledJob).queue.add req).1 = Except.ok bj ∧
        j2.bullJobId = some bj.id) ∧
    (failedScheduledJob.status ≠ JobStatus.FAILED →
      (retryJob 1 7 (worldOf failedScheduledJob)).1.success = false) :=
  C7_retryJob_success 1 7 (worldOf failedScheduledJob) failedScheduledJob rfl

/-- C8, the code at the failing input: a SCHEDULED body for instant 1000 that
passed validation at instant 999 reaches `createJob` when the clock of
`addScheduledJob` reads 1000.  The answer is 500 and no queue call is made, but
the record `Job.create` wrote stays in the store: PENDING, without queue id. -/
theorem C8_createJob_leaves_record :
    createJobSchema 999 scheduledBody = true ∧
    (createJob 1000 7 scheduledBody emptyWorld).1.status = 500 ∧
    (createJob 1000 7 scheduledBody emptyWorld).2.queue.calls = [] ∧
    emptyWorld.jobs = [] ∧
    (createJob 1000 7 scheduledBody emptyWorld).2.jobs.map
        (fun j => (j._id, j.type, j.status, j.scheduledAt, j.bullJobId)) =
      [(1, JobType.SCHEDULED, JobStatus.PENDING, some 1000, none)] := by
  decide

/-- C9, as stated, fails: the SCHEDULED body for instant 1000 is a valid spec
(it passes `createJobSchema` at instant 500) and the queue answers, but
`createJob` reaches `addScheduledJob` when the clock reads 1500: the adapter
refuses, no enqueue request is issued, the answer is 500 and the stored record
has no queue id. -/
theorem C9_counterexample :
    createJobSchema 500 scheduledBody = true ∧
    emptyWorld.queue.up = true ∧
    (createJob 1500 7 scheduledBody emptyWorld).1.status = 500 ∧
    enqueueRequests (createJob 1500 7 scheduledBody emptyWorld).2.queue.calls = [] ∧
    (createJob 1500 7 scheduledBody emptyWorld).2.jobs.map (fun j => j.bullJobId) = [none] := by
  decide

/-- C9, amended: for a valid job spec of any of the four types whose
`scheduledAt`, for a SCHEDULED spec, is still ahead when the adapter reads the
clock, and a queue that answers, `createJob` answers 201; the store gains
exactly one record, under an id no other record has, with status PENDING,
`currentRetries` 0 and the caller as owner; exactly one queue call is made, the
enqueue request of the adapter function for the type of the spec; and the
stored queue id is the id the queue returned. -/
theorem C9_createJob_success (validatedAt now user : Nat) (body : CreateJobBody) (w : World)
    (hvalid : createJobSchema validatedAt body = true)
    (hfuture : ∀ s, body.type = JobType.SCHEDULED → body.scheduledAt = some s → now < s)
    (hup : w.queue.up = true) :
    ∃ rec req bj,
      (createJob now user body w).1.status = 201 ∧
      (createJob now user body w).2.jobs = w.jobs ++ [rec] ∧
      (∀ r ∈ w.jobs, r._id ≠ rec._id) ∧
      rec.status = JobStatus.PENDING ∧ rec.currentRetries = 0 ∧ rec.owner = user ∧
      rec.type = body.type ∧
      (createJob now user body w).2.queue.calls = w.queue.calls ++ [QueueCall.add req] ∧
      req.data.id = rec._id ∧
      (body.type = JobType.IMMEDIATE →
        req = queueService.immediateRequest (newJob rec._id user body)) ∧
      (body.type = JobType.SCHEDULED → ∃ s, body.scheduledAt = some s ∧
        req = queueService.scheduledRequest (newJob rec._id user body)
          (JsNum.int ((s : Int) - (now : Int)))) ∧
      (body.type = JobType.RECURRING →
        req = queueService.recurringRequest (newJob rec._id user body)) ∧
      (body.type = JobType.DELAYED →
        req = queueService.delayedRequest (newJob rec._id user body)) ∧
      (w.queue.add req).1 = Except.ok bj ∧ rec.bullJobId = some bj.id := by
  have hsched : body.type = JobType.SCHEDULED →
      ∃ s, body.scheduledAt = some s ∧ now < s := by
    intro ht
    cases hs : body.scheduledAt with
    | none => simp [createJobSchema, hs, ht] at hvalid
    | some s => exact ⟨s, rfl, hfuture s ht hs⟩
  have hnot : scheduleRefused now (newJob (freshId w.jobs) user body) = false := by
    by_cases ht : body.type = JobType.SCHEDULED
    · obtain ⟨s, hs, hlt⟩ := hsched ht
      simp [scheduleRefused, newJob, ht, queueService.scheduledDelay, hs,
        queueService.JsNum.leZero]
      omega
    · simp [scheduleRefused, newJob, ht]
  have hadd := queueService.addByType_eq now (newJob (freshId w.jobs) user body) w.queue hnot
  rw [queueService.add_up _ _ hup] at hadd
  rw [createJob_ok now user body w _ _
    (createJobSchema_valid validatedAt (freshId w.jobs) user body hvalid) hadd]
  refine ⟨{ storedForm (newJob (freshId w.jobs) user body) with
      bullJobId := some w.queue.nextId },
    requestByType now (newJob (freshId w.jobs) user body),
    ⟨w.queue.nextId, requestByType now (newJob (freshId w.jobs) user body)⟩, ?_⟩
  refine ⟨rfl, rfl, ?_, rfl, rfl, rfl, rfl, rfl, ?_, ?_, ?_, ?_, ?_, ?_, rfl⟩
  · intro r hr
    have := lt_freshId hr
    show r._id ≠ freshId w.jobs
    omega
  · simp only [requestByType, newJob]
    cases body.type <;> rfl
  · intro ht
    simp [requestByType, newJob, storedForm, ht]
  · intro ht
    obtain ⟨s, hs, -⟩ := hsched ht
    exact ⟨s, hs, by simp [requestByType, newJob, storedForm, ht, queueService.scheduledDelay, hs]⟩
  · intro ht
    simp [requestByType, newJob, storedForm, ht]
  · intro ht
    simp [requestByType, newJob, storedForm, ht]
  · rw [queueService.add_up _ _ hup]

/-- C9, amended, at a concrete input: the SCHEDULED body for instant 1000,
validated at instant 999 and enqueued while the clock still reads 999. -/
theorem C9_createJob_success_witness :
    ∃ rec req bj,
      (createJob 999 7 scheduledBody emptyWorld).1.status = 201 ∧
      (createJob 999 7 scheduledBody emptyWorld).2.jobs = emptyWorld.jobs ++ [rec] ∧
      (∀ r ∈ emptyWorld.jobs, r._id ≠ rec._id) ∧
      rec.status = JobStatus.PENDING ∧ rec.currentRetries = 0 ∧ rec.owner = 7 ∧
      rec.type = scheduledBody.type ∧
      (createJob 999 7 scheduledBody emptyWorld).2.queue.calls =
        emptyWorld.queue.calls ++ [QueueCall.add req] ∧
      req.data.id = rec._id ∧
      (scheduledBody.type = JobType.IMMEDIATE →
        req = queueService.immediateRequest (newJob rec._id 7 scheduledBody)) ∧
      (scheduledBody.type = JobType.SCHEDULED → ∃ s, scheduledBody.scheduledAt = some s ∧
        req = queueService.scheduledRequest (newJob rec._id 7 scheduledBody)
          (JsNum.int ((s : Int) - ((999 : Nat) : Int)))) ∧
      (scheduledBody.type = JobType.RECURRING →
        req = queueService.recurringRequest (newJob rec._id 7 scheduledBody)) ∧
      (scheduledBody.type = JobType.DELAYED →
        req = queueService.delayedRequest (newJob rec._id 7 scheduledBody)) ∧
      (emptyWorld.queue.add req).1 = Except.ok bj ∧ rec.bullJobId = some bj.id :=
  C9_createJob_success 999 999 7 scheduledBody emptyWorld (by decide)
    (by intro s _ hs; cases hs; decide) rfl

end Chronos

namespace Chronos

open queueService

/-! ## Claims about the queue adapter -/

theorem enqueueRequests_append (l1 l2 : List QueueCall) :
    enqueueRequests (l1 ++ l2) = enqueueRequests l1 ++ enqueueRequests l2 := by
  induction l1 with
  | nil => rfl
  | cons a l ih => cases a <;> simp [enqueueRequests, ih]

/-- C13: for every job and every instant `now`, `addScheduledJob` fails without
making any queue call exactly when the delay `scheduledAt - now` is at most 0;
otherwise it makes exactly one queue call, an enqueue request whose delay is
`scheduledAt - now`, without repeat option, with the priority of the job and
with `attempts` equal to its `maxRetries`. -/
theorem C13_addScheduledJob (now : Nat) (job : Job) (q : Queue) :
    (((∃ e, (addScheduledJob now job q).1 = Except.error e) ∧
        (addScheduledJob now job q).2.calls = q.calls) ↔
      JsNum.leZero (scheduledDelay now job) = true) ∧
    (JsNum.leZero (scheduledDelay now job) = false →
      ∃ req, (addScheduledJob now job q).2.calls = q.calls ++ [QueueCall.add req] ∧
        req.opts.delay = some (scheduledDelay now job) ∧ req.opts.repeatCron = none ∧
        req.opts.priority = job.priority ∧ req.opts.attempts = job.maxRetries ∧
        req.data.id = job._id) ∧
    (∀ s, job.scheduledAt = some s →
      scheduledDelay now job = JsNum.int ((s : Int) - (now : Int)) ∧
      (JsNum.leZero (scheduledDelay now job) = true ↔ (s : Int) - (now : Int) ≤ 0)) := by
  refine ⟨?_, ?_, ?_⟩
  · cases h : JsNum.leZero (scheduledDelay now job)
    · simp only [addScheduledJob, h, Bool.false_eq_true, if_false, iff_false, not_and]
      intro _
      unfold Queue.add
      split <;> simp
    · simp [addScheduledJob, h]
  · intro h
    refine ⟨scheduledRequest job (scheduledDelay now job), ?_, rfl, rfl, rfl, rfl, rfl⟩
    simp only [addScheduledJob, h, Bool.false_eq_true, if_false]
    unfold Queue.add
    split <;> rfl
  · intro s hs
    simp [scheduledDelay, hs, JsNum.leZero]

/-- The adapter's `updateJob` against the specified update, on a queue that
answers. -/
theorem updateJob_cancel_then_enqueue (now : Nat) (job : Job) (q : Queue)
    (hup : q.up = true) :
    (∀ b, (cancelJob b q).1 = Except.ok () ∧
      (cancelJob b q).2.entries = specCancel b q.entries ∧
      ((∀ e ∈ q.entries, e.id ≠ b) → (cancelJob b q).2.entries = q.entries) ∧
      (cancelJob b (cancelJob b q).2).1 = Except.ok () ∧
      (cancelJob b (cancelJob b q).2).2.entries = (cancelJob b q).2.entries) ∧
    (updateJob now job q).1 = (addByType now job q).1 ∧
    enqueueRequests (updateJob now job q).2.calls =
      enqueueRequests (addByType now job q).2.calls ∧
    (scheduleRefused now job = false →
      (updateJob now job q).1 = Except.ok (specUpdate now job q.nextId q.entries).1 ∧
      (updateJob now job q).2.entries = (specUpdate now job q.nextId q.entries).2 ∧
      enqueueRequests (updateJob now job q).2.calls =
        enqueueRequests q.calls ++ [requestByType now job]) ∧
    (scheduleRefused now job = true →
      (updateJob now job q).1 = Except.error scheduleInPast ∧
      enqueueRequests (updateJob now job q).2.calls = enqueueRequests q.calls) := by
  have hcancel : ∀ b, (cancelJob b q).1 = Except.ok () ∧
      (cancelJob b q).2.entries = specCancel b q.entries ∧
      (cancelJob b q).2.up = true ∧ (cancelJob b q).2.nextId = q.nextId ∧
      enqueueRequests (cancelJob b q).2.calls = enqueueRequests q.calls :=
    fun b => cancelJob_up b q hup
  have hupd : ∀ b, job.bullJobId = some b →
      updateJob now job q = addByType now job (cancelJob b q).2 := by
    intro b hb
    obtain ⟨h1, -⟩ := hcancel b
    cases hc : cancelJob b q with
    | mk res q1 =>
      rw [hc] at h1
      simp only at h1
      subst h1
      simp [updateJob, hb, hc]
  have hnone : job.bullJobId = none → updateJob now job q = addByType now job q := by
    intro hb
    simp [updateJob, hb]
  have hadd : ∀ q0 : Queue, q0.up = true →
      (scheduleRefused now job = false →
        addByType now job q0 = (Except.ok ⟨q0.nextId, requestByType now job⟩,
          { up := true, nextId := q0.nextId + 1
            entries := q0.entries ++ [⟨q0.nextId, requestByType now job⟩]
            calls := q0.calls ++ [QueueCall.add (requestByType now job)] })) ∧
      (scheduleRefused now job = true →
        addByType now job q0 = (Except.error scheduleInPast, q0)) := by
    intro q0 h0
    exact ⟨fun h => by rw [addByType_eq now job q0 h, add_up _ _ h0],
      fun h => addByType_refused now job q0 h⟩
  have hreq1 : ∀ l : List QueueCall, ∀ r,
      enqueueRequests (l ++ [QueueCall.add r]) = enqueueRequests l ++ [r] := by
    intro l r
    rw [enqueueRequests_append]
    rfl
  refine ⟨?_, ?_, ?_, ?_, ?_⟩
  · intro b
    obtain ⟨h1, h2, h3, -, -⟩ := hcancel b
    obtain ⟨h4, h5, -⟩ := cancelJob_up b (cancelJob b q).2 h3
    refine ⟨h1, h2, ?_, h4, ?_⟩
    · intro habs
      rw [h2, specCancel, List.filter_eq_self]
      intro e he
      simpa using habs e he
    · rw [h5, h2, specCancel, List.filter_filter]
      simp
  · cases hb : job.bullJobId with
    | none => rw [hnone hb]
    | some b =>
      obtain ⟨-, -, h3, h4, -⟩ := hcancel b
      rw [hupd b hb]
      cases hr : scheduleRefused now job
      · rw [(hadd _ h3).1 hr, (hadd q hup).1 hr, h4]
      · rw [(hadd _ h3).2 hr, (hadd q hup).2 hr]
  · cases hb : job.bullJobId with
    | none => rw [hnone hb]
    | some b =>
      obtain ⟨-, -, h3, -, h5⟩ := hcancel b
      rw [hupd b hb]
      cases hr : scheduleRefused now job
      · rw [(hadd _ h3).1 hr, (hadd q hup).1 hr]
        simp only [hreq1, h5]
      · rw [(hadd _ h3).2 hr, (hadd q hup).2 hr, h5]
  · intro hr
    cases hb : job.bullJobId with
    | none =>
      rw [hnone hb, (hadd q hup).1 hr]
      simp [specUpdate, hb, hreq1]
    | some b =>
      obtain ⟨-, h2, h3, h4, h5⟩ := hcancel b
      rw [hupd b hb, (hadd _ h3).1 hr]
      simp [specUpdate, hb, hreq1, h2, h4, h5]
  · intro hr
    cases hb : job.bullJobId with
    | none =>
      rw [hnone hb, (hadd q hup).2 hr]
      exact ⟨rfl, rfl⟩
    | some b =>
      obtain ⟨-, -, h3, -, h5⟩ := hcancel b
      rw [hupd b hb, (hadd _ h3).2 hr]
      exact ⟨rfl, h5⟩

/-- C14: on a queue that answers, the adapter's `updateJob` is the specified
"cancel, then enqueue by type".  Cancelling succeeds and leaves the entries
without the one under the given id; when no such entry exists nothing changes,
and cancelling twice leaves the same entries as cancelling once.  `updateJob`
leaves the entries of the specified update and issues exactly the enqueue
request the add function of the job's current type issues for its current
state, returning that function's result (the error of `addScheduledJob`, and
no request, when the schedule is refused). -/
theorem C14_updateJob_is_cancel_then_enqueue (now : Nat) (job : Job) (q : Queue)
    (hup : q.up = true) :
    (∀ b, (cancelJob b q).1 = Except.ok () ∧
      (cancelJob b q).2.entries = specCancel b q.entries ∧
      ((∀ e ∈ q.entries, e.id ≠ b) → (cancelJob b q).2.entries = q.entries) ∧
      (cancelJob b (cancelJob b q).2).1 = Except.ok () ∧
      (cancelJob b (cancelJob b q).2).2.entries = (cancelJob b q).2.entries) ∧
    (updateJob now job q).1 = (addByType now job q).1 ∧
    enqueueRequests (updateJob now job q).2.calls =
      enqueueRequests (addByType now job q).2.calls ∧
    (scheduleRefused now job = false →
      (updateJob now job q).1 = Except.ok (specUpdate now job q.nextId q.entries).1 ∧
      (updateJob now job q).2.entries = (specUpdate now job q.nextId q.entries).2 ∧
      enqueueRequests (updateJob now job q).2.calls =
        enqueueRequests q.calls ++ [requestByType now job]) ∧
    (scheduleRefused now job = true →
      (updateJob now job q).1 = Except.error scheduleInPast ∧
      enqueueRequests (updateJob now job q).2.calls = enqueueRequests q.calls) :=
  updateJob_cancel_then_enqueue now job q hup

/-- C14 at a concrete input: the queued SCHEDULED sample job (due at instant
10, queue entry 4) updated at instant 5. -/
theorem C14_updateJob_is_cancel_then_enqueue_witness :
    (∀ b, (cancelJob b queueWithEntry).1 = Except.ok () ∧
      (cancelJob b queueWithEntry).2.entries = specCancel b queueWithEntry.entries ∧
      ((∀ e ∈ queueWithEntry.entries, e.id ≠ b) →
        (cancelJob b queueWithEntry).2.entries = queueWithEntry.entries) ∧
      (cancelJob b (cancelJob b queueWithEntry).2).1 = Except.ok () ∧
      (cancelJob b (cancelJob b queueWithEntry).2).2.entries =
        (cancelJob b queueWithEntry).2.entries) ∧
    (updateJob 5 queuedScheduledJob queueWithEntry).1 =
      (addByType 5 queuedScheduledJob queueWithEntry).1 ∧
    enqueueRequests (updateJob 5 queuedScheduledJob queueWithEntry).2.calls =
      enqueueRequests (addByType 5 queuedScheduledJob queueWithEntry).2.calls ∧
    (scheduleRefused 5 queuedScheduledJob = false →
      (updateJob 5 queuedScheduledJob queueWithEntry).1 =
        Except.ok (specUpdate 5 queuedScheduledJob queueWithEntry.nextId
          queueWithEntry.entries).1 ∧
      (updateJob 5 queuedScheduledJob queueWithEntry).2.entries =
        (specUpdate 5 queuedScheduledJob queueWithEntry.nextId queueWithEntry.entries).2 ∧
      enqueueRequests (updateJob 5 queuedScheduledJob queueWithEntry).2.calls =
        enqueueRequests queueWithEntry.calls ++ [requestByType 5 queuedScheduledJob]) ∧
    (scheduleRefused 5 queuedScheduledJob = true →
      (updateJob 5 queuedScheduledJob queueWithEntry).1 = Except.error scheduleInPast ∧
      enqueueRequests (updateJob 5 queuedScheduledJob queueWithEntry).2.calls =
        enqueueRequests queueWithEntry.calls) :=
  C14_updateJob_is_cancel_then_enqueue 5 queuedScheduledJob queueWithEntry rfl

end Chronos

namespace Chronos

open jobController

/-- C15, as stated, fails: the queue answers and the job (FAILED, SCHEDULED
for instant 10, queue entry 4) may be updated, but at instant 50 the adapter
refuses the past schedule: `updateJob` answers 500 although the patch has
already been stored. -/
theorem C15_counterexample :
    queuedWorld.queue.up = true ∧
    (findOne queuedWorld.jobs 1 7).map (fun j => (j.status, j.maxRetries)) =
      some (JobStatus.FAILED, 5) ∧
    (updateJob 50 1 7 retriesPatch queuedWorld).1.status = 500 ∧
    (findOne (updateJob 50 1 7 retriesPatch queuedWorld).2.jobs 1 7).map
      (fun j => j.maxRetries) = some 7 := by
  decide

/-- C15, amended: for an owned job whose status is neither ACTIVE nor COMPLETED
and whose stored record has its payload, a patch that passes `updateJobSchema`,
a queue that answers and, when the record has a queue id, a schedule the
adapter does not refuse (a SCHEDULED record must still lie ahead), `updateJob`
answers 200; each patched field of the stored record is the patch value (`name`
and `tags` trimmed by the schema setters), each field without a patch value
and status, type, owner, payload, `currentRetries`, the timestamps, result and
error are as before; the queue is untouched when the record has no queue id,
and otherwise it is the queue after one run of the adapter's `updateJob` on the
patched record, which issues one enqueue request. -/
theorem C15_updateJob_success (validatedAt now id user : Nat) (body : UpdateJobBody)
    (w : World) (j : Job)
    (hfind : findOne w.jobs id user = some j)
    (hstatus : ¬ (j.status = JobStatus.ACTIVE ∨ j.status = JobStatus.COMPLETED))
    (hpayload : payloadPresent j.payload = true)
    (hpatch : updateJobSchema validatedAt body = true)
    (hup : w.queue.up = true)
    (hsched : j.bullJobId ≠ none → scheduleRefused now (applyPatch j body) = false) :
    (updateJob now id user body w).1.status = 200 ∧
    ∃ j2, findOne (updateJob now id user body w).2.jobs id user = some j2 ∧
      (∀ v, body.name = some v → j2.name = jsTrim v) ∧
      (body.name = none → j2.name = j.name) ∧
      (∀ v, body.description = some v → j2.description = some v) ∧
      (body.description = none → j2.description = j.description) ∧
      (∀ v, body.scheduledAt = some v → j2.scheduledAt = some v) ∧
      (body.scheduledAt = none → j2.scheduledAt = j.scheduledAt) ∧
      (∀ v, body.cronExpression = some v → j2.cronExpression = some v) ∧
      (body.cronExpression = none → j2.cronExpression = j.cronExpression) ∧
      (∀ v, body.delay = some v → j2.delay = some v) ∧
      (body.delay = none → j2.delay = j.delay) ∧
      (∀ v, body.priority = some v → j2.priority = v) ∧
      (body.priority = none → j2.priority = j.priority) ∧
      (∀ v, body.maxRetries = some v → j2.maxRetries = v) ∧
      (body.maxRetries = none → j2.maxRetries = j.maxRetries) ∧
      (∀ v, body.tags = some v → j2.tags = v.map jsTrim) ∧
      (body.tags = none → j2.tags = j.tags) ∧
      (j2._id = j._id ∧ j2.status = j.status ∧ j2.type = j.type ∧ j2.owner = j.owner ∧
        j2.payload = j.payload ∧ j2.currentRetries = j.currentRetries ∧
        j2.startedAt = j.startedAt ∧
        j2.completedAt = j.completedAt ∧ j2.failedAt = j.failedAt ∧ j2.result = j.result ∧
        j2.error = j.error ∧ j2.executionTime = j.executionTime ∧
        j2.nextRunAt = j.nextRunAt) ∧
      (j.bullJobId = none → (updateJob now id user body w).2.queue = w.queue) ∧
      (j.bullJobId ≠ none →
        (updateJob now id user body w).2.queue =
          (queueService.updateJob now (applyPatch j body) w.queue).2 ∧
        enqueueRequests (updateJob now id user body w).2.queue.calls =
          enqueueRequests w.queue.calls ++ [requestByType now (applyPatch j body)]) := by
  have hsave : findOne (writeModified w.jobs ⟨j, applyPatch j body⟩) id user =
      some (applyPatch j body) := findOne_writeModified_self hfind rfl rfl
  have hv : saveValid ⟨j, applyPatch j body⟩ = true :=
    saveValid_applyPatch validatedAt j body hpayload hpatch
  have hbid : (applyPatch j body).bullJobId = j.bullJobId := rfl
  have hfields :
      (∀ v, body.name = some v → (applyPatch j body).name = jsTrim v) ∧
      (body.name = none → (applyPatch j body).name = j.name) ∧
      (∀ v, body.description = some v → (applyPatch j body).description = some v) ∧
      (body.description = none → (applyPatch j body).description = j.description) ∧
      (∀ v, body.scheduledAt = some v → (applyPatch j body).scheduledAt = some v) ∧
      (body.scheduledAt = none → (applyPatch j body).scheduledAt = j.scheduledAt) ∧
      (∀ v, body.cronExpression = some v → (applyPatch j body).cronExpression = some v) ∧
      (body.cronExpression = none → (applyPatch j body).cronExpression = j.cronExpression) ∧
      (∀ v, body.delay = some v → (applyPatch j body).delay = some v) ∧
      (body.delay = none → (applyPatch j body).delay = j.delay) ∧
      (∀ v, body.priority = some v → (applyPatch j body).priority = v) ∧
      (body.priority = none → (applyPatch j body).priority = j.priority) ∧
      (∀ v, body.maxRetries = some v → (applyPatch j body).maxRetries = v) ∧
      (body.maxRetries = none → (applyPatch j body).maxRetries = j.maxRetries) ∧
      (∀ v, body.tags = some v → (applyPatch j body).tags = v.map jsTrim) ∧
      (body.tags = none → (applyPatch j body).tags = j.tags) := by
    refine ⟨?_, ?_, ?_, ?_, ?_, ?_, ?_, ?_, ?_, ?_, ?_, ?_, ?_, ?_, ?_, ?_⟩ <;>
      intros <;> simp [applyPatch, *]
  cases hb : j.bullJobId with
  | none =>
    have hb2 : (applyPatch j body).bullJobId = none := by rw [hbid, hb]
    have hrun : updateJob now id user body w =
        (⟨200, true, "Job updated successfully", some (applyPatch j body)⟩,
          { w with jobs := writeModified w.jobs ⟨j, applyPatch j body⟩ }) := by
      simp only [updateJob, hfind, hstatus, if_false, saveDoc_ok _ hv, hb2]
    rw [hrun]
    refine ⟨rfl, applyPatch j body, hsave, ?_⟩
    obtain ⟨h1, h2, h3, h4, h5, h6, h7, h8, h9, h10, h11, h12, h13, h14, h15, h16⟩ := hfields
    refine ⟨h1, h2, h3, h4, h5, h6, h7, h8, h9, h10, h11, h12, h13, h14, h15, h16, ?_, ?_, ?_⟩
    · exact ⟨rfl, rfl, rfl, rfl, rfl, rfl, rfl, rfl, rfl, rfl, rfl, rfl, rfl⟩
    · intro _; rfl
    · intro h; exact absurd rfl h
  | some b =>
    have hb2 : (applyPatch j body).bullJobId = some b := by rw [hbid, hb]
    have hnr := hsched (by rw [hb]; simp)
    obtain ⟨-, -, -, hok, -⟩ :=
      updateJob_cancel_then_enqueue now (applyPatch j body) w.queue hup
    obtain ⟨hres, -, hreq⟩ := hok hnr
    cases hq : queueService.updateJob now (applyPatch j body) w.queue with
    | mk res q1 =>
      rw [hq] at hres hreq
      simp only at hres hreq
      subst hres
      have hrun : updateJob now id user body w =
          (⟨200, true, "Job updated successfully", some (applyPatch j body)⟩,
            { jobs := writeModified w.jobs ⟨j, applyPatch j body⟩, logs := w.logs, queue := q1 }) := by
        simp only [updateJob, hfind, hstatus, if_false, saveDoc_ok _ hv, hb2, hq]
      rw [hrun]
      refine ⟨rfl, applyPatch j body, hsave, ?_⟩
      obtain ⟨h1, h2, h3, h4, h5, h6, h7, h8, h9, h10, h11, h12, h13, h14, h15, h16⟩ := hfields
      refine ⟨h1, h2, h3, h4, h5, h6, h7, h8, h9, h10, h11, h12, h13, h14, h15, h16, ?_, ?_, ?_⟩
      · exact ⟨rfl, rfl, rfl, rfl, rfl, rfl, rfl, rfl, rfl, rfl, rfl, rfl, rfl⟩
      · intro h; cases h
      · intro _; exact ⟨rfl, hreq⟩

/-- C15, amended, at a concrete input: the queued SCHEDULED sample job (due at
instant 10) gets `maxRetries` 7 at instant 5; the answer is 200 and the stored
`maxRetries` is 7. -/
theorem C15_updateJob_success_witness :
    (updateJob 5 1 7 retriesPatch queuedWorld).1.status = 200 ∧
    ∃ j2, findOne (updateJob 5 1 7 retriesPatch queuedWorld).2.jobs 1 7 = some j2 ∧
      j2.maxRetries = 7 := by
  obtain ⟨h1, j2, h2, hrest⟩ :=
    C15_updateJob_success 5 5 1 7 retriesPatch queuedWorld queuedScheduledJob rfl (by decide)
      (by decide) (by decide) rfl (fun _ => by decide)
  exact ⟨h1, j2, h2, hrest.2.2.2.2.2.2.2.2.2.2.2.2.1 7 rfl⟩

end Chronos

namespace Chronos

open schedulerService

/-! ## Claims about the recurring schedule registry -/

namespace schedulerService

theorem removeExisting_mem_id {key : Nat} {s : Scheduler} {u : CronTask}
    (hu : u ∈ (removeExisting key s).tasks) : ∃ v ∈ s.tasks, u.id = v.id := by
  rw [removeExisting_tasks] at hu
  cases hg : s.get key with
  | none => rw [hg] at hu; exact ⟨u, hu, rfl⟩
  | some t =>
    rw [hg] at hu
    obtain ⟨v, hv, rfl⟩ := List.mem_map.mp hu
    refine ⟨v, hv, ?_⟩
    split <;> rfl

/-- The state after a successful `scheduleRecurringJob` on a well-formed
registry. -/
theorem scheduleRecurringJob_effect (nodeCron : String → Bool) (job : Doc) (s : Scheduler)
    (hwf : s.wf) (h : isValidCronExpression job.cur.cronExpression = true)
    (hn : nodeCron (job.cur.cronExpression.getD "undefined") = true) :
    (scheduleRecurringJob nodeCron job s).1 = Except.ok () ∧
    (scheduleRecurringJob nodeCron job s).2.get job.cur._id = some s.tasks.length ∧
    (∀ t ∈ s.tasks, t.id ≠ s.tasks.length) ∧
    (⟨s.tasks.length, job.cur.cronExpression, job, true, 1, 0⟩ : CronTask) ∈
      (scheduleRecurringJob nodeCron job s).2.tasks ∧
    (∀ t ∈ (scheduleRecurringJob nodeCron job s).2.tasks, t.id = s.tasks.length →
      t = ⟨s.tasks.length, job.cur.cronExpression, job, true, 1, 0⟩) ∧
    (∀ old, s.get job.cur._id = some old →
      ∀ t ∈ (scheduleRecurringJob nodeCron job s).2.tasks, t.id = old →
        t.running = false ∧ ∃ u ∈ s.tasks, t = u.stopped) ∧
    (∀ k, k ≠ job.cur._id → (scheduleRecurringJob nodeCron job s).2.get k = s.get k) ∧
    (∀ t ∈ s.tasks, s.get job.cur._id ≠ some t.id →
      t ∈ (scheduleRecurringJob nodeCron job s).2.tasks) := by
  obtain ⟨-, -, hhandles, hids⟩ := hwf
  rw [scheduleRecurringJob_valid nodeCron job s h hn]
  have hRid : ∀ u ∈ (removeExisting job.cur._id s).tasks, u.id ≠ s.tasks.length := by
    intro u hu
    obtain ⟨v, hv, e⟩ := removeExisting_mem_id hu
    have := hids v hv
    omega
  have hmem : ∀ t, t ∈ List.map (fun t : CronTask => if t.id = s.tasks.length
        then { t with running := true, starts := t.starts + 1 } else t)
        ((removeExisting job.cur._id s).tasks ++
          [(⟨s.tasks.length, job.cur.cronExpression, job, false, 0, 0⟩ : CronTask)]) ↔
      t ∈ (removeExisting job.cur._id s).tasks ∨
        t = ⟨s.tasks.length, job.cur.cronExpression, job, true, 1, 0⟩ := by
    intro t
    simp only [List.mem_map, List.mem_append, List.mem_singleton]
    constructor
    · rintro ⟨u, hu | hu, rfl⟩
      · left; simp [hRid u hu, hu]
      · right; subst hu; simp
    · rintro (ht | ht)
      · exact ⟨t, Or.inl ht, by simp [hRid t ht]⟩
      · exact ⟨_, Or.inr rfl, by subst ht; simp⟩
  refine ⟨rfl, ?_, ?_, ?_, ?_, ?_, ?_, ?_⟩
  · simp only [Scheduler.get, find?_append_single, find?_filter_self]
    simp
  · intro t ht
    have := hids t ht
    omega
  · exact (hmem _).mpr (Or.inr rfl)
  · intro t ht hid
    rcases (hmem t).mp ht with ht | ht
    · exact absurd hid (hRid t ht)
    · exact ht
  · intro old hold t ht hid
    have holdlt : old < s.tasks.length := hhandles _ (get_some_mem hold)
    rcases (hmem t).mp ht with ht | ht
    · rw [removeExisting_tasks, hold] at ht
      obtain ⟨v, hv, rfl⟩ := List.mem_map.mp ht
      by_cases hvo : v.id = old
      · simp only [hvo, if_true]
        exact ⟨rfl, v, hv, rfl⟩
      · simp only [hvo, if_false] at hid
    · subst ht
      simp only at hid
      omega
  · intro k hk
    simp only [Scheduler.get, find?_append_single, get_filter_ne _ _ _ hk]
    cases s.scheduledTasks.find? (fun e => decide (e.1 = k)) with
    | some e => rfl
    | none => simp [Ne.symm hk]
  · intro t ht hne
    refine (hmem t).mpr (Or.inl ?_)
    rw [removeExisting_tasks]
    cases hg : s.get job.cur._id with
    | none => exact ht
    | some old =>
      have hto : t.id ≠ old := fun e => hne (by rw [hg, e])
      exact List.mem_map.mpr ⟨t, ht, by simp [hto]⟩

end schedulerService

/-- C16, as stated, fails: the expression `*/0 * * * *` passes
`isValidCronExpression`, but `cron.schedule` throws on it.  Scheduling the job
with that expression on a registry that holds a running task for it fails,
with the error of the library and not the invalid-cron error, and the registry
is not as it was: the task the job had is stopped and its entry is gone. -/
theorem C16_counterexample :
    isValidCronExpression zeroStepJob.cronExpression = true ∧
    acceptsUnlessZeroStep "*/0 * * * *" = false ∧
    (scheduleRecurringJob acceptsUnlessZeroStep (Doc.load zeroStepJob) dailyRegistry).1 =
      Except.error (cronScheduleError (some "*/0 * * * *")) ∧
    dailyRegistry.get 2 = some 0 ∧
    (scheduleRecurringJob acceptsUnlessZeroStep (Doc.load zeroStepJob) dailyRegistry).2.get 2 =
      none ∧
    (scheduleRecurringJob acceptsUnlessZeroStep (Doc.load zeroStepJob)
        dailyRegistry).2.tasks.map (fun t => (t.id, t.running, t.stops)) = [(0, false, 1)] :=
  ⟨by decide, by decide, rfl, by decide, by decide, by decide⟩

/-- C16, amended: `scheduleRecurringJob` fails exactly when the job's cron
expression does not pass `isValidCronExpression` or `cron.schedule` throws on
it.  When the expression does not pass `isValidCronExpression`, the error is
the invalid-cron error and the registry is left as it was.  When the expression
passes and `cron.schedule` accepts it, on a well-formed registry, the call
succeeds: the registry maps the job's id to a task with a new handle, created
for this job and started once; every task the id was mapped to before has been
stopped; the entries of all other job ids are as before, and the tasks the id
was not mapped to are untouched. -/
theorem C16_scheduleRecurringJob (nodeCron : String → Bool) (job : Doc) (s : Scheduler)
    (hwf : s.wf) :
    ((∃ e, (scheduleRecurringJob nodeCron job s).1 = Except.error e) ↔
      (isValidCronExpression job.cur.cronExpression = false ∨
        nodeCron (job.cur.cronExpression.getD "undefined") = false)) ∧
    (isValidCronExpression job.cur.cronExpression = false →
      scheduleRecurringJob nodeCron job s =
        (Except.error (invalidCron job.cur.cronExpression), s)) ∧
    (isValidCronExpression job.cur.cronExpression = true →
      nodeCron (job.cur.cronExpression.getD "undefined") = true →
      (scheduleRecurringJob nodeCron job s).1 = Except.ok () ∧
      (scheduleRecurringJob nodeCron job s).2.get job.cur._id = some s.tasks.length ∧
      (∀ t ∈ s.tasks, t.id ≠ s.tasks.length) ∧
      (⟨s.tasks.length, job.cur.cronExpression, job, true, 1, 0⟩ : CronTask) ∈
        (scheduleRecurringJob nodeCron job s).2.tasks ∧
      (∀ t ∈ (scheduleRecurringJob nodeCron job s).2.tasks, t.id = s.tasks.length →
        t = ⟨s.tasks.length, job.cur.cronExpression, job, true, 1, 0⟩) ∧
      (∀ old, s.get job.cur._id = some old →
        ∀ t ∈ (scheduleRecurringJob nodeCron job s).2.tasks, t.id = old →
          t.running = false ∧ ∃ u ∈ s.tasks, t = u.stopped) ∧
      (∀ k, k ≠ job.cur._id → (scheduleRecurringJob nodeCron job s).2.get k = s.get k) ∧
      (∀ t ∈ s.tasks, s.get job.cur._id ≠ some t.id →
        t ∈ (scheduleRecurringJob nodeCron job s).2.tasks)) := by
  refine ⟨?_, scheduleRecurringJob_invalid nodeCron job s,
    scheduleRecurringJob_effect nodeCron job s hwf⟩
  cases h : isValidCronExpression job.cur.cronExpression
  · rw [scheduleRecurringJob_invalid nodeCron job s h]
    simp
  · cases hn : nodeCron (job.cur.cronExpression.getD "undefined")
    · rw [scheduleRecurringJob_thrown nodeCron job s h hn]
      simp
    · rw [scheduleRecurringJob_valid nodeCron job s h hn]
      simp

/-- C16, amended, at a concrete input: the daily job is scheduled again on a
registry that already holds a running task for it; the new handle is 1 and the
task with handle 0 is stopped. -/
theorem C16_scheduleRecurringJob_witness :
    (scheduleRecurringJob acceptsUnlessZeroStep (Doc.load dailyJob) dailyRegistry).2.get 2 =
      some 1 ∧
    (∀ t ∈ (scheduleRecurringJob acceptsUnlessZeroStep (Doc.load dailyJob)
        dailyRegistry).2.tasks, t.id = 0 →
      t.running = false ∧ ∃ u ∈ dailyRegistry.tasks, t = u.stopped) :=
  ⟨((C16_scheduleRecurringJob acceptsUnlessZeroStep (Doc.load dailyJob) dailyRegistry
      (by decide)).2.2 (by decide) (by decide)).2.1,
   ((C16_scheduleRecurringJob acceptsUnlessZeroStep (Doc.load dailyJob) dailyRegistry
      (by decide)).2.2 (by decide) (by decide)).2.2.2.2.2.1 0 (by decide)⟩

namespace schedulerService

theorem find?_filter_of_imp (l : List (Nat × Nat)) (p : Nat × Nat → Bool) (k : Nat)
    (h : ∀ e ∈ l, e.1 = k → p e = true) :
    (l.filter p).find? (fun e => decide (e.1 = k)) = l.find? (fun e => decide (e.1 = k)) := by
  induction l with
  | nil => rfl
  | cons a l ih =>
    have ih2 := ih (fun e he => h e (List.mem_cons_of_mem _ he))
    rw [List.filter_cons]
    by_cases hk : a.1 = k
    · have := h a (List.mem_cons_self _ _) hk
      simp [this, hk]
    · cases hp : p a
      · simp [hk, ih2]
      · simp [hk, ih2]

theorem isActiveRecurring_iff (jobs : List Job) (k : Nat) :
    isActiveRecurring jobs k = true ↔
      ∃ j ∈ jobs, j._id = k ∧ j.type = JobType.RECURRING ∧
        (j.status = JobStatus.PENDING ∨ j.status = JobStatus.ACTIVE) := by
  simp only [isActiveRecurring, List.any_eq_true, Bool.and_eq_true, Bool.or_eq_true,
    decide_eq_true_eq]
  constructor
  · rintro ⟨j, hj, ⟨h1, h2⟩, h3⟩
    exact ⟨j, hj, h1, h2, h3⟩
  · rintro ⟨j, hj, h1, h2, h3⟩
    exact ⟨j, hj, ⟨h1, h2⟩, h3⟩

end schedulerService

/-- C17: on a well-formed registry and for every store state, after
`cleanupStaleTasks` the keys of the registry are exactly the previous keys that
are ids of stored RECURRING jobs with status PENDING or ACTIVE; the task of
every removed entry is among the stale handles, and the tasks are the previous
ones with exactly the stale ones stopped once more (`stops` one higher, not
running); every retained entry maps to the same task, which is not stale and
so is left as it was. -/
theorem C17_cleanupStaleTasks (jobs : List Job) (s : Scheduler) (hwf : s.wf) :
    (∀ k, k ∈ (cleanupStaleTasks jobs s).keys ↔
      k ∈ s.keys ∧ ∃ j ∈ jobs, j._id = k ∧ j.type = JobType.RECURRING ∧
        (j.status = JobStatus.PENDING ∨ j.status = JobStatus.ACTIVE)) ∧
    (∀ k h, (k, h) ∈ s.scheduledTasks → k ∉ (cleanupStaleTasks jobs s).keys →
      h ∈ staleHandles jobs s) ∧
    (cleanupStaleTasks jobs s).tasks =
      s.tasks.map (fun t => if t.id ∈ staleHandles jobs s then t.stopped else t) ∧
    (∀ k ∈ (cleanupStaleTasks jobs s).keys,
      (cleanupStaleTasks jobs s).get k = s.get k ∧
      ∀ h, s.get k = some h → h ∉ staleHandles jobs s) := by
  obtain ⟨hk, hh, -, -⟩ := hwf
  rw [cleanupStaleTasks_spec jobs s hk hh]
  have hkeys : ∀ k, k ∈ (Scheduler.keys
      ⟨s.scheduledTasks.filter (fun e => isActiveRecurring jobs e.1),
        s.tasks.map (fun t => if t.id ∈ staleHandles jobs s then t.stopped else t)⟩) ↔
      k ∈ s.keys ∧ isActiveRecurring jobs k = true := by
    intro k
    simp only [Scheduler.keys, List.mem_map, List.mem_filter]
    constructor
    · rintro ⟨e, ⟨he, ha⟩, rfl⟩
      exact ⟨⟨e, he, rfl⟩, ha⟩
    · rintro ⟨⟨e, he, rfl⟩, ha⟩
      exact ⟨e, ⟨he, ha⟩, rfl⟩
  refine ⟨?_, ?_, rfl, ?_⟩
  · intro k
    rw [hkeys, isActiveRecurring_iff]
  · intro k h hmem hnot
    rw [hkeys] at hnot
    have hna : isActiveRecurring jobs k = false := by
      cases ha : isActiveRecurring jobs k
      · rfl
      · exact absurd ⟨List.mem_map.mpr ⟨(k, h), hmem, rfl⟩, ha⟩ hnot
    exact List.mem_map.mpr ⟨(k, h), List.mem_filter.mpr ⟨hmem, by simp [hna]⟩, rfl⟩
  · intro k hkmem
    have hact := ((hkeys k).mp hkmem).2
    constructor
    · simp only [Scheduler.get]
      rw [find?_filter_of_imp]
      intro e _ hek
      rw [hek]; exact hact
    · intro h hget hstale
      obtain ⟨e, he, heh⟩ := List.mem_map.mp hstale
      obtain ⟨he1, he2⟩ := List.mem_filter.mp he
      have hmem := get_some_mem hget
      have := List.inj_on_of_nodup_map hh he1 hmem heh
      rw [this] at he2
      simp [hact] at he2

/-- C17 at a concrete input: the registry holds the daily job's task, and the
store holds that job as COMPLETED: the entry is removed and its task stopped. -/
theorem C17_cleanupStaleTasks_witness :
    (cleanupStaleTasks [{ dailyJob with status := JobStatus.COMPLETED }] dailyRegistry).keys =
      [] ∧
    (cleanupStaleTasks [{ dailyJob with status := JobStatus.COMPLETED }] dailyRegistry).tasks =
      dailyRegistry.tasks.map (fun t =>
        if t.id ∈ staleHandles [{ dailyJob with status := JobStatus.COMPLETED }] dailyRegistry
        then t.stopped else t) :=
  ⟨by decide,
   (C17_cleanupStaleTasks [{ dailyJob with status := JobStatus.COMPLETED }] dailyRegistry
      (by decide)).2.2.1⟩

namespace schedulerService

/-- The keys after a successful `scheduleRecurringJob`: the previous ones and
the id of the job. -/
theorem scheduleRecurringJob_keys (nodeCron : String → Bool) (job : Doc) (s : Scheduler)
    (h : isValidCronExpression job.cur.cronExpression = true)
    (hn : nodeCron (job.cur.cronExpression.getD "undefined") = true) (k : Nat) :
    k ∈ (scheduleRecurringJob nodeCron job s).2.keys ↔ k ∈ s.keys ∨ k = job.cur._id := by
  rw [scheduleRecurringJob_valid nodeCron job s h hn]
  simp only [Scheduler.keys, List.map_append, List.mem_append, List.mem_map, List.mem_filter,
    List.map_cons, List.map_nil, List.mem_singleton]
  constructor
  · rintro (⟨e, ⟨he, -⟩, rfl⟩ | hk)
    · exact Or.inl ⟨e, he, rfl⟩
    · exact Or.inr hk
  · rintro (⟨e, he, rfl⟩ | hk)
    · by_cases hek : e.1 = job.cur._id
      · exact Or.inr hek
      · exact Or.inl ⟨e, ⟨he, by simp [hek]⟩, rfl⟩
    · exact Or.inr hk

/-- The keys after a `scheduleRecurringJob` whose `cron.schedule` throws: the
previous ones without the id of the job. -/
theorem scheduleRecurringJob_thrown_keys (nodeCron : String → Bool) (job : Doc)
    (s : Scheduler) (h : isValidCronExpression job.cur.cronExpression = true)
    (hn : nodeCron (job.cur.cronExpression.getD "undefined") = false) (k : Nat) :
    k ∈ (scheduleRecurringJob nodeCron job s).2.keys ↔ k ∈ s.keys ∧ k ≠ job.cur._id := by
  rw [scheduleRecurringJob_thrown nodeCron job s h hn]
  simp only [Scheduler.keys, removeExisting_scheduledTasks, List.mem_map, List.mem_filter]
  constructor
  · rintro ⟨e, ⟨he, hne⟩, rfl⟩
    exact ⟨⟨e, he, rfl⟩, by simpa using hne⟩
  · rintro ⟨⟨e, he, rfl⟩, hne⟩
    exact ⟨e, ⟨he, by simpa using hne⟩, rfl⟩

/-- The keys after the loop of `initializeScheduler` over jobs with distinct
ids none of which is a key yet: the previous keys and the ids of the jobs before
the first one whose schedule attempt fails. -/
theorem initializeLoop_keys (nodeCron : String → Bool) (l : List Job) (s : Scheduler)
    (hnodup : (l.map (fun j => j._id)).Nodup) (hfresh : ∀ j ∈ l, j._id ∉ s.keys) (k : Nat) :
    k ∈ (initializeLoop nodeCron l s).2.keys ↔
      k ∈ s.keys ∨ ∃ j ∈ l.takeWhile (attemptSucceeds nodeCron), j._id = k := by
  induction l generalizing s with
  | nil => simp [initializeLoop]
  | cons a l ih =>
    simp only [List.map_cons, List.nodup_cons, List.mem_map, not_exists, not_and] at hnodup
    cases hv : isValidCronExpression a.cronExpression
    · have := scheduleRecurringJob_invalid nodeCron (Doc.load a) s hv
      simp [initializeLoop, this, List.takeWhile_cons, attemptSucceeds, hv]
    · have hval : isValidCronExpression (Doc.load a).cur.cronExpression = true := hv
      cases hn : nodeCron (a.cronExpression.getD "undefined")
      · have hn2 : nodeCron ((Doc.load a).cur.cronExpression.getD "undefined") = false := hn
        have h1 := scheduleRecurringJob_thrown nodeCron (Doc.load a) s hval hn2
        have h2 := scheduleRecurringJob_thrown_keys nodeCron (Doc.load a) s hval hn2 k
        have ha : a._id ∉ s.keys := hfresh a (List.mem_cons_self _ _)
        simp only [initializeLoop, h1, List.takeWhile_cons, attemptSucceeds, hv, hn,
          Bool.and_false, Bool.false_eq_true, if_false, List.not_mem_nil, false_and,
          exists_false, or_false]
        rw [h1] at h2
        rw [h2]
        constructor
        · exact fun h => h.1
        · intro h
          exact ⟨h, fun e => ha (by rw [← show k = a._id from e]; exact h)⟩
      · have hn2 : nodeCron ((Doc.load a).cur.cronExpression.getD "undefined") = true := hn
        have h1 := scheduleRecurringJob_valid nodeCron (Doc.load a) s hval hn2
        have h2 := scheduleRecurringJob_keys nodeCron (Doc.load a) s hval hn2
        cases hr : scheduleRecurringJob nodeCron (Doc.load a) s with
        | mk res s1 =>
          rw [hr] at h2
          have hres : res = Except.ok () := by
            rw [h1] at hr
            exact (Prod.mk.inj hr).1.symm
          subst hres
          have hfresh1 : ∀ j ∈ l, j._id ∉ s1.keys := by
            intro j hj hmem
            rcases (h2 j._id).mp hmem with h | h
            · exact hfresh j (List.mem_cons_of_mem _ hj) h
            · exact hnodup.1 j hj h
          simp only [initializeLoop, hr, List.takeWhile_cons, attemptSucceeds, hv, hn,
            Bool.and_self, if_true, List.mem_cons, exists_eq_or_imp]
          rw [ih s1 hnodup.2 hfresh1, h2]
          simp only [Doc.load, attemptSucceeds]
          constructor
          · rintro ((h | h) | h)
            · exact Or.inl h
            · exact Or.inr (Or.inl h.symm)
            · exact Or.inr (Or.inr h)
          · rintro (h | h | h)
            · exact Or.inl (Or.inl h)
            · exact Or.inl (Or.inr h.symm)
            · exact Or.inr h

end schedulerService

/-- C18, as stated, fails: the store holds two pending RECURRING jobs, the first
with an expression that does not parse and then the daily job, whose expression
parses.  After `initializeScheduler` on the empty registry the daily job is not
scheduled: the registry is still empty. -/
theorem C18_counterexample :
    isValidCronExpression badCronJob.cronExpression = false ∧
    isValidCronExpression dailyJob.cronExpression = true ∧
    acceptsUnlessZeroStep "0 9 * * *" = true ∧
    isActiveRecurring [badCronJob, dailyJob] 2 = true ∧
    (initializeScheduler acceptsUnlessZeroStep [badCronJob, dailyJob] Scheduler.empty).keys =
      [] := by
  decide

/-- C18, amended: starting from the empty registry, for every store state (ids
being unique), after `initializeScheduler` the keys of the registry are exactly
the ids of the stored RECURRING jobs with status PENDING or ACTIVE that come,
in the order of the query result, before the first such job whose schedule
attempt fails, because its expression does not pass `isValidCronExpression` or
because `cron.schedule` throws on it: the first failing schedule attempt ends
the loop.  When the attempt succeeds for every such job, the keys are the ids
of all of them. -/
theorem C18_initializeScheduler (nodeCron : String → Bool) (jobs : List Job)
    (hu : uniqueIds jobs) :
    (∀ k, k ∈ (initializeScheduler nodeCron jobs Scheduler.empty).keys ↔
      ∃ j ∈ (findRecurringActive jobs).takeWhile (attemptSucceeds nodeCron), j._id = k) ∧
    ((∀ j ∈ findRecurringActive jobs, attemptSucceeds nodeCron j = true) →
      ∀ k, k ∈ (initializeScheduler nodeCron jobs Scheduler.empty).keys ↔
        ∃ j ∈ jobs, j._id = k ∧ j.type = JobType.RECURRING ∧
          (j.status = JobStatus.PENDING ∨ j.status = JobStatus.ACTIVE) ∧
          isValidCronExpression j.cronExpression = true ∧
          nodeCron (j.cronExpression.getD "undefined") = true) := by
  have hnodup : ((findRecurringActive jobs).map (fun j => j._id)).Nodup := by
    unfold uniqueIds at hu
    exact hu.sublist ((List.filter_sublist jobs).map _)
  have hkeys : ∀ k, k ∈ (initializeScheduler nodeCron jobs Scheduler.empty).keys ↔
      ∃ j ∈ (findRecurringActive jobs).takeWhile (attemptSucceeds nodeCron), j._id = k := by
    intro k
    unfold initializeScheduler
    rw [initializeLoop_keys nodeCron _ _ hnodup (by simp [Scheduler.empty, Scheduler.keys])]
    simp [Scheduler.empty, Scheduler.keys]
  refine ⟨hkeys, ?_⟩
  intro hall k
  rw [hkeys, List.takeWhile_eq_self_iff.mpr (by simpa using hall)]
  simp only [findRecurringActive, List.mem_filter, Bool.and_eq_true, Bool.or_eq_true,
    decide_eq_true_eq]
  constructor
  · rintro ⟨j, ⟨hj, ht, hs⟩, hid⟩
    have := hall j (by simp [findRecurringActive, List.mem_filter, hj, ht, hs])
    simp only [attemptSucceeds, Bool.and_eq_true] at this
    exact ⟨j, hj, hid, ht, hs, this.1, this.2⟩
  · rintro ⟨j, hj, hid, ht, hs, -, -⟩
    exact ⟨j, ⟨hj, ht, hs⟩, hid⟩

/-- C18, amended, at a concrete input: of three pending RECURRING jobs, the
daily job (id 2), a job with a step of zero (id 3) and one more daily job
(id 4), only the first is scheduled. -/
theorem C18_initializeScheduler_witness :
    2 ∈ (initializeScheduler acceptsUnlessZeroStep zeroStepStore Scheduler.empty).keys ∧
    4 ∉ (initializeScheduler acceptsUnlessZeroStep zeroStepStore Scheduler.empty).keys :=
  ⟨((C18_initializeScheduler acceptsUnlessZeroStep zeroStepStore (by decide)).1 2).mpr
      ⟨dailyJob, by decide, rfl⟩,
   fun h =>
    absurd (((C18_initializeScheduler acceptsUnlessZeroStep zeroStepStore (by decide)).1 4).mp h)
      (by decide)⟩

namespace schedulerService

theorem find?_eq_some_of_unique {α : Type} (l : List α) (p : α → Bool) (a : α)
    (hmem : a ∈ l) (hp : p a = true) (huniq : ∀ x ∈ l, p x = true → x = a) :
    l.find? p = some a := by
  cases hf : l.find? p with
  | none =>
    have := List.find?_eq_none.mp hf a hmem
    exact absurd hp this
  | some x =>
    rw [huniq x (List.mem_of_find?_eq_some hf) (List.find?_some hf)]

/-- The timer callback for a captured document whose record is stored, when
the instance passes validation and the queue answers. -/
theorem timerCallback_ok (c : FireClock) (j r : Job) (w : World)
    (hfind : findById w.jobs j._id = some r)
    (hinst : jobSchemaValid (instanceJob (freshId w.jobs) c j) = true)
    (hup : w.queue.up = true) :
    (timerCallback c (Doc.load j) w).2 =
      { jobs := writeModified w.jobs
            ⟨j, { j with nextRunAt := some (calculateNextRun c.now j.cronExpression) }⟩ ++
          [storedForm (instanceJob (freshId w.jobs) c j)]
        logs := w.logs
        queue :=
          { up := true, nextId := w.queue.nextId + 1
            entries := w.queue.entries ++
              [⟨w.queue.nextId, queueService.immediateRequest (instanceJob (freshId w.jobs) c j)⟩]
            calls := w.queue.calls ++
              [QueueCall.add (queueService.immediateRequest (instanceJob (freshId w.jobs) c j))] } } := by
  have hrid := (findById_some hfind).1
  have hlt := lt_freshId (findById_some hfind).2
  have hsave : writeModified (w.jobs ++ [storedForm (instanceJob (freshId w.jobs) c j)])
        ⟨j, { j with nextRunAt := some (calculateNextRun c.now j.cronExpression) }⟩ =
      writeModified w.jobs ⟨j, { j with nextRunAt := some (calculateNextRun c.now j.cronExpression) }⟩ ++
        [storedForm (instanceJob (freshId w.jobs) c j)] := by
    unfold writeModified
    rw [List.map_append]
    congr 1
    have hne : (storedForm (instanceJob (freshId w.jobs) c j))._id ≠ j._id := by
      show freshId w.jobs ≠ j._id
      omega
    simp [hne]
  have hp : payloadPresent j.payload = true :=
    @jobSchemaValid_payload (instanceJob (freshId w.jobs) c j) hinst
  have hv : saveValid
      ⟨j, { j with nextRunAt := some (calculateNextRun c.now j.cronExpression) }⟩ = true :=
    saveValid_of_unvalidated _ _ hp rfl rfl rfl rfl
  simp only [timerCallback, Doc.load, insertDoc_ok _ hinst, queueService.addImmediateJob,
    queueService.add_up _ _ hup, saveDoc_ok _ hv, Doc.synced]
  rw [hsave]

end schedulerService

/-- C19, as stated, fails, in two ways.  The daily job is scheduled on the
empty registry and its timer fires at instant 1000; the clock shows 1003 when
`calculateNextRun` reads it, after the save of the instance and the enqueue:
the stored `nextRunAt` of the parent is 1003 plus 24 hours, not the firing
instant plus 24 hours.  And for the daily job under a name of 80 characters the
name of the instance has 107 characters: the schema validator rejects the save
of the instance, the callback swallows the error, and the world is as it was,
without new record, enqueue request or `nextRunAt`. -/
theorem C19_counterexample :
    isValidCronExpression dailyJob.cronExpression = true ∧
    lateFire.fired = 1000 ∧
    (findById (fire lateFire 0
        (scheduleRecurringJob acceptsUnlessZeroStep (Doc.load dailyJob) Scheduler.empty).2
        (worldOf dailyJob)).2.jobs 2).map (fun j => j.nextRunAt) =
      some (some (1003 + 24 * 60 * 60 * 1000)) ∧
    1003 + 24 * 60 * 60 * 1000 ≠ lateFire.fired + 24 * 60 * 60 * 1000 ∧
    jobSchemaValid longNameJob = true ∧
    (worldOf longNameJob).queue.up = true ∧
    (fire sampleFire 0
        (scheduleRecurringJob acceptsUnlessZeroStep (Doc.load longNameJob) Scheduler.empty).2
        (worldOf longNameJob)).2 = worldOf longNameJob := by
  decide

/-- C19, amended: a recurring parent job is scheduled, with an expression that
passes `isValidCronExpression` and that `cron.schedule` accepts, on a
well-formed registry; then its timer fires once, the parent's record being
stored with the `nextRunAt` the captured document holds, the instance passing
the schema validators (its name, the parent's followed by 27 characters, within
100 characters, and the payload present), the queue answering and the clock not
running backwards.  The store gains exactly one record, under an id no other
record has: type IMMEDIATE, status PENDING, with the payload of the captured
parent document as an insert stores it, its priority, `maxRetries` and owner,
and its tags (as the schema setter leaves them) followed by
`recurring-instance`; exactly one queue call is made, the immediate enqueue
request for the instance, carrying the payload of the captured document; and
the stored parent has `nextRunAt` equal to the instant `calculateNextRun` reads,
after the save and the enqueue, plus 24 hours, whatever the expression: this is
later than the firing instant and not earlier than the firing instant plus 24
hours. -/
theorem C19_timer_firing (nodeCron : String → Bool) (j p : Job) (s : Scheduler) (w : World)
    (c : FireClock)
    (hwf : s.wf) (hvalid : isValidCronExpression j.cronExpression = true)
    (hlib : nodeCron (j.cronExpression.getD "undefined") = true)
    (hfind : findById w.jobs j._id = some p) (hnext : p.nextRunAt = j.nextRunAt)
    (hinst : jobSchemaValid (instanceJob (freshId w.jobs) c j) = true)
    (hup : w.queue.up = true)
    (htags : ∀ t ∈ j.tags, jsTrim t = t)
    (hclock : c.fired ≤ c.now) :
    ∃ doc inst,
      inst = storedForm doc ∧ doc.payload = j.payload ∧
      (fire c s.tasks.length (scheduleRecurringJob nodeCron (Doc.load j) s).2 w).2.jobs =
        writeModified w.jobs
          ⟨j, { j with nextRunAt := some (c.now + 24 * 60 * 60 * 1000) }⟩ ++ [inst] ∧
      (∀ r ∈ w.jobs, r._id ≠ inst._id) ∧
      inst.type = JobType.IMMEDIATE ∧ inst.status = JobStatus.PENDING ∧
      inst.payload = minimize j.payload ∧ inst.priority = j.priority ∧
      inst.maxRetries = j.maxRetries ∧ inst.owner = j.owner ∧
      inst.tags = j.tags ++ ["recurring-instance"] ∧
      (fire c s.tasks.length
          (scheduleRecurringJob nodeCron (Doc.load j) s).2 w).2.queue.calls =
        w.queue.calls ++ [QueueCall.add (queueService.immediateRequest doc)] ∧
      findById (fire c s.tasks.length
          (scheduleRecurringJob nodeCron (Doc.load j) s).2 w).2.jobs j._id =
        some { p with nextRunAt := some (c.now + 24 * 60 * 60 * 1000) } ∧
      c.fired < c.now + 24 * 60 * 60 * 1000 ∧
      c.fired + 24 * 60 * 60 * 1000 ≤ c.now + 24 * 60 * 60 * 1000 ∧
      (∀ id, id ≠ j._id → id ≠ inst._id →
        findById (fire c s.tasks.length
            (scheduleRecurringJob nodeCron (Doc.load j) s).2 w).2.jobs id =
          findById w.jobs id) := by
  have hv : isValidCronExpression (Doc.load j).cur.cronExpression = true := hvalid
  have hl : nodeCron ((Doc.load j).cur.cronExpression.getD "undefined") = true := hlib
  obtain ⟨-, -, -, hnew, huniq, -, -, -⟩ :=
    scheduleRecurringJob_effect nodeCron (Doc.load j) s hwf hv hl
  have hfindt : (scheduleRecurringJob nodeCron (Doc.load j) s).2.tasks.find?
      (fun t => decide (t.id = s.tasks.length)) =
      some ⟨s.tasks.length, (Doc.load j).cur.cronExpression, Doc.load j, true, 1, 0⟩ :=
    find?_eq_some_of_unique _ _ _ hnew (by simp)
      (fun x hx hp => huniq x hx (by simpa using hp))
  have hfire : (fire c s.tasks.length (scheduleRecurringJob nodeCron (Doc.load j) s).2 w).2 =
      (timerCallback c (Doc.load j) w).2 := by
    simp only [fire, hfindt, if_true]
  rw [hfire, timerCallback_ok c j p w hfind hinst hup]
  have hpid := (findById_some hfind).1
  have hfresh : ∀ r ∈ w.jobs, r._id ≠ freshId w.jobs := by
    intro r hr
    have := lt_freshId hr
    omega
  have hparent : findById (writeModified w.jobs
      ⟨j, { j with nextRunAt := some (calculateNextRun c.now j.cronExpression) }⟩) j._id =
      some { p with nextRunAt := some (calculateNextRun c.now j.cronExpression) } := by
    rw [findById_writeModified, hfind]
    show some (if p._id = j._id then _ else p) = _
    rw [if_pos hpid, mergeModified_nextRunAt j p _ hnext]
  have happ : ∀ (l : List Job) (x : Job) (id : Nat), id ≠ x._id →
      findById (l ++ [x]) id = findById l id := by
    intro l x id hne
    unfold findById
    rw [List.find?_append]
    have : [x].find? (fun r => decide (r._id = id)) = none := by
      simp [Ne.symm hne]
    rw [this]
    simp
  refine ⟨instanceJob (freshId w.jobs) c j, storedForm (instanceJob (freshId w.jobs) c j),
    rfl, rfl, rfl, hfresh, rfl, rfl, rfl, rfl, rfl, rfl, ?_, rfl, ?_, by omega, by omega, ?_⟩
  · show (j.tags ++ ["recurring-instance"]).map jsTrim = j.tags ++ ["recurring-instance"]
    rw [List.map_append]
    congr 1
    · conv => rhs; rw [← List.map_id j.tags]
      exact List.map_congr_left htags
  · rw [happ _ _ _ (by
      have := lt_freshId (findById_some hfind).2
      show j._id ≠ freshId w.jobs
      omega)]
    exact hparent
  · intro id h1 h2
    rw [happ _ _ _ h2]
    exact findById_writeModified_other w.jobs _ id h1

/-- C19, amended, at a concrete input: the daily job, expression `0 9 * * *`,
scheduled on the empty registry; its timer fires at instant 1000 and
`calculateNextRun` reads the clock at 1003.  The stored parent has `nextRunAt`
1003 plus 24 hours and the store holds two records. -/
theorem C19_timer_firing_witness :
    ∃ doc inst,
      inst = storedForm doc ∧ doc.payload = dailyJob.payload ∧
      (fire lateFire 0
          (scheduleRecurringJob acceptsUnlessZeroStep (Doc.load dailyJob) Scheduler.empty).2
          (worldOf dailyJob)).2.jobs =
        writeModified (worldOf dailyJob).jobs
          ⟨dailyJob, { dailyJob with nextRunAt := some (lateFire.now + 24 * 60 * 60 * 1000) }⟩ ++
          [inst] ∧
      (∀ r ∈ (worldOf dailyJob).jobs, r._id ≠ inst._id) ∧
      inst.type = JobType.IMMEDIATE ∧ inst.status = JobStatus.PENDING ∧
      inst.payload = minimize dailyJob.payload ∧ inst.priority = dailyJob.priority ∧
      inst.maxRetries = dailyJob.maxRetries ∧ inst.owner = dailyJob.owner ∧
      inst.tags = dailyJob.tags ++ ["recurring-instance"] ∧
      (fire lateFire 0
          (scheduleRecurringJob acceptsUnlessZeroStep (Doc.load dailyJob) Scheduler.empty).2
          (worldOf dailyJob)).2.queue.calls =
        (worldOf dailyJob).queue.calls ++ [QueueCall.add (queueService.immediateRequest doc)] ∧
      findById (fire lateFire 0
          (scheduleRecurringJob acceptsUnlessZeroStep (Doc.load dailyJob) Scheduler.empty).2
          (worldOf dailyJob)).2.jobs dailyJob._id =
        some { dailyJob with nextRunAt := some (lateFire.now + 24 * 60 * 60 * 1000) } ∧
      lateFire.fired < lateFire.now + 24 * 60 * 60 * 1000 ∧
      lateFire.fired + 24 * 60 * 60 * 1000 ≤ lateFire.now + 24 * 60 * 60 * 1000 ∧
      (∀ id, id ≠ dailyJob._id → id ≠ inst._id →
        findById (fire lateFire 0
            (scheduleRecurringJob acceptsUnlessZeroStep (Doc.load dailyJob) Scheduler.empty).2
            (worldOf dailyJob)).2.jobs id =
          findById (worldOf dailyJob).jobs id) :=
  C19_timer_firing acceptsUnlessZeroStep dailyJob dailyJob Scheduler.empty (worldOf dailyJob)
    lateFire (by decide) (by decide) (by decide) rfl rfl (by decide) rfl (by decide) (by decide)

end Chronos

namespace Chronos

open schedulerService

/-- C22: in every registry state reached from the empty registry by a sequence
of `scheduleRecurringJob`, `unscheduleRecurringJob`, `rescheduleRecurringJob`
and `cleanupStaleTasks` calls, failing calls included and whatever expressions
`cron.schedule` accepts: the tasks that have been
started and not stopped are exactly the tasks whose handle is a value of the
map, every value of the map is the handle of exactly one created task, and
those tasks are the running ones; the keys of the map are distinct, so each job
id has at most one task; and no task has been stopped more than once. -/
theorem C22_registry_no_leak (nodeCron : String → Bool) (calls : List RegistryCall) :
    (∀ t ∈ (runCalls nodeCron calls Scheduler.empty).tasks,
      ((1 ≤ t.starts ∧ t.stops = 0) ↔ t.id ∈ (runCalls nodeCron calls Scheduler.empty).handles) ∧
      (t.running = true ↔ t.id ∈ (runCalls nodeCron calls Scheduler.empty).handles)) ∧
    (∀ h ∈ (runCalls nodeCron calls Scheduler.empty).handles,
      ∃ t ∈ (runCalls nodeCron calls Scheduler.empty).tasks, t.id = h) ∧
    ((runCalls nodeCron calls Scheduler.empty).tasks.map (fun t => t.id)).Nodup ∧
    (runCalls nodeCron calls Scheduler.empty).handles.Nodup ∧
    ((runCalls nodeCron calls Scheduler.empty).scheduledTasks.map (fun e => e.1)).Nodup ∧
    (∀ t ∈ (runCalls nodeCron calls Scheduler.empty).tasks, t.stops ≤ 1) := by
  obtain ⟨hk, hh, hlt, hids, hst⟩ := noLeak_runCalls nodeCron calls Scheduler.empty noLeak_empty
  refine ⟨?_, ?_, ?_, hh, hk, ?_⟩
  · intro t ht
    obtain ⟨h1, h2⟩ := hst t ht
    by_cases hin : t.id ∈ (runCalls nodeCron calls Scheduler.empty).handles
    · have := h1 hin
      simp only [hin, iff_true]
      exact ⟨⟨by omega, this.2.2⟩, this.1⟩
    · have := h2 hin
      simp only [hin, iff_false, not_and, this.1, Bool.false_eq_true, not_false_eq_true,
        and_true]
      intro _
      omega
  · intro h hmem
    have : h ∈ (runCalls nodeCron calls Scheduler.empty).tasks.map (fun t => t.id) := by
      rw [hids]
      exact List.mem_range.mpr (hlt h hmem)
    obtain ⟨t, ht, hid⟩ := List.mem_map.mp this
    exact ⟨t, ht, hid⟩
  · rw [hids]
    exact List.nodup_range _
  · intro t ht
    obtain ⟨h1, h2⟩ := hst t ht
    by_cases hin : t.id ∈ (runCalls nodeCron calls Scheduler.empty).handles
    · have := h1 hin
      omega
    · have := h2 hin
      omega

end Chronos

namespace Chronos

/-! ## Claims about the helpers -/

/-- C23, as stated, fails: for the whole number of milliseconds that the
double `1e25` holds, the code computes in doubles.  The quotient by 1000 is
rounded to `1e22`, the quotients by 60 are rounded to 53 significant bits, and
the hours print their 17 shortest digits: the text ends in 44 minutes and 40
seconds, where `s = floor(ms / 1000)` gives `s / 60 mod 60 = 26` and
`s mod 60 = 9`. -/
theorem C23_counterexample :
    toDouble tenToThe25 = tenToThe25 ∧
    formatDuration tenToThe25 = "2777777777777777700h 44m 40s" ∧
    toString (tenToThe25 / 1000 / 3600) ++ "h " ++ toString (tenToThe25 / 1000 / 60 % 60) ++
        "m " ++ toString (tenToThe25 / 1000 % 60) ++ "s" =
      "2777777777777778029h 26m 9s" := by
  decide

/-- C23, amended: for every whole number of milliseconds `ms` below `2 ^ 53`,
with `s = ms / 1000`, `h = s / 3600`, `m = (s / 60) % 60` and `r = s % 60`,
`formatDuration ms` is the text of `h`, `m` and `r` in the shape "h m s" when
`s ≥ 3600`, of `m` and `r` in the shape "m s" when `60 ≤ s < 3600`, and of `r`
alone when `s < 60`; and `m < 60`, `r < 60` and `3600 * h + 60 * m + r = s`,
the components left out being zero (`h = 0` below 3600, `m = 0` below 60). -/
theorem C23_formatDuration (ms : Nat) (hsafe : ms < 2 ^ 53) :
    formatDuration ms =
      (if ms / 1000 ≥ 3600 then
        toString (ms / 1000 / 3600) ++ "h " ++ toString (ms / 1000 / 60 % 60) ++ "m " ++
          toString (ms / 1000 % 60) ++ "s"
      else if ms / 1000 ≥ 60 then
        toString (ms / 1000 / 60 % 60) ++ "m " ++ toString (ms / 1000 % 60) ++ "s"
      else toString (ms / 1000 % 60) ++ "s") ∧
    ms / 1000 / 60 % 60 < 60 ∧ ms / 1000 % 60 < 60 ∧
    3600 * (ms / 1000 / 3600) + 60 * (ms / 1000 / 60 % 60) + ms / 1000 % 60 = ms / 1000 ∧
    (ms / 1000 < 3600 → ms / 1000 / 3600 = 0) ∧
    (ms / 1000 < 60 → ms / 1000 / 60 % 60 = 0) := by
  have hs : ms / 1000 < 2 ^ 53 := lt_of_le_of_lt (Nat.div_le_self _ _) hsafe
  have hm : ms / 1000 / 60 < 2 ^ 53 := lt_of_le_of_lt (Nat.div_le_self _ _) hs
  have hh : ms / 1000 / 60 / 60 < 2 ^ 53 := lt_of_le_of_lt (Nat.div_le_self _ _) hm
  have h60 : ∀ n : Nat, n % 60 < 2 ^ 53 := fun n =>
    lt_trans (Nat.mod_lt n (by norm_num)) (by norm_num)
  unfold formatDuration
  simp only [floorQuotient_exact ms 1000 hsafe (by norm_num),
    floorQuotient_exact (ms / 1000) 60 hs (by norm_num),
    floorQuotient_exact (ms / 1000 / 60) 60 hm (by norm_num),
    numberToString_exact _ hs, numberToString_exact _ hm, numberToString_exact _ hh,
    numberToString_exact _ (h60 _)]
  generalize ms / 1000 = s
  have hh : s / 60 / 60 = s / 3600 := by rw [Nat.div_div_eq_div_mul]
  refine ⟨?_, by omega, by omega, by omega, by omega, by omega⟩
  by_cases h1 : s ≥ 3600
  · have : s / 3600 > 0 := by omega
    simp only [this, if_true, h1, hh]
  · have h0 : ¬ s / 3600 > 0 := by omega
    by_cases h2 : s ≥ 60
    · have hm : s / 60 > 0 := by omega
      have hmod : s / 60 % 60 = s / 60 := by omega
      simp only [hh, h0, if_false, hm, if_true, h1, h2, hmod]
    · have hm : ¬ s / 60 > 0 := by omega
      have hmod : s % 60 = s := by omega
      simp only [hh, h0, if_false, hm, h1, h2, hmod]

/-- C23, amended, at a concrete input: 3725000 milliseconds are one hour, two
minutes and five seconds. -/
theorem C23_formatDuration_witness :
    formatDuration 3725000 = "1h 2m 5s" ∧ 3600 * 1 + 60 * 2 + 5 = 3725000 / 1000 := by
  obtain ⟨h1, -, -, -, -, -⟩ := C23_formatDuration 3725000 (by norm_num)
  exact ⟨h1.trans (by decide), by decide⟩

end Chronos

namespace Chronos

/-- C21: for every string `e`, `isValidCronExpression e` holds exactly when `e`
is an expression of the specification: exactly five fields separated by single
spaces, nothing before or after, each field a star, a decimal number without
leading zeros in the range of the field, or star, slash and such a number, with
the ranges 0 to 59, 0 to 23, 1 to 31, 1 to 12 and 0 to 6.  In particular an
expression holding a comma, a hyphen or a letter (a list, a range, a name) is
rejected, as is every expression that does not split into five fields, for
instance one with a sixth field, and the daily expression `0 9 * * *` is
accepted. -/
theorem C21_isValidCronExpression (e : String) :
    isValidCronExpression (some e) = specCron e ∧
    ((∃ c ∈ e.toList, isListRangeOrNameChar c = true) →
      isValidCronExpression (some e) = false) ∧
    ((splitOnSpace e.toList).length ≠ 5 → isValidCronExpression (some e) = false) ∧
    isValidCronExpression (some "0 9 * * *") = true ∧
    isValidCronExpression (some "0 9 * * * *") = false := by
  have hiff := isValidCronExpression_iff e
  have heq : isValidCronExpression (some e) = specCron e := by
    rw [Bool.eq_iff_iff]; exact hiff
  refine ⟨heq, ?_, ?_, by decide, by decide⟩
  · rintro ⟨c, hc, hbad⟩
    cases hv : isValidCronExpression (some e)
    · rfl
    · exfalso
      simp only [isValidCronExpression, Option.getD_some, Re.test, cronRegex_iff] at hv
      obtain ⟨a, b, c3, d, w, hs, ha, hb, hc3, hd, hw⟩ := hv
      have hallowed : c = spaceChar ∨ c = starChar ∨ c = slashChar ∨ isDigitChar c = true := by
        rw [hs] at hc
        simp only [List.mem_append, List.mem_cons] at hc
        rcases hc with h | h | h | h | h | h | h | h | h
        · exact Or.inr (specField_chars _ _ _ ha c h)
        · exact Or.inl h
        · exact Or.inr (specField_chars _ _ _ hb c h)
        · exact Or.inl h
        · exact Or.inr (specField_chars _ _ _ hc3 c h)
        · exact Or.inl h
        · exact Or.inr (specField_chars _ _ _ hd c h)
        · exact Or.inl h
        · exact Or.inr (specField_chars _ _ _ hw c h)
      have h32 : spaceChar.toNat = 32 := rfl
      have h42 : starChar.toNat = 42 := rfl
      have h47 : slashChar.toNat = 47 := rfl
      simp only [isListRangeOrNameChar, Bool.or_eq_true, Bool.and_eq_true,
        decide_eq_true_eq] at hbad
      rcases hallowed with h | h | h | h
      · rw [h, h32] at hbad; omega
      · rw [h, h42] at hbad; omega
      · rw [h, h47] at hbad; omega
      · simp only [isDigitChar, Bool.and_eq_true, decide_eq_true_eq] at h
        omega
  · intro hlen
    rw [heq]
    unfold specCron
    split
    · next a b c d w hsplit =>
      rw [hsplit] at hlen
      simp at hlen
    · rfl

end Chronos
